import Mathlib

/-!
# upload-auto-service: the status-gated job pipeline

A shallow embedding of the Go packages `constants`, `productmanager`,
`config`, `storage/v1/psql`, `processor/v1/processor`, `agent/agent`,
`bus/handlers` and `bus/amqp`.

* The PostgreSQL database is a record `DB` of five tables (lists of rows).
  The columns `id`, `created_at` and `updated_at` are left out: no query of
  the program reads them.
* Everything outside the repository is an oracle carried by the `World`:
  the storage fault schedule (statement preparation failure, driver failure,
  context deadline), the exit results of the docker subprocess and the
  outcomes of S3 transfers. `json.Unmarshal` is a parameter.
* `World.trace` is the debug log: the methods of the storage, the S3
  service, the processor and the agent start with
  `log.Debug().Msg("calling X method")`, which is one `Event.call`.
* `World.hist` keeps every earlier state of the database, oldest first, so
  that the sequence of stored statuses can be read off.
* Calls of `Agent.Process` that run at the same time are a `System`: each
  call takes one step for each method of the storage it calls, and a
  schedule says whose step comes next.
-/

namespace UploadAuto

/-! ## internal/constants/constants.go -/

namespace constants

def ValidationStatusNew : String := "new"
def ValidationStatusRunning : String := "running"
def ValidationStatusValid : String := "valid"
def ValidationStatusInvalid : String := "invalid"
def ValidationStatusError : String := "error"

def ProcessingStatusNew : String := "new"
def ProcessingStatusRunning : String := "running"
def ProcessingStatusDone : String := "done"
def ProcessingStatusError : String := "error"

def NA : String := "NA"

def ValidValidationStatuses : List String :=
  [ValidationStatusNew, ValidationStatusRunning, ValidationStatusValid,
   ValidationStatusInvalid, ValidationStatusError]

def ValidProcessingStatuses : List String :=
  [ProcessingStatusNew, ProcessingStatusRunning, ProcessingStatusDone,
   ProcessingStatusError]

end constants

/-! ## internal/productmanager/manager.go -/

namespace ProductManager

/-- GetProductCode returns a product code for a given file mode. -/
def GetProductCode (mode : String) : String :=
  if mode = "vcf" then "upload_genotek_b2c_array_vcf"
  else if mode = "tsv" then "upload_23andme_v5_b2c_array_txt"
  else if mode = "csv" then "upload_23andme_v5_b2c_array_txt"
  else "upload_23andme_v5_b2c_array_txt"

end ProductManager

/-! ## Errors, rows, database -/

/-- The error values the pipeline can return. `ExecutionPSQL` carries the text
of the wrapped error (`sql.ErrNoRows` or a driver error). -/
inductive Err where
  | StatementPSQL
  | AlreadyExists (id : String)
  | ExecutionPSQL (cause : String)
  | ContextTimeoutExceeded
  | NotFound (msg : String)
  | InvalidStatus
  | ProcessingBlocked
  | Subprocess
  | JSONUnmarshal
  | S3Transfer
  | JSONMarshal
  | AMQPConsume
  | AMQPPublish
  /-- an error of the database driver handed on as it is, without a wrapper -/
  | Driver (cause : String)
  deriving DecidableEq, Repr

/-- The text of `sql.ErrNoRows`. -/
def ErrNoRows : String := "sql: no rows in result set"

/-- The text standing for any other error of the database driver. -/
def ErrDriver : String := "driver error"

structure FileRow where
  user_id : String
  file_name : String
  deriving DecidableEq, Repr

structure ValidationRow where
  file_name : String
  status : String
  deriving DecidableEq, Repr

structure ProcessingRow where
  file_name : String
  barcode : String
  status : String
  deriving DecidableEq, Repr

structure ProductRow where
  user_id : String
  product_code : String
  deriving DecidableEq, Repr

/-- The five tables created by `Storage.Migrate`. -/
structure DB where
  users : List String
  files : List FileRow
  validation : List ValidationRow
  processing : List ProcessingRow
  products : List ProductRow
  deriving DecidableEq, Repr

def DB.empty : DB := ⟨[], [], [], [], []⟩

/-! ### Queries and updates on single tables -/

/-- The file name of the first row of a user: `SELECT file_name FROM files
WHERE user_id = $1`. -/
def lookupFile (files : List FileRow) (userID : String) : Option String :=
  (files.find? (fun r => r.user_id = userID)).map (fun r => r.file_name)

/-- Would inserting the row (userID, fileName) violate UNIQUE(user_id) or
UNIQUE(file_name). -/
def filesConflict (files : List FileRow) (userID fileName : String) : Bool :=
  files.any fun r => r.user_id = userID || r.file_name = fileName

/-- Would giving the file name to the row of the user violate
UNIQUE(file_name): the user has a row and another user's row holds the name. -/
def filesUpdateConflict (files : List FileRow) (userID fileName : String) : Bool :=
  files.any (fun r => r.user_id = userID) &&
    files.any (fun r => r.user_id != userID && r.file_name = fileName)

/-- The table after `UPDATE files SET file_name = .. WHERE user_id = ..`. -/
def setFileName (files : List FileRow) (userID fileName : String) : List FileRow :=
  files.map fun r => if r.user_id = userID then { r with file_name := fileName } else r

/-- The status of the first row of a file name: `SELECT status FROM validation
WHERE file_name = $1`. -/
def lookupValidation (rows : List ValidationRow) (fileName : String) : Option String :=
  (rows.find? (fun r => r.file_name = fileName)).map (fun r => r.status)

/-- Is there a row for the file name. -/
def hasValidation (rows : List ValidationRow) (fileName : String) : Bool :=
  rows.any fun r => r.file_name = fileName

/-- The table after `UPDATE validation SET status = .. WHERE file_name = ..`. -/
def setValidationStatus (rows : List ValidationRow) (fileName status : String) :
    List ValidationRow :=
  rows.map fun r => if r.file_name = fileName then { r with status := status } else r

/-- The first row of a file name in the processing table. -/
def lookupProcessing (rows : List ProcessingRow) (fileName : String) : Option ProcessingRow :=
  rows.find? (fun r => r.file_name = fileName)

/-- Is there a row for the file name. -/
def hasProcessing (rows : List ProcessingRow) (fileName : String) : Bool :=
  rows.any fun r => r.file_name = fileName

/-- The table after `UPDATE processing SET status = .. WHERE file_name = ..`. -/
def setProcessingStatus (rows : List ProcessingRow) (fileName status : String) :
    List ProcessingRow :=
  rows.map fun r => if r.file_name = fileName then { r with status := status } else r

/-- The product code of the first row of a user. -/
def lookupProduct (rows : List ProductRow) (userID : String) : Option String :=
  (rows.find? (fun r => r.user_id = userID)).map (fun r => r.product_code)

/-- Is there a row for the user. -/
def hasProduct (rows : List ProductRow) (userID : String) : Bool :=
  rows.any fun r => r.user_id = userID

/-- The table after `UPDATE products set product_code = .. where user_id = ..`. -/
def setProductCode (rows : List ProductRow) (userID productCode : String) : List ProductRow :=
  rows.map fun r => if r.user_id = userID then { r with product_code := productCode } else r

/-- The status stored in the validation table for a file name. -/
def DB.validationStatus (db : DB) (fileName : String) : Option String :=
  lookupValidation db.validation fileName

/-- The status stored in the processing table for a file name. -/
def DB.processingStatus (db : DB) (fileName : String) : Option String :=
  (lookupProcessing db.processing fileName).map (fun r => r.status)

/-- The barcode stored in the processing table for a file name. -/
def DB.processingBarcode (db : DB) (fileName : String) : Option String :=
  (lookupProcessing db.processing fileName).map (fun r => r.barcode)

/-- The file name the files table associates with a user. -/
def DB.activeFile (db : DB) (userID : String) : Option String :=
  lookupFile db.files userID

/-- Is there a validation row for the file name with the status `valid`. -/
def DB.fileIsValid (db : DB) (fileName : String) : Bool :=
  db.validation.any fun r =>
    r.file_name = fileName && r.status = constants.ValidationStatusValid

/-- The product code stored for a user. -/
def DB.productCode (db : DB) (userID : String) : Option String :=
  lookupProduct db.products userID

/-! ## The world outside the program -/

/-- What happens to one storage call apart from the statement itself. -/
inductive Fault where
  /-- nothing: the statement is prepared and executed -/
  | none
  /-- the call of `PrepareContext` fails -/
  | prepare
  /-- the driver fails the execution with an error that is no unique violation -/
  | exec
  /-- the case `ctx.Done()` wins the `select`; `landed` tells whether the
  statement was executed all the same. What the blocked goroutine does to
  later calls is left to the rest of the schedule. -/
  | timeout (landed : Bool)
  deriving DecidableEq, Repr

/-- What a storage call meets when the deadline of its context has passed
before the call. Every storage method starts with `s.DB.PrepareContext(ctx, ..)`
on the context it was given, and returns the statement error when that call
returns an error, before the `select` on `ctx.Done()` is reached;
`database/sql` answers a context that is done with `ctx.Err()` before it
takes a connection. A context that is done stays done: in a run of the code
the calls made with the same context after an entry `timeout` meet this
entry. -/
def Fault.deadlinePassed : Fault := Fault.prepare

/-- The result of `cmd.Run()`. -/
inductive CmdResult where
  | exitError
  | finished (stdout : String)
  deriving DecidableEq, Repr

/-- One line of the log that matters here. -/
inductive Event where
  /-- the debug line every method starts with -/
  | call (method : String) (args : List String)
  /-- a subprocess was run -/
  | run (path : String) (args : List String)
  deriving DecidableEq, Repr

structure World where
  db : DB
  hist : List DB
  faults : List Fault
  cmds : List CmdResult
  s3 : List Bool
  trace : List Event
  deriving Repr

/-- A world with the given database in which nothing has happened yet. -/
def World.init (db : DB) (faults : List Fault) (cmds : List CmdResult) (s3 : List Bool) : World :=
  ⟨db, [], faults, cmds, s3, []⟩

/-- All states the database has been in, oldest first. -/
def World.timeline (w : World) : List DB := w.hist ++ [w.db]

/-- The outcome of a call: a value with a nil error, a non-nil error, or a
runtime panic. -/
inductive Res (α : Type) where
  | ok (a : α)
  | fail (e : Err)
  | panic
  deriving DecidableEq, Repr

/-- A method of the program: it runs in a world and leaves a world. -/
def Op (α : Type) : Type := World → Res α × World

def Op.pure {α : Type} (a : α) : Op α := fun w => (Res.ok a, w)

/-- Sequencing with `if err != nil { return err }` in between. -/
def Op.bind {α β : Type} (m : Op α) (f : α → Op β) : Op β := fun w =>
  match m w with
  | (Res.ok a, w1) => f a w1
  | (Res.fail e, w1) => (Res.fail e, w1)
  | (Res.panic, w1) => (Res.panic, w1)

instance : Monad Op where
  pure := Op.pure
  bind := Op.bind

/-- Return a non-nil error. -/
def Op.throw {α : Type} (e : Err) : Op α := fun w => (Res.fail e, w)

/-- Run `m` and hand its error to the caller as a value (`err := m()`). -/
def Op.attempt {α : Type} (m : Op α) : Op (Except Err α) := fun w =>
  match m w with
  | (Res.ok a, w1) => (Res.ok (Except.ok a), w1)
  | (Res.fail e, w1) => (Res.ok (Except.error e), w1)
  | (Res.panic, w1) => (Res.panic, w1)

/-- A step that is taken only under a condition (`if c { ... }`). -/
def Op.when (c : Bool) (m : Op Unit) : Op Unit :=
  if c then m else Op.pure ()

/-- A nil pointer is dereferenced. -/
def Op.nilDeref {α : Type} : Op α := fun w => (Res.panic, w)

/-- The debug line at the start of a method. -/
def logCall (method : String) (args : List String) : Op Unit := fun w =>
  (Res.ok (), { w with trace := w.trace ++ [Event.call method args] })

/-- Take the next entry of the storage fault schedule; an exhausted schedule
means no fault. -/
def takeFault (w : World) : Fault × World :=
  match w.faults with
  | [] => (Fault.none, w)
  | f :: fs => (f, { w with faults := fs })

/-- Replace the database, remembering the state it had. -/
def commit (db : DB) (w : World) : World :=
  { w with db := db, hist := w.hist ++ [w.db] }

/-- The common frame of the writing storage methods: prepare the statement,
execute it under the lock in a goroutine, and wait for the first of
`ctx.Done()`, the error channel and the ok channel. `stmt` is the statement:
the new database, or the error sent on the error channel. -/
def execStmt (stmt : DB → Except Err DB) : Op Unit := fun w =>
  match takeFault w with
  | (Fault.none, w1) =>
    (match stmt w1.db with
     | Except.ok db => (Res.ok (), commit db w1)
     | Except.error e => (Res.fail e, w1))
  | (Fault.prepare, w1) => (Res.fail Err.StatementPSQL, w1)
  | (Fault.exec, w1) => (Res.fail (Err.ExecutionPSQL ErrDriver), w1)
  | (Fault.timeout landed, w1) =>
    (match landed, stmt w1.db with
     | true, Except.ok db => (Res.fail Err.ContextTimeoutExceeded, commit db w1)
     | _, _ => (Res.fail Err.ContextTimeoutExceeded, w1))

/-- The common frame of the reading storage methods. -/
def queryStmt {α : Type} (stmt : DB → Except Err α) : Op α := fun w =>
  match takeFault w with
  | (Fault.none, w1) =>
    (match stmt w1.db with
     | Except.ok a => (Res.ok a, w1)
     | Except.error e => (Res.fail e, w1))
  | (Fault.prepare, w1) => (Res.fail Err.StatementPSQL, w1)
  | (Fault.exec, w1) => (Res.fail (Err.ExecutionPSQL ErrDriver), w1)
  | (Fault.timeout _, w1) => (Res.fail Err.ContextTimeoutExceeded, w1)

/-! ## internal/storage/v1/psql/storage.go -/

namespace Storage

/-- The loop of `checkInSlice`: is the string one of the slice. -/
def checkInSlice : List String → String → Bool
  | [], _ => false
  | x :: xs, value => if x = value then true else checkInSlice xs value

/-- Statement `INSERT INTO users (user_id, created_at) VALUES ($1, $2)` -/
def AddNewUserID (userID : String) : Op Unit := do
  logCall "AddNewUserID" [userID]
  execStmt fun db =>
    if db.users.contains userID then Except.error (Err.AlreadyExists userID)
    else Except.ok { db with users := db.users ++ [userID] }

/-- Statement `SELECT COUNT(1) > 0 from users where user_id = $1` -/
def CheckUserID (userID : String) : Op Unit := do
  logCall "CheckUserID" [userID]
  queryStmt fun db =>
    let userIsPresent := db.users.contains userID
    if !userIsPresent then Except.error (Err.NotFound "user was not found")
    else Except.ok ()

/-- Statement `INSERT INTO files (user_id, file_name, updated_at) VALUES ($1, $2, $3)`;
both `user_id` and `file_name` are UNIQUE. -/
def AddNewUserFilePair (userID fileName : String) : Op Unit := do
  logCall "AddNewUserFilePair" [userID, fileName]
  execStmt fun db =>
    if filesConflict db.files userID fileName then
      Except.error (Err.AlreadyExists userID)
    else Except.ok { db with files := db.files ++ [⟨userID, fileName⟩] }

/-- Statement `UPDATE files SET (file_name, updated_at) = ($1, $2) WHERE user_id = $3`;
the update violates UNIQUE(file_name) when a row is updated while another
user's row holds the file name. -/
def UpdateUserFilePair (userID fileName : String) : Op Unit := do
  logCall "UpdateUserFilePair" [userID, fileName]
  execStmt fun db =>
    if filesUpdateConflict db.files userID fileName then
      Except.error (Err.AlreadyExists userID)
    else Except.ok { db with files := setFileName db.files userID fileName }

/-- Statement `SELECT file_name FROM files WHERE user_id = $1`, scanned with `QueryRow`:
no row is `sql.ErrNoRows`, wrapped like every other error. -/
def GetFileNameForUser (userID : String) : Op String := do
  logCall "GetFileNameForUser" [userID]
  queryStmt fun db =>
    match db.activeFile userID with
    | some fileName => Except.ok fileName
    | none => Except.error (Err.ExecutionPSQL ErrNoRows)

/-- Statement `INSERT INTO validation (file_name, status, updated_at) VALUES ($1, $2, $3)` -/
def AddNewValidationEntry (fileName : String) : Op Unit := do
  logCall "AddNewValidationEntry" [fileName]
  execStmt fun db =>
    if hasValidation db.validation fileName then
      Except.error (Err.AlreadyExists fileName)
    else Except.ok { db with
      validation := db.validation ++ [⟨fileName, constants.ValidationStatusNew⟩] }

/-- Statement `UPDATE validation SET (status, updated_at) = ($1, $2) WHERE file_name = $3`,
after the status has been checked against `ValidValidationStatuses`. -/
def UpdateValidationStatus (fileName status : String) : Op Unit := do
  logCall "UpdateValidationStatus" [fileName, status]
  if !checkInSlice constants.ValidValidationStatuses status then
    Op.throw Err.InvalidStatus
  else
    execStmt fun db => Except.ok { db with
      validation := setValidationStatus db.validation fileName status }

/-- Statement `SELECT COUNT(1) > 0 from validation where file_name = $1 AND status = $2`
with the status `valid`. -/
def CheckIsValid (fileName : String) : Op Unit := do
  logCall "CheckIsValid" [fileName]
  queryStmt fun db =>
    let fileIsValid := db.fileIsValid fileName
    if !fileIsValid then Except.error (Err.NotFound "file is not valid")
    else Except.ok ()

/-- Statement `INSERT INTO processing (file_name, barcode, status, updated_at) VALUES ($1, $2, $3, $4)` -/
def AddNewProcessingEntry (fileName barcode : String) : Op Unit := do
  logCall "AddNewProcessingEntry" [fileName, barcode]
  execStmt fun db =>
    if hasProcessing db.processing fileName then
      Except.error (Err.AlreadyExists fileName)
    else Except.ok { db with
      processing := db.processing ++ [⟨fileName, barcode, constants.ProcessingStatusNew⟩] }

/-- Statement `UPDATE processing SET (status, updated_at) = ($1, $2) WHERE file_name = $3`,
after the status has been checked against `ValidProcessingStatuses`. -/
def UpdateProcessingStatus (fileName status : String) : Op Unit := do
  logCall "UpdateProcessingStatus" [fileName, status]
  if !checkInSlice constants.ValidProcessingStatuses status then
    Op.throw Err.InvalidStatus
  else
    execStmt fun db => Except.ok { db with
      processing := setProcessingStatus db.processing fileName status }

/-- Statement `SELECT status from processing where file_name = $1`; no row is answered
with `constants.NA` on the ok channel. -/
def GetProcessingStatus (fileName : String) : Op String := do
  logCall "GetProcessingStatus" [fileName]
  queryStmt fun db =>
    match db.processingStatus fileName with
    | some processingStatus => Except.ok processingStatus
    | none => Except.ok constants.NA

/-- Statement `INSERT INTO products (user_id, product_code) VALUES ($1, $2)` -/
def AddNewProductCode (userID productCode : String) : Op Unit := do
  logCall "AddNewProductCode" [userID, productCode]
  execStmt fun db =>
    if hasProduct db.products userID then
      Except.error (Err.AlreadyExists userID)
    else Except.ok { db with products := db.products ++ [⟨userID, productCode⟩] }

/-- Statement `UPDATE products set product_code = $1 where user_id = $2` -/
def UpdateProductCode (userID productCode : String) : Op Unit := do
  logCall "UpdateProductCode" [userID, productCode]
  execStmt fun db => Except.ok { db with
    products := setProductCode db.products userID productCode }

/-- Statement `SELECT product_code from products where user_id = $1`; no row is
answered with `constants.NA`. -/
def GetProductCode (userID : String) : Op String := do
  logCall "GetProductCode" [userID]
  queryStmt fun db =>
    match db.productCode userID with
    | some productCode => Except.ok productCode
    | none => Except.ok constants.NA

/-- Statement `SELECT user_id from users` -/
def GetAllUserIDs : Op (List String) := do
  logCall "GetAllUserIDs" []
  queryStmt fun db => Except.ok db.users

/-- The five statements of `RemoveUserData`, in the order in which they are
prepared and executed: `DELETE FROM users WHERE user_id = $1`, the same for
`files` and `products`, then `DELETE FROM validation WHERE file_name = $1` and
the same for `processing`. -/
def removeStmts (userID fileName : String) : List (DB → DB) :=
  [fun db => { db with users := db.users.filter fun u => u != userID },
   fun db => { db with files := db.files.filter fun r => r.user_id != userID },
   fun db => { db with products := db.products.filter fun r => r.user_id != userID },
   fun db => { db with validation := db.validation.filter fun r => r.file_name != fileName },
   fun db => { db with processing := db.processing.filter fun r => r.file_name != fileName }]

/-- The goroutine of `RemoveUserData`: the statements are executed one after
the other, each on its own (no transaction); the first error of the driver is
sent on as it is and ends the goroutine. The schedule holds one entry for
each statement; an exhausted schedule means no fault. On `timeout` the case
`ctx.Done()` wins the `select` while the statement is under way. -/
def execDeletes : List (DB → DB) → List Fault → World → Res Unit × World
  | [], _, w => (Res.ok (), w)
  | stmt :: rest, [], w => execDeletes rest [] (commit (stmt w.db) w)
  | _ :: _, Fault.exec :: _, w => (Res.fail (Err.Driver ErrDriver), w)
  | stmt :: _, Fault.timeout true :: _, w =>
    (Res.fail Err.ContextTimeoutExceeded, commit (stmt w.db) w)
  | _ :: _, Fault.timeout false :: _, w => (Res.fail Err.ContextTimeoutExceeded, w)
  | stmt :: rest, _ :: fs, w => execDeletes rest fs (commit (stmt w.db) w)

/-- RemoveUserData removes all data for one user. The five statements are
prepared first, and a statement that cannot be prepared ends the call before
any is executed. The call takes five entries of the schedule, one for each
statement. -/
def RemoveUserData (userID fileName : String) : Op Unit := do
  logCall "RemoveUserData" [userID, fileName]
  fun w =>
    let entries := w.faults.take 5
    let w1 := { w with faults := w.faults.drop 5 }
    if Fault.prepare ∈ entries then (Res.fail Err.StatementPSQL, w1)
    else execDeletes (removeStmts userID fileName) entries w1

/-- The sixteen methods of `Storage` that take a context, each with its
result dropped. -/
def operations (userID fileName status barcode productCode : String) : List (Op Unit) :=
  [RemoveUserData userID fileName,
   GetAllUserIDs >>= fun _ => Pure.pure (),
   AddNewUserID userID,
   CheckUserID userID,
   AddNewUserFilePair userID fileName,
   UpdateUserFilePair userID fileName,
   GetFileNameForUser userID >>= fun _ => Pure.pure (),
   AddNewValidationEntry fileName,
   UpdateValidationStatus fileName status,
   CheckIsValid fileName,
   AddNewProcessingEntry fileName barcode,
   UpdateProcessingStatus fileName status,
   GetProcessingStatus fileName >>= fun _ => Pure.pure (),
   AddNewProductCode userID productCode,
   UpdateProductCode userID productCode,
   GetProductCode userID >>= fun _ => Pure.pure ()]

end Storage

/-! ## internal/config/config.go -/

/-- The `Docker` part of the configuration. -/
structure Config where
  DockerImageName : String
  MountDir : String
  DockerExecutable : String
  deriving DecidableEq, Repr

/-- The defaults of the `env-default` tags; `DOCKER_EXEC` has none. -/
def Config.default : Config := ⟨"upload_app:latest", "/mnt", ""⟩

/-- The `AMQP` part of the configuration. -/
structure Config.AMQP where
  Addr : String
  ValidationExchangeInputName : String
  ValidationExchangeOutputName : String
  ProcessingExchangeInputName : String
  ProcessingExchangeOutputName : String
  ValidationQueueName : String
  ProcessingQueueName : String
  RRSQueueName : String
  deriving DecidableEq, Repr

/-- The defaults of the `env-default` tags of `AMQP`; `AMQP_ADDR` has none. -/
def Config.AMQP.default : Config.AMQP :=
  { Addr := ""
    ValidationExchangeInputName := "validation_exchange_input"
    ValidationExchangeOutputName := "validation_exchange_output"
    ProcessingExchangeInputName := "processing_exchange_input"
    ProcessingExchangeOutputName := "processing_exchange_input"
    ValidationQueueName := "validation"
    ProcessingQueueName := "processing"
    RRSQueueName := "rrs" }

/-! ## internal/s3/s3/s3.go -/

/-- Take the outcome of the next S3 transfer; an exhausted schedule means
success. -/
def takeS3 (w : World) : Bool × World :=
  match w.s3 with
  | [] => (true, w)
  | b :: bs => (b, { w with s3 := bs })

namespace S3

/-- Open the local file and upload it; any failure is returned as it is. -/
def UploadFile (filePath fileType fileEndName : String) : Op Unit := do
  logCall "UploadFile" [filePath, fileType, fileEndName]
  fun w => match takeS3 w with
    | (true, w1) => (Res.ok (), w1)
    | (false, w1) => (Res.fail Err.S3Transfer, w1)

/-- Fetch the object and save it under the mount directory; any failure is
returned as it is. -/
def DownloadFile (fileName : String) : Op Unit := do
  logCall "DownloadFile" [fileName]
  fun w => match takeS3 w with
    | (true, w1) => (Res.ok (), w1)
    | (false, w1) => (Res.fail Err.S3Transfer, w1)

end S3

/-! ## internal/processor/v1/models/models.go, internal/processor/v1/processor/processor.go -/

structure ValidationData where
  Mode : String
  Sex : String
  Err : String
  Passed : Bool
  deriving DecidableEq, Repr

/-- What `json.Unmarshal(cmdStdout, &cmdOutput)` does with a
`*models.ValidationData`: an error, or the pointer it leaves (`none` is the
nil pointer). -/
def Unmarshal : Type := String → Except Unit (Option ValidationData)

/-- Take the result of the next subprocess; with an exhausted schedule the
subprocess fails. -/
def takeCmd (w : World) : CmdResult × World :=
  match w.cmds with
  | [] => (CmdResult.exitError, w)
  | c :: cs => (c, { w with cmds := cs })

/-- The call `cmd.Run()` of the command built by `prepareCommand`. -/
def cmdRun (executable : String) (cliArgs : List String) : Op CmdResult := fun w =>
  match takeCmd w with
  | (r, w1) => (Res.ok r, { w1 with trace := w1.trace ++ [Event.run executable cliArgs] })

namespace Processor

/-- RunValidation runs validation command and interacts with DB. -/
def RunValidation (cfg : Config) (unmarshal : Unmarshal) (fileName : String)
    (dryRun fromQueue : Bool) : Op (Option ValidationData) := do
  logCall "RunValidation" [fileName, toString dryRun, toString fromQueue]
  Op.when fromQueue (S3.DownloadFile fileName)
  let executable := cfg.DockerExecutable
  let args := [executable, "run", "--rm", "-v", cfg.MountDir ++ ":/mnt",
    cfg.DockerImageName, "main.py", "validate", "--input", fileName]
  Op.when (!dryRun)
    (Storage.UpdateValidationStatus fileName constants.ValidationStatusRunning)
  match ← cmdRun executable args with
  | CmdResult.exitError =>
    -- `err :=` of the inner block shadows the subprocess error only inside it
    Op.when (!dryRun)
      (Storage.UpdateValidationStatus fileName constants.ValidationStatusError)
    Op.throw Err.Subprocess
  | CmdResult.finished cmdStdout =>
    match unmarshal cmdStdout with
    | Except.error _ => Op.throw Err.JSONUnmarshal
    | Except.ok cmdOutput =>
      Op.when (!dryRun)
        (match cmdOutput with
         | none => Op.nilDeref -- `cmdOutput.Passed` on a nil pointer
         | some data =>
           if data.Passed then
             Storage.UpdateValidationStatus fileName constants.ValidationStatusValid
           else
             Storage.UpdateValidationStatus fileName constants.ValidationStatusInvalid)
      return cmdOutput

/-- The files of `uploadData`: path, type and end name of each. -/
def uploadFiles (cfg : Config) (barcode : String) : List (String × String × String) :=
  [(cfg.MountDir ++ "/raw_data/atlas_raw_data/" ++ barcode ++ ".txt", "internal_raw_data", barcode ++ ".txt"),
   (cfg.MountDir ++ "/raw_data/external_raw_data/" ++ barcode ++ ".txt", "external_raw_data", barcode ++ ".txt"),
   (cfg.MountDir ++ "/raw_data/binary/" ++ barcode ++ ".bed", "binary_raw_data", barcode ++ ".bed"),
   (cfg.MountDir ++ "/raw_data/binary/" ++ barcode ++ ".bim", "binary_raw_data", barcode ++ ".bim"),
   (cfg.MountDir ++ "/raw_data/binary/" ++ barcode ++ ".fam", "binary_raw_data", barcode ++ ".fam")]

/-- The goroutines of an `errgroup.Group` without context: every one runs to
its end, and `Wait` returns the first error. They are run here one after the
other in the order of the list. -/
def uploadAll : List (String × String × String) → Option Err → Op Unit
  | [], none => Pure.pure ()
  | [], some e => Op.throw e
  | (filePath, fileType, fileEndName) :: rest, first => fun w =>
    match S3.UploadFile filePath fileType fileEndName w with
    | (Res.fail e, w1) => uploadAll rest (first.orElse fun _ => some e) w1
    | (_, w1) => uploadAll rest first w1

/-- uploadData uploads data to S3. -/
def uploadData (cfg : Config) (barcode : String) : Op Unit := do
  logCall "uploadData" [barcode]
  uploadAll (uploadFiles cfg barcode) none

/-- RunProcessing runs processing command and interacts with DB. -/
def RunProcessing (cfg : Config) (fileName barcode : String)
    (dryRun fromQueue : Bool) : Op Unit := do
  logCall "RunProcessing" [fileName, barcode, toString dryRun, toString fromQueue]
  Op.when fromQueue (S3.DownloadFile fileName)
  let executable := cfg.DockerExecutable
  let args := [executable, "run", "--rm", "-v", cfg.MountDir ++ ":/mnt",
    cfg.DockerImageName, "main.py", "process", "--input", fileName, "--barcode", barcode]
  Storage.UpdateProcessingStatus fileName constants.ProcessingStatusRunning
  match ← cmdRun executable args with
  | CmdResult.exitError =>
    -- `err :=` declares a new variable in the block of `if err != nil`
    Storage.UpdateProcessingStatus fileName constants.ProcessingStatusError
    -- `return err` of the same block: the new variable, nil at this point
    return ()
  | CmdResult.finished _ =>
    Storage.UpdateProcessingStatus fileName constants.ProcessingStatusDone
    -- `return err` on an upload error, `return nil` otherwise
    Op.when (!dryRun) (uploadData cfg barcode)

end Processor

/-! ## internal/agent/agent/agent.go -/

namespace Agent

/-- Validate runs data validation. -/
def Validate (cfg : Config) (unmarshal : Unmarshal) (userID fileName handler : String)
    (dryRun fromQueue : Bool) : Op (Option ValidationData) := do
  logCall "Validate" [userID, fileName, handler, toString dryRun, toString fromQueue]
  let userIsNew ← (do
    match ← Op.attempt (Storage.CheckUserID userID) with
    | Except.error _ => return true
    | Except.ok _ => return false)
  Op.when (!dryRun)
    (if userIsNew then do
      Storage.AddNewUserID userID
      Storage.AddNewUserFilePair userID fileName
      Storage.AddNewValidationEntry fileName
    else
      -- no need to do anything in the validation DB table
      Storage.UpdateUserFilePair userID fileName)
  let validationData ← Processor.RunValidation cfg unmarshal fileName dryRun fromQueue
  Op.when (!dryRun)
    (match validationData with
     | none => Op.nilDeref -- `validationData.Mode` on a nil pointer
     | some data =>
       let productCode := ProductManager.GetProductCode data.Mode
       Op.when data.Passed
         (if userIsNew then
           Storage.AddNewProductCode userID productCode
         else
           Storage.UpdateProductCode userID productCode))
  return validationData

/-- Process runs data processing. -/
def Process (cfg : Config) (userID barcode handler : String)
    (dryRun fromQueue : Bool) : Op Unit := do
  logCall "Process" [userID, barcode, handler, toString dryRun, toString fromQueue]
  Storage.CheckUserID userID
  let fileName ← Storage.GetFileNameForUser userID
  Storage.CheckIsValid fileName
  let status ← Storage.GetProcessingStatus fileName
  if status = constants.ProcessingStatusRunning then
    Op.throw Err.ProcessingBlocked
  else do
    Op.when (status = constants.NA) (Storage.AddNewProcessingEntry fileName barcode)
    Processor.RunProcessing cfg fileName barcode dryRun fromQueue

end Agent

/-! ## internal/bus/modelbus/modelbus.go, internal/bus/handlers/handlers.go -/

structure MsgValidate where
  UserID : String
  FileName : String
  deriving DecidableEq, Repr

structure MsgProcess where
  UserID : String
  FileName : String
  Barcode : String
  deriving DecidableEq, Repr

/-- The four values a queue handler returns. -/
structure HandlerResult where
  userID : String
  fileName : String
  success : Bool
  err : Option Err
  deriving DecidableEq, Repr

namespace AMQPHandler

def dryRun : Bool := false
def fromQueue : Bool := true
def republishValidation : Bool := false
def runTypeValidation : String := "validation"
def republishProcessing : Bool := false
def runTypeProcessing : String := "processing"

/-- handleProcessingQueue handles queue message management for processing
tasks. `unmarshalMsg` is `json.Unmarshal(d.Body, &msg)`: `none` when it
returns an error. The result is `none` when the call panics. -/
def handleProcessingQueue (cfg : Config) (unmarshalMsg : String → Option MsgProcess)
    (body : String) (w : World) : Option HandlerResult × World :=
  match unmarshalMsg body with
  | none => (some ⟨"", "", false, some Err.JSONUnmarshal⟩, w)
  | some msg =>
    let userID := msg.UserID
    let fileName := msg.FileName
    let barcode := msg.Barcode
    match Agent.Process cfg userID barcode "process" dryRun fromQueue w with
    | (Res.fail e, w1) => (some ⟨userID, fileName, false, some e⟩, w1)
    | (Res.ok _, w1) => (some ⟨userID, fileName, true, none⟩, w1)
    | (Res.panic, w1) => (none, w1)

/-- handleValidationQueue handles queue message management for validation
tasks. `unmarshalMsg` is `json.Unmarshal(d.Body, &msg)`: `none` when it
returns an error. The result is `none` when the call panics. -/
def handleValidationQueue (cfg : Config) (unmarshal : Unmarshal)
    (unmarshalMsg : String → Option MsgValidate)
    (body : String) (w : World) : Option HandlerResult × World :=
  match unmarshalMsg body with
  | none => (some ⟨"", "", false, some Err.JSONUnmarshal⟩, w)
  | some msg =>
    let userID := msg.UserID
    let fileName := msg.FileName
    match Agent.Validate cfg unmarshal userID fileName "validate" dryRun fromQueue w with
    | (Res.fail e, w1) => (some ⟨userID, fileName, false, some e⟩, w1)
    -- `validationData.Mode` in the log line, on a nil pointer
    | (Res.ok none, w1) => (none, w1)
    | (Res.ok (some validationData), w1) =>
      (some ⟨userID, fileName, validationData.Passed, none⟩, w1)
    | (Res.panic, w1) => (none, w1)

end AMQPHandler

/-! ## internal/bus/amqp/amqp.go -/

/-- An `amqp.Delivery`, as far as the listener reads it. -/
structure Delivery where
  ContentType : String
  Headers : List (String × String)
  Body : String
  deriving DecidableEq, Repr

/-- An `amqp.Publishing`, as far as the listener fills it. -/
structure Publishing where
  ContentType : String
  Headers : List (String × String)
  Body : String
  deriving DecidableEq, Repr

/-- The message of `modelbus.Rsp`. -/
structure Rsp where
  UserID : String
  FileName : String
  RspType : String
  IsReady : Bool
  deriving DecidableEq, Repr

/-- What the listener asks of the broker. -/
inductive BusEvent where
  /-- the call `delivery.Ack(false)` -/
  | ack (delivery : Delivery)
  /-- the call `channel.PublishWithContext` for an exchange -/
  | publish (exchange : String) (msg : Publishing)
  deriving DecidableEq, Repr

/-- The broker: the outcomes of the acknowledgements and publishings to come
(an exhausted schedule means success) and the calls received so far. -/
structure Bus where
  acks : List Bool
  pubs : List Bool
  log : List BusEvent
  deriving DecidableEq, Repr

namespace AMQP

/-- The exchanges `init` declares, all of the kind `fanout`. -/
def exchanges (cfg : Config.AMQP) : List String :=
  [cfg.ValidationExchangeInputName, cfg.ValidationExchangeOutputName,
   cfg.ProcessingExchangeInputName, cfg.ProcessingExchangeOutputName]

/-- The calls of `channel.QueueBind` in `init`: queue and exchange of each. -/
def queueBindings (cfg : Config.AMQP) : List (String × String) :=
  [(cfg.ProcessingQueueName, cfg.ProcessingExchangeInputName),
   (cfg.ValidationQueueName, cfg.ValidationExchangeInputName),
   (cfg.RRSQueueName, cfg.ValidationExchangeOutputName),
   (cfg.RRSQueueName, cfg.ProcessingExchangeOutputName)]

/-- The queues a message published to the exchange is delivered to: a fanout
exchange hands it to every queue bound to it. -/
def queuesOf (cfg : Config.AMQP) (exchange : String) : List String :=
  ((queueBindings cfg).filter fun b => b.2 = exchange).map fun b => b.1

/-- The call `delivery.Ack(false)`: `true` when it returns a nil error. -/
def Ack (delivery : Delivery) (b : Bus) : Bool × Bus :=
  match b.acks with
  | [] => (true, { b with log := b.log ++ [BusEvent.ack delivery] })
  | r :: rs => (r, { b with acks := rs, log := b.log ++ [BusEvent.ack delivery] })

/-- PublishToExchange publishes a message to the specified exchange: the
error it returns, if any. -/
def PublishToExchange (exchange : String) (msg : Publishing) (b : Bus) : Option Err × Bus :=
  match b.pubs with
  | [] => (none, { b with log := b.log ++ [BusEvent.publish exchange msg] })
  | true :: rs => (none, { b with pubs := rs, log := b.log ++ [BusEvent.publish exchange msg] })
  | false :: rs =>
    (some Err.AMQPPublish, { b with pubs := rs, log := b.log ++ [BusEvent.publish exchange msg] })

/-- How one turn of the loop over the deliveries ends. -/
inductive Turn where
  /-- the loop goes on with the next delivery -/
  | next
  /-- the goroutine returns this error (`none` is nil) -/
  | stop (err : Option Err)
  /-- the handler panicked -/
  | panic
  deriving DecidableEq, Repr

/-- The part of the loop body after the acknowledgement: send status to rrs.
`marshal` is `json.Marshal` on a `modelbus.Rsp`. -/
def sendStatus (marshal : Rsp → Except Unit String) (exchangeNameOut runType : String)
    (userID fileName : String) (status : Bool) (b : Bus) : Turn × Bus :=
  let msg : Rsp := ⟨userID, fileName, runType, status⟩
  match marshal msg with
  | Except.error _ => (Turn.stop (some Err.JSONMarshal), b)
  | Except.ok serialized =>
    let publishing : Publishing := ⟨"application/json", [], serialized⟩
    match PublishToExchange exchangeNameOut publishing b with
    | (some e, b1) => (Turn.stop (some e), b1)
    | (none, b1) => (Turn.next, b1)

/-- The body of the loop `for delivery := range messages` of
`AddInterpretationQueueListener`. The handler `fn` answers `none` when it
panics. -/
def consumeDelivery (marshal : Rsp → Except Unit String) (republish : Bool)
    (exchangeName exchangeNameOut runType : String)
    (fn : Delivery → World → Option HandlerResult × World)
    (delivery : Delivery) (s : World × Bus) : Turn × (World × Bus) :=
  match fn delivery s.1 with
  | (none, w1) => (Turn.panic, (w1, s.2))
  | (some r, w1) =>
    match r.err with
    | none =>
      (match Ack delivery s.2 with
       -- `return err` with the nil `err` of `channel.Consume`, not `ackErr`
       | (false, b1) => (Turn.stop none, (w1, b1))
       | (true, b1) =>
         let t := sendStatus marshal exchangeNameOut runType r.userID r.fileName r.success b1
         (t.1, (w1, t.2)))
    | some _ =>
      (match Ack delivery s.2 with
       | (false, b1) => (Turn.stop none, (w1, b1))
       | (true, b1) =>
         if republish then
           let retryMsg : Publishing := ⟨delivery.ContentType, delivery.Headers, delivery.Body⟩
           match PublishToExchange exchangeName retryMsg b1 with
           | (some e, b2) => (Turn.stop (some e), (w1, b2))
           | (none, b2) =>
             let t := sendStatus marshal exchangeNameOut runType r.userID r.fileName r.success b2
             (t.1, (w1, t.2))
         else
           let t := sendStatus marshal exchangeNameOut runType r.userID r.fileName r.success b1
           (t.1, (w1, t.2)))

/-- The goroutine of the listener on the deliveries the channel yields until
it is closed. -/
def consumeAll (marshal : Rsp → Except Unit String) (republish : Bool)
    (exchangeName exchangeNameOut runType : String)
    (fn : Delivery → World → Option HandlerResult × World) :
    List Delivery → World × Bus → Res Unit × (World × Bus)
  | [], s => (Res.ok (), s)
  | delivery :: rest, s =>
    match consumeDelivery marshal republish exchangeName exchangeNameOut runType fn delivery s with
    | (Turn.next, s1) =>
      consumeAll marshal republish exchangeName exchangeNameOut runType fn rest s1
    | (Turn.stop none, s1) => (Res.ok (), s1)
    | (Turn.stop (some e), s1) => (Res.fail e, s1)
    | (Turn.panic, s1) => (Res.panic, s1)

/-- AddInterpretationQueueListener is a middleware method for handling
different AMQP handlers. `messages` is the result of `channel.Consume`: `none`
when it returns an error, else the deliveries. -/
def AddInterpretationQueueListener (marshal : Rsp → Except Unit String) (republish : Bool)
    (exchangeName exchangeNameOut runType : String)
    (fn : Delivery → World → Option HandlerResult × World)
    (messages : Option (List Delivery)) (s : World × Bus) : Res Unit × (World × Bus) :=
  match messages with
  | none => (Res.fail Err.AMQPConsume, s)
  | some deliveries =>
    consumeAll marshal republish exchangeName exchangeNameOut runType fn deliveries s

end AMQP

namespace AMQPHandler

/-- The listener of the validation queue that `Handle` starts; `messages` is
what `channel.Consume` answers for the validation queue. -/
def validationListener (cfg : Config) (amqpCfg : Config.AMQP) (unmarshal : Unmarshal)
    (unmarshalMsg : String → Option MsgValidate) (marshal : Rsp → Except Unit String)
    (messages : Option (List Delivery)) (s : World × Bus) : Res Unit × (World × Bus) :=
  AMQP.AddInterpretationQueueListener marshal republishValidation
    amqpCfg.ValidationExchangeInputName amqpCfg.ValidationExchangeOutputName runTypeValidation
    (fun d w => handleValidationQueue cfg unmarshal unmarshalMsg d.Body w) messages s

/-- The listener of the processing queue that `Handle` starts; `messages` is
what `channel.Consume` answers for the processing queue. -/
def processingListener (cfg : Config) (amqpCfg : Config.AMQP)
    (unmarshalMsg : String → Option MsgProcess) (marshal : Rsp → Except Unit String)
    (messages : Option (List Delivery)) (s : World × Bus) : Res Unit × (World × Bus) :=
  AMQP.AddInterpretationQueueListener marshal republishProcessing
    amqpCfg.ProcessingExchangeInputName amqpCfg.ProcessingExchangeOutputName runTypeProcessing
    (fun d w => handleProcessingQueue cfg unmarshalMsg d.Body w) messages s

end AMQPHandler

/-! ## Calls of `Agent.Process` that run at the same time -/

/-- Where a call of `Agent.Process` stands. Every method of the storage
executes its statement under the lock `s.mu`, so a call of a storage method
is one step; between two steps other calls may take theirs. -/
inductive ProcessPc where
  /-- before `CheckUserID` -/
  | checkUser
  /-- before `GetFileNameForUser` -/
  | getFile
  /-- before `CheckIsValid` for the file name resolved -/
  | checkValid (fileName : String)
  /-- before `GetProcessingStatus` -/
  | getStatus (fileName : String)
  /-- the status read was `NA`: before `AddNewProcessingEntry` -/
  | addEntry (fileName : String)
  /-- at the start of `RunProcessing`: before the download -/
  | runProcessing (fileName : String)
  /-- before the write of the status `running` -/
  | setRunning (fileName : String)
  /-- the status `running` is written and the subprocess is under way, until
  `cmd.Run()` returns -/
  | external (fileName : String)
  /-- the subprocess has returned: before the write of `done` or `error` -/
  | setFinal (fileName : String) (r : CmdResult)
  /-- before `uploadData` -/
  | upload
  /-- the call has returned -/
  | returned (r : Res Unit)
  deriving DecidableEq, Repr

/-- A call of `Agent.Process`: its arguments and where it stands. -/
structure ProcessCall where
  userID : String
  barcode : String
  handler : String
  dryRun : Bool
  fromQueue : Bool
  pc : ProcessPc
  deriving DecidableEq, Repr

/-- Go on after a method has returned: an error (or a panic) ends the call. -/
def ProcessCall.advance {α : Type} (c : ProcessCall) (r : Res α × World)
    (next : α → ProcessPc) : ProcessCall × World :=
  match r with
  | (Res.ok a, w1) => ({ c with pc := next a }, w1)
  | (Res.fail e, w1) => ({ c with pc := ProcessPc.returned (Res.fail e) }, w1)
  | (Res.panic, w1) => ({ c with pc := ProcessPc.returned Res.panic }, w1)

/-- One step of a call of `Agent.Process` (with `RunProcessing` inlined). -/
def ProcessCall.step (cfg : Config) (c : ProcessCall) (w : World) : ProcessCall × World :=
  match c.pc with
  | ProcessPc.checkUser =>
    c.advance
      ((logCall "Process"
          [c.userID, c.barcode, c.handler, toString c.dryRun, toString c.fromQueue] >>=
        fun _ => Storage.CheckUserID c.userID) w)
      (fun _ => ProcessPc.getFile)
  | ProcessPc.getFile =>
    c.advance (Storage.GetFileNameForUser c.userID w) (fun fileName => ProcessPc.checkValid fileName)
  | ProcessPc.checkValid fileName =>
    c.advance (Storage.CheckIsValid fileName w) (fun _ => ProcessPc.getStatus fileName)
  | ProcessPc.getStatus fileName =>
    c.advance (Storage.GetProcessingStatus fileName w) (fun status =>
      if status = constants.ProcessingStatusRunning then
        ProcessPc.returned (Res.fail Err.ProcessingBlocked)
      else if status = constants.NA then ProcessPc.addEntry fileName
      else ProcessPc.runProcessing fileName)
  | ProcessPc.addEntry fileName =>
    c.advance (Storage.AddNewProcessingEntry fileName c.barcode w)
      (fun _ => ProcessPc.runProcessing fileName)
  | ProcessPc.runProcessing fileName =>
    c.advance
      ((logCall "RunProcessing"
          [fileName, c.barcode, toString c.dryRun, toString c.fromQueue] >>=
        fun _ => Op.when c.fromQueue (S3.DownloadFile fileName)) w)
      (fun _ => ProcessPc.setRunning fileName)
  | ProcessPc.setRunning fileName =>
    c.advance (Storage.UpdateProcessingStatus fileName constants.ProcessingStatusRunning w)
      (fun _ => ProcessPc.external fileName)
  | ProcessPc.external fileName =>
    c.advance
      (cmdRun cfg.DockerExecutable
        [cfg.DockerExecutable, "run", "--rm", "-v", cfg.MountDir ++ ":/mnt",
          cfg.DockerImageName, "main.py", "process", "--input", fileName,
          "--barcode", c.barcode] w)
      (fun r => ProcessPc.setFinal fileName r)
  | ProcessPc.setFinal fileName CmdResult.exitError =>
    c.advance (Storage.UpdateProcessingStatus fileName constants.ProcessingStatusError w)
      (fun _ => ProcessPc.returned (Res.ok ()))
  | ProcessPc.setFinal fileName (CmdResult.finished _) =>
    c.advance (Storage.UpdateProcessingStatus fileName constants.ProcessingStatusDone w)
      (fun _ => if c.dryRun then ProcessPc.returned (Res.ok ()) else ProcessPc.upload)
  | ProcessPc.upload =>
    c.advance (Processor.uploadData cfg c.barcode w) (fun _ => ProcessPc.returned (Res.ok ()))
  | ProcessPc.returned _ => (c, w)

/-- A call on its own: so many steps, one after the other. -/
def ProcessCall.runAlone (cfg : Config) : Nat → ProcessCall → World → ProcessCall × World
  | 0, c, w => (c, w)
  | n + 1, c, w => ProcessCall.runAlone cfg n (c.step cfg w).1 (c.step cfg w).2

/-- Calls of `Agent.Process` under way on one world. -/
structure System where
  world : World
  calls : List ProcessCall
  deriving Repr

/-- The call at position `i` takes its next step. -/
def System.step (cfg : Config) (s : System) (i : Nat) : System :=
  match s.calls.get? i with
  | none => s
  | some c => ⟨(c.step cfg s.world).2, s.calls.set i (c.step cfg s.world).1⟩

/-- The calls take steps in the order of the schedule. -/
def System.run (cfg : Config) (s : System) (schedule : List Nat) : System :=
  schedule.foldl (System.step cfg) s

/-- The calls that are executing the subprocess for the file. -/
def System.executing (s : System) (fileName : String) : List ProcessCall :=
  s.calls.filter fun c => c.pc = ProcessPc.external fileName

/-! ## Notions used in the statements -/

/-- The operation started in a database satisfying `pre` leaves one
satisfying `post` when it returns without error, and one satisfying `exit`
otherwise. -/
def Op.Ensures {α : Type} (pre : DB → Prop) (m : Op α) (post exit : DB → Prop) : Prop :=
  ∀ w, pre w.db →
    ((∃ a, (m w).1 = Res.ok a) → post (m w).2.db) ∧
    ((∀ a, (m w).1 ≠ Res.ok a) → exit (m w).2.db)

/-- Is the log line the start of an upload to S3. -/
def Event.isUpload : Event → Bool
  | Event.call method _ => method = "UploadFile"
  | Event.run _ _ => false

/-- The log lines written since the log had the length `n`. -/
def World.traceSince (w : World) (n : Nat) : List Event := w.trace.drop n


/-- The operation only adds states to the timeline of the database: what was
there stays, in its order. -/
def Op.Grows {α : Type} (m : Op α) : Prop := ∀ w, w.timeline <+: (m w).2.timeline

/-- The two worlds have the same database, the same earlier states of it
(so the same writes were executed, in the same order), and the same storage
faults and subprocess results still to come. -/
def World.sameStore (w1 w2 : World) : Prop :=
  w1.db = w2.db ∧ w1.hist = w2.hist ∧ w1.faults = w2.faults ∧ w1.cmds = w2.cmds

/-- The two worlds differ in the log at most. -/
def World.sameInputs (w1 w2 : World) : Prop :=
  World.sameStore w1 w2 ∧ w1.s3 = w2.s3

/-- From worlds that differ in the log at most the two operations return the
same and reach worlds that differ in the log at most. -/
def Op.Alike {α : Type} (m1 m2 : Op α) : Prop :=
  ∀ w1 w2, World.sameInputs w1 w2 →
    (m1 w1).1 = (m2 w2).1 ∧ World.sameInputs (m1 w1).2 (m2 w2).2

/-- From worlds that differ in the log at most the two operations reach
worlds with the same store. -/
def Op.SameWrites {α : Type} (m1 m2 : Op α) : Prop :=
  ∀ w1 w2, World.sameInputs w1 w2 → World.sameStore (m1 w1).2 (m2 w2).2

/-- How an operation answers a deadline: called when the deadline of the
context has passed it returns the statement error (or the invalid-status
error) and leaves the database and its history as they were; and it returns
the context timeout error only when the schedule holds a context that is
done after the statement was prepared. -/
def Op.MeetsDeadline {α : Type} (m : Op α) : Prop :=
  ∀ w : World,
    (w.faults.head? = some Fault.deadlinePassed →
      ((m w).1 = Res.fail Err.StatementPSQL ∨ (m w).1 = Res.fail Err.InvalidStatus) ∧
      (m w).2.db = w.db ∧ (m w).2.hist = w.hist) ∧
    ((m w).1 = Res.fail Err.ContextTimeoutExceeded → ∃ b, Fault.timeout b ∈ w.faults)

/-- The broker accepts every acknowledgement and every publishing to come. -/
def Bus.healthy (b : Bus) : Prop :=
  (∀ a ∈ b.acks, a = true) ∧ (∀ p ∈ b.pubs, p = true)

instance (b : Bus) : Decidable b.healthy :=
  inferInstanceAs (Decidable ((∀ a ∈ b.acks, a = true) ∧ (∀ p ∈ b.pubs, p = true)))

/-- The deliveries of a run of the listener with what the handler returned
for each, the handler being called on the world the earlier calls left; the
list ends at a call that panics. -/
def AMQP.handlerResults (fn : Delivery → World → Option HandlerResult × World) :
    List Delivery → World → List (Delivery × HandlerResult)
  | [], _ => []
  | delivery :: rest, w =>
    match fn delivery w with
    | (some r, w1) => (delivery, r) :: AMQP.handlerResults fn rest w1
    | (none, _) => []

/-- What the listener is to ask of the broker for one delivery, in the words
of the specification: one acknowledgement; the delivery again, to the input
exchange, when the handler returned an error and `republish` is set; then one
notification to the output exchange, built from what the handler returned. -/
def AMQP.claimedEvents (marshal : Rsp → Except Unit String) (republish : Bool)
    (exchangeName exchangeNameOut runType : String) (p : Delivery × HandlerResult) :
    List BusEvent :=
  [BusEvent.ack p.1] ++
    (if p.2.err.isSome && republish then
      [BusEvent.publish exchangeName ⟨p.1.ContentType, p.1.Headers, p.1.Body⟩]
     else []) ++
    (match marshal ⟨p.2.userID, p.2.fileName, runType, p.2.success⟩ with
     | Except.ok serialized =>
       [BusEvent.publish exchangeNameOut ⟨"application/json", [], serialized⟩]
     | Except.error _ => [])

/-- What a resubmission by the user `u` keeps: the user, the file names of
the validation table, the status of the file `f1`, and `u` being associated
with one of the files of `fs`. -/
def resubmitFrame (u f1 : String) (L : List String) (s : Option String) (fs : List String)
    (d : DB) : Prop :=
  u ∈ d.users ∧ d.validation.map (fun r => r.file_name) = L ∧ d.validationStatus f1 = s ∧
    ∃ f ∈ fs, d.activeFile u = some f

/-- An operation that never returns the error `e`. -/
def Op.Avoids {α : Type} (e : Err) (m : Op α) : Prop := ∀ w, (m w).1 ≠ Res.fail e

/-- No entry of the storage fault schedule is a fault. -/
def FaultFree (l : List Fault) : Prop := ∀ f ∈ l, f = Fault.none

instance (l : List Fault) : Decidable (FaultFree l) :=
  inferInstanceAs (Decidable (∀ f ∈ l, f = Fault.none))

/-- An operation that leaves the database and its history as they are. -/
def Op.Silent {α : Type} (m : Op α) : Prop :=
  ∀ w, (m w).2.db = w.db ∧ (m w).2.hist = w.hist

/-- The calls of the agent. -/
inductive Call where
  | validate (userID fileName handler : String) (dryRun fromQueue : Bool)
  | process (userID barcode handler : String) (dryRun fromQueue : Bool)
  deriving DecidableEq, Repr

/-- The world a call leaves, whatever it returns. -/
def Call.run (cfg : Config) (unmarshal : Unmarshal) : Call → World → World
  | Call.validate userID fileName handler dryRun fromQueue, w =>
    (Agent.Validate cfg unmarshal userID fileName handler dryRun fromQueue w).2
  | Call.process userID barcode handler dryRun fromQueue, w =>
    (Agent.Process cfg userID barcode handler dryRun fromQueue w).2

/-- The world a sequence of calls leaves. -/
def runCalls (cfg : Config) (unmarshal : Unmarshal) (calls : List Call) (w : World) : World :=
  calls.foldl (fun w c => c.run cfg unmarshal w) w

/-- The changes of a validation status the specification lists. -/
def specValidationStep (s1 s2 : String) : Prop :=
  (s1 = constants.ValidationStatusNew ∧ s2 = constants.ValidationStatusRunning) ∨
  (s1 = constants.ValidationStatusRunning ∧
    (s2 = constants.ValidationStatusValid ∨ s2 = constants.ValidationStatusInvalid ∨
      s2 = constants.ValidationStatusError))

/-- The changes of a processing status the specification lists. -/
def specProcessingStep (s1 s2 : String) : Prop :=
  (s1 = constants.ProcessingStatusNew ∧ s2 = constants.ProcessingStatusRunning) ∨
  (s1 = constants.ProcessingStatusRunning ∧
    (s2 = constants.ProcessingStatusDone ∨ s2 = constants.ProcessingStatusError))

/-- A change of a validation status: into `running` from any status, or from
`running` into `valid`, `invalid` or `error`. -/
def validationStep (s1 s2 : String) : Prop :=
  s2 = constants.ValidationStatusRunning ∨
  (s1 = constants.ValidationStatusRunning ∧
    (s2 = constants.ValidationStatusValid ∨ s2 = constants.ValidationStatusInvalid ∨
      s2 = constants.ValidationStatusError))

/-- A change of a processing status: into `running` from any status, or from
`running` into `done` or `error`. -/
def processingStep (s1 s2 : String) : Prop :=
  s2 = constants.ProcessingStatusRunning ∨
  (s1 = constants.ProcessingStatusRunning ∧
    (s2 = constants.ProcessingStatusDone ∨ s2 = constants.ProcessingStatusError))

/-- From one state of the database to the next, every stored status that
changes does so by a step of `V` (validation) or `P` (processing). -/
def DB.Changes (V P : String → String → Prop) (d1 d2 : DB) : Prop :=
  (∀ f s1 s2, d1.validationStatus f = some s1 → d2.validationStatus f = some s2 →
    s1 ≠ s2 → V s1 s2) ∧
  (∀ f s1 s2, d1.processingStatus f = some s1 → d2.processingStatus f = some s2 →
    s1 ≠ s2 → P s1 s2)

/-- Every change of a stored status in the life of the world was a step of
`V` or `P`. -/
def World.Lawful (V P : String → String → Prop) (w : World) : Prop :=
  List.Chain' (DB.Changes V P) w.timeline

/-- The operation keeps the world lawful when the database satisfies `pre`,
and leaves a database satisfying `post` when it returns without error. -/
def Op.Keeps {α : Type} (V P : String → String → Prop) (pre : DB → Prop) (m : Op α)
    (post : DB → Prop) : Prop :=
  ∀ w, w.Lawful V P → pre w.db →
    (m w).2.Lawful V P ∧ ((∃ a, (m w).1 = Res.ok a) → post (m w).2.db)

/-! ## Sample data -/

/-- A stand-in for `json.Unmarshal` on three outputs. -/
def sampleUnmarshal : Unmarshal := fun cmdStdout =>
  if cmdStdout = "vcf passed" then Except.ok (some ⟨"vcf", "F", "", true⟩)
  else if cmdStdout = "vcf failed" then Except.ok (some ⟨"vcf", "F", "bad", false⟩)
  else if cmdStdout = "null" then Except.ok none
  else Except.error ()

/-- User `u1` with the valid file `f1`, not processed yet. -/
def dbValid : DB :=
  ⟨["u1"], [⟨"u1", "f1"⟩], [⟨"f1", "valid"⟩], [], [⟨"u1", "upload_genotek_b2c_array_vcf"⟩]⟩

/-- User `u1` with the valid file `f1`, whose processing is running. -/
def dbRunning : DB :=
  { dbValid with processing := [⟨"f1", "B0", "running"⟩] }

/-- User `u1` with the valid file `f1`, whose processing record is new. -/
def dbQueued : DB :=
  { dbValid with processing := [⟨"f1", "B1", "new"⟩] }

/-- User `u1` with the valid file `f1`, processed before with the barcode `B0`. -/
def dbDone : DB :=
  { dbValid with processing := [⟨"f1", "B0", "done"⟩] }

/-- User `u1` with the file `f1`, whose validation did not pass. -/
def dbInvalid : DB :=
  ⟨["u1"], [⟨"u1", "f1"⟩], [⟨"f1", "invalid"⟩], [], []⟩

/-- A stand-in for `json.Marshal` on a `modelbus.Rsp`. -/
def sampleMarshal : Rsp → Except Unit String := fun msg =>
  Except.ok (if msg.IsReady then "ready" else "not ready")

/-- A delivery for the sample handler. -/
def sampleDelivery : Delivery := ⟨"application/json", [], "msg"⟩

/-- The status notification of a failed processing job of the user `u2`, as
the broker delivers it: the content type and the headers are those the
listener sets, the body is what `sampleMarshal` gives. -/
def sampleNotification : Delivery := ⟨"application/json", [], "not ready"⟩

/-- A stand-in for `json.Unmarshal` into a `modelbus.MsgProcess`: the body of
`sampleDelivery` is a job of the user `u2`; the body of a notification has
the keys `user_id` and `file_name` and no key `barcode`, so it deserializes
without an error to a job with an empty barcode. -/
def sampleUnmarshalMsg : String → Option MsgProcess := fun body =>
  if body = "msg" then some ⟨"u2", "f2", "B2"⟩
  else if body = "not ready" then some ⟨"u2", "f2", ""⟩
  else none

/-- The processing handler on messages that all unmarshal to the user `u2`. -/
def sampleHandler : Delivery → World → Option HandlerResult × World := fun d w =>
  AMQPHandler.handleProcessingQueue Config.default (fun _ => some ⟨"u2", "f2", "B2"⟩) d.Body w

/-- The world after a new user's file `f1` was validated twice, both times
with a passing result. -/
def worldValidatedTwice : World :=
  runCalls Config.default sampleUnmarshal
    [Call.validate "u1" "f1" "cli" false false, Call.validate "u1" "f1" "cli" false false]
    (World.init DB.empty [] [CmdResult.finished "vcf passed", CmdResult.finished "vcf passed"] [])

/-- The world after the valid file `f1` was processed twice, both times with
a successful subprocess. -/
def worldProcessedTwice : World :=
  runCalls Config.default sampleUnmarshal
    [Call.process "u1" "B1" "cli" true false, Call.process "u1" "B1" "cli" true false]
    (World.init dbValid [] [CmdResult.finished "", CmdResult.finished ""] [])

/-- The validation status of the file is `running`, if it has one. -/
def validationRunning (f : String) (db : DB) : Prop :=
  db.validationStatus f = none ∨ db.validationStatus f = some constants.ValidationStatusRunning

/-- The processing status of the file is `running`, if it has one. -/
def processingRunning (f : String) (db : DB) : Prop :=
  db.processingStatus f = none ∨ db.processingStatus f = some constants.ProcessingStatusRunning

/-! ## Lemmas on the frame of operations -/

theorem Op.bind_apply {α β : Type} (m : Op α) (f : α → Op β) (w : World) :
    (m >>= f) w = Op.bind m f w := rfl

theorem Op.pure_apply {α : Type} (a : α) (w : World) :
    (Pure.pure a : Op α) w = (Res.ok a, w) := rfl

theorem Op.Avoids.bind_avoids {α β : Type} {e : Err} {m : Op α} {f : α → Op β}
    (hm : Op.Avoids e m) (hf : ∀ a, Op.Avoids e (f a)) : Op.Avoids e (m >>= f) := by
  intro w
  show (Op.bind m f w).1 ≠ _
  unfold Op.bind
  have h1 := hm w
  split
  · exact hf _ _
  · rename_i e1 w1 heq
    rw [heq] at h1
    intro hc
    apply h1
    simp only [Res.fail.injEq] at hc ⊢
    exact hc
  · simp

theorem Op.Avoids.pure_avoids {α : Type} {e : Err} (a : α) : Op.Avoids e (Pure.pure a : Op α) := by
  intro w; simp [Pure.pure, Op.pure]

theorem logCall_avoids (e : Err) (m : String) (args : List String) :
    Op.Avoids e (logCall m args) := by
  intro w; simp [logCall]

theorem execStmt_avoids_blocked (stmt : DB → Except Err DB)
    (h : ∀ db, stmt db ≠ Except.error Err.ProcessingBlocked) :
    Op.Avoids Err.ProcessingBlocked (execStmt stmt) := by
  intro w
  unfold execStmt
  split
  · split
    · simp
    · rename_i e heq
      intro hc
      simp at hc
      subst hc
      exact h _ heq
  · simp
  · simp
  · split <;> simp

theorem UpdateProcessingStatus_avoids_blocked (f s : String) :
    Op.Avoids Err.ProcessingBlocked (Storage.UpdateProcessingStatus f s) := by
  unfold Storage.UpdateProcessingStatus
  refine Op.Avoids.bind_avoids (logCall_avoids _ _ _) (fun _ => ?_)
  split
  · intro w; simp [Op.throw]
  · exact execStmt_avoids_blocked _ (by intro db; simp)

theorem AddNewProcessingEntry_avoids_blocked (f b : String) :
    Op.Avoids Err.ProcessingBlocked (Storage.AddNewProcessingEntry f b) := by
  unfold Storage.AddNewProcessingEntry
  refine Op.Avoids.bind_avoids (logCall_avoids _ _ _) (fun _ => ?_)
  exact execStmt_avoids_blocked _ (by intro db; split <;> simp)

theorem DownloadFile_avoids_blocked (f : String) :
    Op.Avoids Err.ProcessingBlocked (S3.DownloadFile f) := by
  unfold S3.DownloadFile
  refine Op.Avoids.bind_avoids (logCall_avoids _ _ _) (fun _ => ?_)
  intro w
  dsimp only
  split <;> simp

theorem Op.Avoids.when_avoids {e : Err} {c : Bool} {m : Op Unit} (hm : Op.Avoids e m) :
    Op.Avoids e (Op.when c m) := by
  unfold Op.when
  split
  · exact hm
  · intro w; simp [Op.pure]

theorem uploadAll_avoids_blocked (files : List (String × String × String)) :
    ∀ (first : Option Err), first ≠ some Err.ProcessingBlocked →
      Op.Avoids Err.ProcessingBlocked (Processor.uploadAll files first) := by
  induction files with
  | nil =>
    intro first hfirst w
    cases first with
    | none => simp [Processor.uploadAll, Pure.pure, Op.pure]
    | some e =>
      simp only [Processor.uploadAll, Op.throw]
      intro hc
      apply hfirst
      simp only [Res.fail.injEq] at hc
      rw [hc]
  | cons x rest ih =>
    intro first hfirst w
    obtain ⟨p, t, n⟩ := x
    simp only [Processor.uploadAll]
    split
    · rename_i e w1 heq
      apply ih
      have he : e = Err.S3Transfer := by
        simp only [S3.UploadFile, Op.bind_apply, Op.bind, logCall] at heq
        split at heq <;> simp at heq
        exact heq.1.symm
      subst he
      cases first <;> simp_all [Option.orElse]
    · exact ih first hfirst _

theorem RunProcessing_avoids_blocked (cfg : Config) (f b : String) (dryRun fromQueue : Bool) :
    Op.Avoids Err.ProcessingBlocked (Processor.RunProcessing cfg f b dryRun fromQueue) := by
  unfold Processor.RunProcessing
  refine Op.Avoids.bind_avoids (logCall_avoids _ _ _) (fun _ => ?_)
  refine Op.Avoids.bind_avoids (Op.Avoids.when_avoids (DownloadFile_avoids_blocked _)) (fun _ => ?_)
  refine Op.Avoids.bind_avoids (UpdateProcessingStatus_avoids_blocked _ _) (fun _ => ?_)
  refine Op.Avoids.bind_avoids ?_ (fun r => ?_)
  · intro w; simp [cmdRun]
  cases r with
  | exitError =>
    exact Op.Avoids.bind_avoids (UpdateProcessingStatus_avoids_blocked _ _) (fun _ => Op.Avoids.pure_avoids _)
  | finished out =>
    refine Op.Avoids.bind_avoids (UpdateProcessingStatus_avoids_blocked _ _) (fun _ => ?_)
    refine Op.Avoids.when_avoids ?_
    unfold Processor.uploadData
    refine Op.Avoids.bind_avoids (logCall_avoids _ _ _) (fun _ => ?_)
    exact uploadAll_avoids_blocked _ none (by simp)

theorem Process_rest_avoids_blocked (cfg : Config) (f b : String) (dryRun fromQueue c : Bool) :
    Op.Avoids Err.ProcessingBlocked
      (Op.when c (Storage.AddNewProcessingEntry f b) >>= fun _ =>
        Processor.RunProcessing cfg f b dryRun fromQueue) :=
  Op.Avoids.bind_avoids (Op.Avoids.when_avoids (AddNewProcessingEntry_avoids_blocked f b))
    (fun _ => RunProcessing_avoids_blocked cfg f b dryRun fromQueue)

/-! ## C1 -/

/-- C1: for a user that exists, whose active file resolves and is valid, and
with no storage fault in the four reads, `Agent.Process` returns the
processing-blocked error if and only if the stored processing status of the
resolved file is `running`; and then the database and its history are
untouched and the log holds the calls of `Process` and of the four reads
only: no `AddNewProcessingEntry`, no `RunProcessing`. -/
theorem Agent.Process_blocked_iff_running (cfg : Config)
    (userID barcode handler fileName : String) (dryRun fromQueue : Bool) (w : World)
    (hU : userID ∈ w.db.users)
    (hF : w.db.activeFile userID = some fileName)
    (hV : w.db.fileIsValid fileName = true)
    (hN : ∀ f ∈ w.faults.take 4, f = Fault.none) :
    ((Agent.Process cfg userID barcode handler dryRun fromQueue w).1
        = Res.fail Err.ProcessingBlocked
      ↔ w.db.processingStatus fileName = some constants.ProcessingStatusRunning) ∧
    (w.db.processingStatus fileName = some constants.ProcessingStatusRunning →
      (Agent.Process cfg userID barcode handler dryRun fromQueue w).2 =
        { w with
          faults := w.faults.drop 4
          trace := w.trace ++
            [Event.call "Process" [userID, barcode, handler, toString dryRun, toString fromQueue],
             Event.call "CheckUserID" [userID],
             Event.call "GetFileNameForUser" [userID],
             Event.call "CheckIsValid" [fileName],
             Event.call "GetProcessingStatus" [fileName]] }) := by
  obtain ⟨db, hist, faults, cmds, s3, trace⟩ := w
  simp only at hU hF hV hN
  cases hS : db.processingStatus fileName with
  | none =>
    rcases faults with _ | ⟨f1, _ | ⟨f2, _ | ⟨f3, _ | ⟨f4, rest⟩⟩⟩⟩ <;>
      simp_all [Agent.Process, bind, Op.bind, logCall, Storage.CheckUserID,
        Storage.GetFileNameForUser, Storage.CheckIsValid, Storage.GetProcessingStatus,
        queryStmt, takeFault, constants.NA, constants.ProcessingStatusRunning] <;>
      exact Process_rest_avoids_blocked cfg fileName barcode dryRun fromQueue _ _
  | some s =>
    by_cases hs : s = constants.ProcessingStatusRunning
    · subst hs
      rcases faults with _ | ⟨f1, _ | ⟨f2, _ | ⟨f3, _ | ⟨f4, rest⟩⟩⟩⟩ <;>
        simp_all [Agent.Process, bind, Op.bind, logCall, Storage.CheckUserID,
          Storage.GetFileNameForUser, Storage.CheckIsValid, Storage.GetProcessingStatus,
          queryStmt, takeFault, Op.throw]
    · rcases faults with _ | ⟨f1, _ | ⟨f2, _ | ⟨f3, _ | ⟨f4, rest⟩⟩⟩⟩ <;>
        simp_all [Agent.Process, bind, Op.bind, logCall, Storage.CheckUserID,
          Storage.GetFileNameForUser, Storage.CheckIsValid, Storage.GetProcessingStatus,
          queryStmt, takeFault] <;>
        exact Process_rest_avoids_blocked cfg fileName barcode dryRun fromQueue _ _


theorem checkInSlice_iff (l : List String) (s : String) :
    Storage.checkInSlice l s = true ↔ s ∈ l := by
  induction l with
  | nil => simp [Storage.checkInSlice]
  | cons x xs ih =>
    simp only [Storage.checkInSlice, List.mem_cons]
    split
    · rename_i h; simp [h]
    · rename_i h; rw [ih]; constructor
      · exact Or.inr
      · rintro (h1 | h1)
        · exact absurd h1.symm h
        · exact h1

/-- The theorem of C1 at the user `u1` whose valid file `f1` is being processed. -/
theorem Agent.Process_blocked_iff_running_witness :
    "u1" ∈ dbRunning.users ∧ dbRunning.activeFile "u1" = some "f1" ∧
    dbRunning.fileIsValid "f1" = true ∧
    (Agent.Process Config.default "u1" "B1" "cli" false false
      (World.init dbRunning [] [] [])).1 = Res.fail Err.ProcessingBlocked :=
  ⟨by decide, by decide, by decide,
    (Agent.Process_blocked_iff_running Config.default "u1" "B1" "cli" "f1" false false
      (World.init dbRunning [] [] []) (by decide) (by decide) (by decide)
      (by simp [World.init])).1.2 (by decide)⟩

/-! ## C4 -/

/-- C4: for an existing user whose active file has no validation row with the
status `valid`, `Agent.Process` returns an error whatever the storage faults
are, leaves the database and its history as they were, and logs nothing
beyond the calls of `Process`, `CheckUserID`, `GetFileNameForUser` and
`CheckIsValid`: the processing table is neither read nor written and
`RunProcessing` is not called. -/
theorem Agent.Process_invalid_file (cfg : Config)
    (userID barcode handler fileName : String) (dryRun fromQueue : Bool) (w : World)
    (hU : userID ∈ w.db.users)
    (hF : w.db.activeFile userID = some fileName)
    (hV : w.db.fileIsValid fileName = false) :
    (∃ e, (Agent.Process cfg userID barcode handler dryRun fromQueue w).1 = Res.fail e) ∧
    (Agent.Process cfg userID barcode handler dryRun fromQueue w).2.db = w.db ∧
    (Agent.Process cfg userID barcode handler dryRun fromQueue w).2.hist = w.hist ∧
    w.trace <+: (Agent.Process cfg userID barcode handler dryRun fromQueue w).2.trace ∧
    (Agent.Process cfg userID barcode handler dryRun fromQueue w).2.trace <+: w.trace ++
      [Event.call "Process" [userID, barcode, handler, toString dryRun, toString fromQueue],
       Event.call "CheckUserID" [userID],
       Event.call "GetFileNameForUser" [userID],
       Event.call "CheckIsValid" [fileName]] := by
  obtain ⟨db, hist, faults, cmds, s3, trace⟩ := w
  simp only at hU hF hV
  rcases faults with _ | ⟨f1, fs⟩
  · simp [Agent.Process, bind, Op.bind, logCall, Storage.CheckUserID,
      Storage.GetFileNameForUser, Storage.CheckIsValid, queryStmt, takeFault, hU, hF, hV]
  cases f1 <;> try (simp [Agent.Process, bind, Op.bind, logCall, Storage.CheckUserID,
      Storage.GetFileNameForUser, Storage.CheckIsValid, queryStmt, takeFault, hU, hF, hV]; done)
  rcases fs with _ | ⟨f2, fs⟩
  · simp [Agent.Process, bind, Op.bind, logCall, Storage.CheckUserID,
      Storage.GetFileNameForUser, Storage.CheckIsValid, queryStmt, takeFault, hU, hF, hV]
  cases f2 <;> try (simp [Agent.Process, bind, Op.bind, logCall, Storage.CheckUserID,
      Storage.GetFileNameForUser, Storage.CheckIsValid, queryStmt, takeFault, hU, hF, hV]; done)
  rcases fs with _ | ⟨f3, fs⟩
  · simp [Agent.Process, bind, Op.bind, logCall, Storage.CheckUserID,
      Storage.GetFileNameForUser, Storage.CheckIsValid, queryStmt, takeFault, hU, hF, hV]
  cases f3 <;> simp [Agent.Process, bind, Op.bind, logCall, Storage.CheckUserID,
      Storage.GetFileNameForUser, Storage.CheckIsValid, queryStmt, takeFault, hU, hF, hV]

/-- The theorem of C4 at the user `u1` whose file `f1` did not pass validation. -/
theorem Agent.Process_invalid_file_witness :
    "u1" ∈ dbInvalid.users ∧ dbInvalid.activeFile "u1" = some "f1" ∧
    dbInvalid.fileIsValid "f1" = false ∧
    (∃ e, (Agent.Process Config.default "u1" "B1" "cli" false false
      (World.init dbInvalid [] [] [])).1 = Res.fail e) :=
  ⟨by decide, by decide, by decide,
    (Agent.Process_invalid_file Config.default "u1" "B1" "cli" "f1" false false
      (World.init dbInvalid [] [] []) (by decide) (by decide) (by decide)).1⟩

/-! ## C5 -/

/-- C5: for a user that is not in the users table, `Agent.Process` returns an
error whatever the storage faults are, and the not-found error of
`CheckUserID` when that read has no fault; the world it leaves differs from
the one it started in only by the consumed fault and the log lines of
`Process` and `CheckUserID`: no write, no subprocess. -/
theorem Agent.Process_unknown_user (cfg : Config)
    (userID barcode handler : String) (dryRun fromQueue : Bool) (w : World)
    (hU : userID ∉ w.db.users) :
    (∃ e, (Agent.Process cfg userID barcode handler dryRun fromQueue w).1 = Res.fail e) ∧
    (w.faults.head? = none ∨ w.faults.head? = some Fault.none →
      (Agent.Process cfg userID barcode handler dryRun fromQueue w).1
        = Res.fail (Err.NotFound "user was not found")) ∧
    (Agent.Process cfg userID barcode handler dryRun fromQueue w).2 =
      { w with
        faults := w.faults.tail
        trace := w.trace ++
          [Event.call "Process" [userID, barcode, handler, toString dryRun, toString fromQueue],
           Event.call "CheckUserID" [userID]] } := by
  obtain ⟨db, hist, faults, cmds, s3, trace⟩ := w
  simp only at hU
  rcases faults with _ | ⟨f1, fs⟩
  · simp [Agent.Process, bind, Op.bind, logCall, Storage.CheckUserID, queryStmt, takeFault, hU]
  cases f1 <;>
    simp [Agent.Process, bind, Op.bind, logCall, Storage.CheckUserID, queryStmt, takeFault, hU]

/-- The theorem of C5 at the user `u2`, who is not in the sample database. -/
theorem Agent.Process_unknown_user_witness :
    "u2" ∉ dbValid.users ∧
    (Agent.Process Config.default "u2" "B1" "cli" false false
      (World.init dbValid [] [] [])).1 = Res.fail (Err.NotFound "user was not found") :=
  ⟨by decide,
    (Agent.Process_unknown_user Config.default "u2" "B1" "cli" false false
      (World.init dbValid [] [] []) (by decide)).2.1 (Or.inl rfl)⟩

/-! ## C10 -/

/-- C10: `UpdateValidationStatus` and `UpdateProcessingStatus` answer a status
outside their list with the invalid-status error and leave the world as it
was but for the log line of the call: no fault of the schedule is consumed
(no statement is prepared or executed) and the database is unchanged.
Membership is equality of strings: `Running` and the empty string are in
neither list, and `valid` is no processing status. -/
theorem Storage.UpdateStatus_rejects_unknown (fileName statusV statusP : String) (w : World)
    (hV : statusV ∉ constants.ValidValidationStatuses)
    (hP : statusP ∉ constants.ValidProcessingStatuses) :
    Storage.UpdateValidationStatus fileName statusV w =
      (Res.fail Err.InvalidStatus,
        { w with trace := w.trace ++ [Event.call "UpdateValidationStatus" [fileName, statusV]] }) ∧
    Storage.UpdateProcessingStatus fileName statusP w =
      (Res.fail Err.InvalidStatus,
        { w with trace := w.trace ++ [Event.call "UpdateProcessingStatus" [fileName, statusP]] }) ∧
    "Running" ∉ constants.ValidValidationStatuses ∧ "" ∉ constants.ValidValidationStatuses ∧
    "Running" ∉ constants.ValidProcessingStatuses ∧ "" ∉ constants.ValidProcessingStatuses ∧
    "valid" ∉ constants.ValidProcessingStatuses := by
  have h1 : Storage.checkInSlice constants.ValidValidationStatuses statusV = false := by
    rw [← Bool.not_eq_true, checkInSlice_iff]; exact hV
  have h2 : Storage.checkInSlice constants.ValidProcessingStatuses statusP = false := by
    rw [← Bool.not_eq_true, checkInSlice_iff]; exact hP
  refine ⟨?_, ?_, by decide, by decide, by decide, by decide, by decide⟩
  · simp [Storage.UpdateValidationStatus, bind, Op.bind, logCall, h1, Op.throw]
  · simp [Storage.UpdateProcessingStatus, bind, Op.bind, logCall, h2, Op.throw]

/-- The theorem of C10 at the validation status `Running` and the processing
status `valid`. -/
theorem Storage.UpdateStatus_rejects_unknown_witness :
    "Running" ∉ constants.ValidValidationStatuses ∧
    "valid" ∉ constants.ValidProcessingStatuses ∧
    (Storage.UpdateValidationStatus "f1" "Running" (World.init dbRunning [] [] [])).1 =
      Res.fail Err.InvalidStatus ∧
    (Storage.UpdateProcessingStatus "f1" "valid" (World.init dbRunning [] [] [])).2.db =
      dbRunning :=
  ⟨by decide, by decide,
    congrArg Prod.fst (Storage.UpdateStatus_rejects_unknown "f1" "Running" "valid"
      (World.init dbRunning [] [] []) (by decide) (by decide)).1,
    congrArg (fun r => r.2.db) (Storage.UpdateStatus_rejects_unknown "f1" "Running" "valid"
      (World.init dbRunning [] [] []) (by decide) (by decide)).2.1⟩

/-! ## C2, C3 -/

/-- C2: the code at the failing input. The file `f1` has a processing row with
the status `new`, the storage has no fault and the subprocess fails:
`RunProcessing` stores the status `error` and returns nil. -/
theorem Processor.RunProcessing_subprocess_failure_returns_nil :
    (Processor.RunProcessing Config.default "f1" "B1" false false
      (World.init dbQueued [] [CmdResult.exitError] [])).1 = Res.ok () ∧
    (Processor.RunProcessing Config.default "f1" "B1" false false
      (World.init dbQueued [] [CmdResult.exitError] [])).2.db.processingStatus "f1" =
        some constants.ProcessingStatusError := by
  decide

/-- C3: the code at the failing input. A processing message for the user
`u1`, whose file `f1` is valid, meets a failing subprocess:
`handleProcessingQueue` returns success `true` with a nil error, while the
stored processing status is `error`. -/
theorem AMQPHandler.handleProcessingQueue_subprocess_failure_reports_success :
    (AMQPHandler.handleProcessingQueue Config.default (fun _ => some ⟨"u1", "f1", "B1"⟩) "msg"
      (World.init dbValid [] [CmdResult.exitError] [])).1 = some ⟨"u1", "f1", true, none⟩ ∧
    (AMQPHandler.handleProcessingQueue Config.default (fun _ => some ⟨"u1", "f1", "B1"⟩) "msg"
      (World.init dbValid [] [CmdResult.exitError] [])).2.db.processingStatus "f1" =
        some constants.ProcessingStatusError := by
  decide

/-! ## C7 -/

/-- C7: the code at the failing input. In the database left by a first
validation of `u1`, `f1` that did not pass, a second validation passes with
the mode `vcf`: `Validate` returns the passed result, and `GetProductCode`
for the user still answers `NA`, which is not the product code of the mode. -/
theorem Agent.Validate_existing_user_without_product_row :
    (Agent.Validate Config.default sampleUnmarshal "u1" "f1" "cli" false false
      (World.init dbInvalid [] [CmdResult.finished "vcf passed"] [])).1 =
        Res.ok (some ⟨"vcf", "F", "", true⟩) ∧
    (Storage.GetProductCode "u1"
      (Agent.Validate Config.default sampleUnmarshal "u1" "f1" "cli" false false
        (World.init dbInvalid [] [CmdResult.finished "vcf passed"] [])).2).1 =
        Res.ok constants.NA ∧
    ProductManager.GetProductCode "vcf" ≠ constants.NA ∧
    (Agent.Validate Config.default sampleUnmarshal "u1" "f1" "cli" false false
      (World.init DB.empty [] [CmdResult.finished "vcf failed"] [])).2.db = dbInvalid := by
  decide


/-! ## Lemmas on tables -/

theorem hasValidation_eq (rows : List ValidationRow) (f : String) :
    hasValidation rows f = (lookupValidation rows f).isSome := by
  induction rows with
  | nil => rfl
  | cons r rs ih =>
    by_cases h : r.file_name = f <;>
      simp_all [hasValidation, lookupValidation, List.find?_cons]

theorem lookupValidation_set (rows : List ValidationRow) (f s g : String) :
    lookupValidation (setValidationStatus rows f s) g =
      if g = f then (lookupValidation rows g).map (fun _ => s) else lookupValidation rows g := by
  induction rows with
  | nil => simp [lookupValidation, setValidationStatus]
  | cons r rs ih =>
    simp only [lookupValidation, setValidationStatus, List.map_cons, List.find?_cons] at ih ⊢
    by_cases h1 : r.file_name = f <;> by_cases h2 : g = f <;> by_cases h3 : r.file_name = g <;>
      simp_all

theorem lookupValidation_append (rows : List ValidationRow) (f s g : String) :
    lookupValidation (rows ++ [⟨f, s⟩]) g =
      (lookupValidation rows g).or (if f = g then some s else none) := by
  induction rows with
  | nil => by_cases h : f = g <;> simp [lookupValidation, h]
  | cons r rs ih =>
    simp only [lookupValidation, List.cons_append, List.find?_cons] at ih ⊢
    by_cases h3 : r.file_name = g <;> simp_all

theorem hasProcessing_eq (rows : List ProcessingRow) (f : String) :
    hasProcessing rows f = (lookupProcessing rows f).isSome := by
  induction rows with
  | nil => rfl
  | cons r rs ih =>
    by_cases h : r.file_name = f <;>
      simp_all [hasProcessing, lookupProcessing, List.find?_cons]

theorem lookupProcessing_set (rows : List ProcessingRow) (f s g : String) :
    lookupProcessing (setProcessingStatus rows f s) g =
      if g = f then (lookupProcessing rows g).map (fun r => { r with status := s })
      else lookupProcessing rows g := by
  induction rows with
  | nil => simp [lookupProcessing, setProcessingStatus]
  | cons r rs ih =>
    simp only [lookupProcessing, setProcessingStatus, List.map_cons, List.find?_cons] at ih ⊢
    by_cases h1 : r.file_name = f <;> by_cases h2 : g = f <;> by_cases h3 : r.file_name = g <;>
      simp_all

theorem lookupProcessing_append (rows : List ProcessingRow) (r : ProcessingRow) (g : String) :
    lookupProcessing (rows ++ [r]) g =
      (lookupProcessing rows g).or (if r.file_name = g then some r else none) := by
  induction rows with
  | nil => by_cases h : r.file_name = g <;> simp [lookupProcessing, h]
  | cons x rs ih =>
    simp only [lookupProcessing, List.cons_append, List.find?_cons] at ih ⊢
    by_cases h3 : x.file_name = g <;> simp_all

theorem lookupFile_append (files : List FileRow) (u f v : String) :
    lookupFile (files ++ [⟨u, f⟩]) v =
      (lookupFile files v).or (if u = v then some f else none) := by
  induction files with
  | nil => by_cases h : u = v <;> simp [lookupFile, h]
  | cons x rs ih =>
    simp only [lookupFile, List.cons_append, List.find?_cons] at ih ⊢
    by_cases h3 : x.user_id = v <;> simp_all

theorem lookupFile_of_not_conflict (files : List FileRow) (u f : String)
    (h : filesConflict files u f = false) : lookupFile files u = none := by
  induction files with
  | nil => rfl
  | cons x rs ih =>
    simp only [filesConflict, List.any_cons, Bool.or_eq_false_iff, lookupFile,
      List.find?_cons] at h ih ⊢
    rw [h.1.1]
    exact ih h.2

theorem lookupProduct_append (rows : List ProductRow) (u c v : String) :
    lookupProduct (rows ++ [⟨u, c⟩]) v =
      (lookupProduct rows v).or (if u = v then some c else none) := by
  induction rows with
  | nil => by_cases h : u = v <;> simp [lookupProduct, h]
  | cons x rs ih =>
    simp only [lookupProduct, List.cons_append, List.find?_cons] at ih ⊢
    by_cases h3 : x.user_id = v <;> simp_all

theorem hasProduct_eq (rows : List ProductRow) (u : String) :
    hasProduct rows u = (lookupProduct rows u).isSome := by
  induction rows with
  | nil => rfl
  | cons r rs ih =>
    by_cases h : r.user_id = u <;>
      simp_all [hasProduct, lookupProduct, List.find?_cons]


theorem FaultFree_drop {l : List Fault} (h : FaultFree l) (n : Nat) :
    FaultFree (l.drop n) = True := by
  simp only [eq_iff_iff, iff_true]
  intro f hf
  exact h f (List.mem_of_mem_drop hf)

theorem takeFault_of_faultFree (w : World) (h : FaultFree w.faults) :
    takeFault w = (Fault.none, { w with faults := w.faults.drop 1 }) := by
  obtain ⟨db, hist, faults, cmds, s3, trace⟩ := w
  rcases faults with _ | ⟨f, fs⟩
  · simp [takeFault]
  · have := h f (by simp)
    subst this
    simp [takeFault]

/-! ## C6 -/

/-- C6: from a database without the user, without a files row of the user or
of the file name, without a validation row of the file name and without a
product row of the user, `Agent.Validate` with `dryRun = false`, a schedule
without storage faults, a successful download when the call comes from the
queue and a subprocess output that unmarshals to a passed result of the mode
`vcf` returns that result and leaves the user, the file association, the product
code `upload_genotek_b2c_array_vcf`, and a validation row whose status went
through new, running, valid: the statuses of the file in the states the
database went through are absent (three times), new, running, valid, valid. -/
theorem Agent.Validate_new_user_end_to_end (cfg : Config) (unmarshal : Unmarshal)
    (userID fileName handler : String) (fromQueue : Bool) (w : World)
    (out : String) (data : ValidationData)
    (hU : userID ∉ w.db.users)
    (hF : filesConflict w.db.files userID fileName = false)
    (hV : w.db.validationStatus fileName = none)
    (hP : w.db.productCode userID = none)
    (hN : FaultFree w.faults)
    (hS : fromQueue = true → (takeS3 w).1 = true)
    (hC : (takeCmd w).1 = CmdResult.finished out)
    (hJ : unmarshal out = Except.ok (some data))
    (hM : data.Mode = "vcf") (hPass : data.Passed = true) :
    (Agent.Validate cfg unmarshal userID fileName handler false fromQueue w).1
      = Res.ok (some data) ∧
    userID ∈ (Agent.Validate cfg unmarshal userID fileName handler false fromQueue w).2.db.users ∧
    (Agent.Validate cfg unmarshal userID fileName handler false fromQueue w).2.db.activeFile userID
      = some fileName ∧
    (Agent.Validate cfg unmarshal userID fileName handler false fromQueue w).2.db.productCode userID
      = some "upload_genotek_b2c_array_vcf" ∧
    ((Agent.Validate cfg unmarshal userID fileName handler false fromQueue w).2.timeline.drop
        w.hist.length).map (fun db => db.validationStatus fileName)
      = [none, none, none, some constants.ValidationStatusNew,
          some constants.ValidationStatusRunning, some constants.ValidationStatusValid,
          some constants.ValidationStatusValid] := by
  obtain ⟨db, hist, faults, cmds, s3, trace⟩ := w
  simp only at hU hF hV hP hN
  have hV2 : hasValidation db.validation fileName = false := by
    rw [hasValidation_eq]; unfold DB.validationStatus at hV; rw [hV]; rfl
  have hP2 : hasProduct db.products userID = false := by
    rw [hasProduct_eq]; unfold DB.productCode at hP; rw [hP]; rfl
  have hF2 := lookupFile_of_not_conflict _ _ _ hF
  unfold DB.validationStatus at hV
  unfold DB.productCode at hP
  rcases cmds with _ | ⟨c, cs⟩
  · simp [takeCmd] at hC
  simp only [takeCmd] at hC
  subst hC
  cases fromQueue
  · simp [Agent.Validate, Processor.RunValidation, bind, Op.bind, Op.attempt, Op.when, pure,
        Op.pure, logCall, Storage.CheckUserID, Storage.AddNewUserID, Storage.AddNewUserFilePair,
        Storage.AddNewValidationEntry, Storage.UpdateValidationStatus, Storage.AddNewProductCode,
        queryStmt, execStmt, takeFault_of_faultFree, FaultFree_drop, hN, -List.drop_one,
        commit, cmdRun, takeCmd, Storage.checkInSlice,
        constants.ValidValidationStatuses, ProductManager.GetProductCode,
        hU, hF, hV2, hP2, hJ, hM, hPass, World.timeline, DB.validationStatus, DB.activeFile,
        DB.productCode, lookupValidation_set, lookupValidation_append, lookupFile_append,
        lookupProduct_append, hV, hP, hF2, S3.DownloadFile, takeS3]
  · rcases s3 with _ | ⟨b, bs⟩
    · simp [Agent.Validate, Processor.RunValidation, bind, Op.bind, Op.attempt, Op.when, pure,
        Op.pure, logCall, Storage.CheckUserID, Storage.AddNewUserID, Storage.AddNewUserFilePair,
        Storage.AddNewValidationEntry, Storage.UpdateValidationStatus, Storage.AddNewProductCode,
        queryStmt, execStmt, takeFault_of_faultFree, FaultFree_drop, hN, -List.drop_one,
        commit, cmdRun, takeCmd, Storage.checkInSlice,
        constants.ValidValidationStatuses, ProductManager.GetProductCode,
        hU, hF, hV2, hP2, hJ, hM, hPass, World.timeline, DB.validationStatus, DB.activeFile,
        DB.productCode, lookupValidation_set, lookupValidation_append, lookupFile_append,
        lookupProduct_append, hV, hP, hF2, S3.DownloadFile, takeS3]
    · have hb : b = true := by simpa [takeS3] using hS
      subst hb
      simp [Agent.Validate, Processor.RunValidation, bind, Op.bind, Op.attempt, Op.when, pure,
        Op.pure, logCall, Storage.CheckUserID, Storage.AddNewUserID, Storage.AddNewUserFilePair,
        Storage.AddNewValidationEntry, Storage.UpdateValidationStatus, Storage.AddNewProductCode,
        queryStmt, execStmt, takeFault_of_faultFree, FaultFree_drop, hN, -List.drop_one,
        commit, cmdRun, takeCmd, Storage.checkInSlice,
        constants.ValidValidationStatuses, ProductManager.GetProductCode,
        hU, hF, hV2, hP2, hJ, hM, hPass, World.timeline, DB.validationStatus, DB.activeFile,
        DB.productCode, lookupValidation_set, lookupValidation_append, lookupFile_append,
        lookupProduct_append, hV, hP, hF2, S3.DownloadFile, takeS3]

/-- The theorem of C6 at the new user `u1` with the file `f1` in the empty
database. -/
theorem Agent.Validate_new_user_end_to_end_witness :
    "u1" ∉ DB.empty.users ∧
    (Agent.Validate Config.default sampleUnmarshal "u1" "f1" "cli" false false
      (World.init DB.empty [] [CmdResult.finished "vcf passed"] [])).1 =
        Res.ok (some ⟨"vcf", "F", "", true⟩) ∧
    (Agent.Validate Config.default sampleUnmarshal "u1" "f1" "cli" false false
      (World.init DB.empty [] [CmdResult.finished "vcf passed"] [])).2.db.productCode "u1" =
        some "upload_genotek_b2c_array_vcf" :=
  have h := Agent.Validate_new_user_end_to_end Config.default sampleUnmarshal "u1" "f1" "cli"
    false (World.init DB.empty [] [CmdResult.finished "vcf passed"] []) "vcf passed"
    ⟨"vcf", "F", "", true⟩ (by decide) (by decide) (by decide) (by decide) (by decide)
    (by decide) (by decide) rfl rfl rfl
  ⟨by decide, h.1, h.2.2.2.1⟩

/-! ## C9 -/

theorem UploadFile_snd (p t n : String) (w : World) :
    (S3.UploadFile p t n w).2 =
      { w with s3 := w.s3.tail, trace := w.trace ++ [Event.call "UploadFile" [p, t, n]] } := by
  obtain ⟨db, hist, faults, cmds, s3, trace⟩ := w
  rcases s3 with _ | ⟨b, bs⟩
  · simp [S3.UploadFile, bind, Op.bind, logCall, takeS3]
  · cases b <;> simp [S3.UploadFile, bind, Op.bind, logCall, takeS3]

theorem uploadAll_snd (files : List (String × String × String)) :
    ∀ (first : Option Err) (w : World), (Processor.uploadAll files first w).2 =
      { w with
        s3 := w.s3.drop files.length
        trace := w.trace ++ files.map fun x => Event.call "UploadFile" [x.1, x.2.1, x.2.2] } := by
  induction files with
  | nil =>
    intro first w
    cases first <;> simp [Processor.uploadAll, pure, Op.pure, Op.throw]
  | cons x rest ih =>
    intro first w
    obtain ⟨p, t, n⟩ := x
    have h := UploadFile_snd p t n w
    simp only [Processor.uploadAll]
    split
    · rename_i e w1 heq
      rw [heq] at h
      simp only at h
      rw [ih, h]
      simp [List.drop_tail]
    · rename_i r w1 _ heq
      rw [heq] at h
      simp only at h
      rw [ih, h]
      simp [List.drop_tail]

/-- C9: for an existing user with a valid active file that has no processing
row, `Agent.Process` with `dryRun = false`, a schedule without storage
faults, a successful download when the call comes from the queue and a successful
subprocess stores the barcode and takes the processing status of the file
through absent, new, running, done; the log shows the call of `uploadData`
and the uploads after the write of `done`. -/
theorem Agent.Process_end_to_end (cfg : Config)
    (userID barcode handler fileName : String) (fromQueue : Bool) (w : World) (out : String)
    (hU : userID ∈ w.db.users)
    (hF : w.db.activeFile userID = some fileName)
    (hV : w.db.fileIsValid fileName = true)
    (hP : w.db.processingStatus fileName = none)
    (hN : FaultFree w.faults)
    (hS : fromQueue = true → (takeS3 w).1 = true)
    (hC : (takeCmd w).1 = CmdResult.finished out) :
    (Agent.Process cfg userID barcode handler false fromQueue w).2.db.processingBarcode fileName
      = some barcode ∧
    ((Agent.Process cfg userID barcode handler false fromQueue w).2.timeline.drop
        w.hist.length).map (fun db => db.processingStatus fileName)
      = [none, some constants.ProcessingStatusNew, some constants.ProcessingStatusRunning,
          some constants.ProcessingStatusDone] ∧
    (Agent.Process cfg userID barcode handler false fromQueue w).2.trace =
      w.trace ++
        [Event.call "Process" [userID, barcode, handler, toString false, toString fromQueue],
         Event.call "CheckUserID" [userID],
         Event.call "GetFileNameForUser" [userID],
         Event.call "CheckIsValid" [fileName],
         Event.call "GetProcessingStatus" [fileName],
         Event.call "AddNewProcessingEntry" [fileName, barcode],
         Event.call "RunProcessing" [fileName, barcode, toString false, toString fromQueue]] ++
        (if fromQueue then [Event.call "DownloadFile" [fileName]] else []) ++
        [Event.call "UpdateProcessingStatus" [fileName, constants.ProcessingStatusRunning],
         Event.run cfg.DockerExecutable
           [cfg.DockerExecutable, "run", "--rm", "-v", cfg.MountDir ++ ":/mnt",
            cfg.DockerImageName, "main.py", "process", "--input", fileName,
            "--barcode", barcode],
         Event.call "UpdateProcessingStatus" [fileName, constants.ProcessingStatusDone],
         Event.call "uploadData" [barcode]] ++
        (Processor.uploadFiles cfg barcode).map
          (fun x => Event.call "UploadFile" [x.1, x.2.1, x.2.2]) := by
  obtain ⟨db, hist, faults, cmds, s3, trace⟩ := w
  simp only at hU hF hV hP hN
  have hP1 : lookupProcessing db.processing fileName = none := by
    simpa [DB.processingStatus] using hP
  have hP2 : hasProcessing db.processing fileName = false := by
    rw [hasProcessing_eq, hP1]; rfl
  rcases cmds with _ | ⟨c, cs⟩
  · simp [takeCmd] at hC
  simp only [takeCmd] at hC
  subst hC
  cases fromQueue
  · simp [Agent.Process, Processor.RunProcessing, Processor.uploadData, bind, Op.bind, Op.when,
      pure, Op.pure, logCall, Storage.CheckUserID, Storage.GetFileNameForUser,
      Storage.CheckIsValid, Storage.GetProcessingStatus, Storage.AddNewProcessingEntry,
      Storage.UpdateProcessingStatus, queryStmt, execStmt, takeFault_of_faultFree,
      FaultFree_drop, hN, -List.drop_one, commit, cmdRun, takeCmd,
      Storage.checkInSlice, constants.ValidProcessingStatuses, constants.NA,
      constants.ProcessingStatusRunning, constants.ProcessingStatusNew,
      constants.ProcessingStatusDone, constants.ProcessingStatusError,
      hU, hF, hV, hP, hP1, hP2, World.timeline, DB.processingStatus, DB.processingBarcode,
      lookupProcessing_set, lookupProcessing_append, uploadAll_snd, S3.DownloadFile, takeS3]
  · rcases s3 with _ | ⟨b, bs⟩
    · simp [Agent.Process, Processor.RunProcessing, Processor.uploadData, bind, Op.bind, Op.when,
      pure, Op.pure, logCall, Storage.CheckUserID, Storage.GetFileNameForUser,
      Storage.CheckIsValid, Storage.GetProcessingStatus, Storage.AddNewProcessingEntry,
      Storage.UpdateProcessingStatus, queryStmt, execStmt, takeFault_of_faultFree,
      FaultFree_drop, hN, -List.drop_one, commit, cmdRun, takeCmd,
      Storage.checkInSlice, constants.ValidProcessingStatuses, constants.NA,
      constants.ProcessingStatusRunning, constants.ProcessingStatusNew,
      constants.ProcessingStatusDone, constants.ProcessingStatusError,
      hU, hF, hV, hP, hP1, hP2, World.timeline, DB.processingStatus, DB.processingBarcode,
      lookupProcessing_set, lookupProcessing_append, uploadAll_snd, S3.DownloadFile, takeS3]
    · have hb : b = true := by simpa [takeS3] using hS
      subst hb
      simp [Agent.Process, Processor.RunProcessing, Processor.uploadData, bind, Op.bind, Op.when,
      pure, Op.pure, logCall, Storage.CheckUserID, Storage.GetFileNameForUser,
      Storage.CheckIsValid, Storage.GetProcessingStatus, Storage.AddNewProcessingEntry,
      Storage.UpdateProcessingStatus, queryStmt, execStmt, takeFault_of_faultFree,
      FaultFree_drop, hN, -List.drop_one, commit, cmdRun, takeCmd,
      Storage.checkInSlice, constants.ValidProcessingStatuses, constants.NA,
      constants.ProcessingStatusRunning, constants.ProcessingStatusNew,
      constants.ProcessingStatusDone, constants.ProcessingStatusError,
      hU, hF, hV, hP, hP1, hP2, World.timeline, DB.processingStatus, DB.processingBarcode,
      lookupProcessing_set, lookupProcessing_append, uploadAll_snd, S3.DownloadFile, takeS3]

/-- The theorem of C9 at the user `u1` whose valid file `f1` has no processing
row. -/
theorem Agent.Process_end_to_end_witness :
    "u1" ∈ dbValid.users ∧ dbValid.activeFile "u1" = some "f1" ∧
    dbValid.fileIsValid "f1" = true ∧ dbValid.processingStatus "f1" = none ∧
    (Agent.Process Config.default "u1" "B1" "cli" false false
      (World.init dbValid [] [CmdResult.finished ""] [])).2.db.processingBarcode "f1" =
        some "B1" :=
  ⟨by decide, by decide, by decide, by decide,
    (Agent.Process_end_to_end Config.default "u1" "B1" "cli" "f1" false
      (World.init dbValid [] [CmdResult.finished ""] []) "" (by decide) (by decide)
      (by decide) (by decide) (by decide) (by decide) rfl).1⟩

/-! ## C8: lawfulness is kept -/

theorem Lawful_of_same {V P : String → String → Prop} {w w1 : World}
    (hdb : w1.db = w.db) (hhist : w1.hist = w.hist) (h : w.Lawful V P) : w1.Lawful V P := by
  unfold World.Lawful World.timeline at *
  rw [hdb, hhist]; exact h

theorem Lawful_commit {V P : String → String → Prop} {w : World} {db : DB}
    (h : w.Lawful V P) (hc : DB.Changes V P w.db db) : (commit db w).Lawful V P := by
  unfold World.Lawful World.timeline at *
  simp only [commit]
  rw [List.chain'_append]
  refine ⟨h, List.chain'_singleton _, ?_⟩
  intro x hx y hy
  simp at hx hy
  subst hx hy
  exact hc

theorem Lawful_pair {V P : String → String → Prop} {w : World} (h : w.Lawful V P)
    {before after : List DB} {d1 d2 : DB}
    (e : before ++ [d1, d2] ++ after = w.timeline) : DB.Changes V P d1 d2 := by
  unfold World.Lawful at h
  rw [← e] at h
  have h1 := (List.chain'_append.1 h).1
  have h2 := (List.chain'_append.1 h1).2.1
  exact List.chain'_pair.1 h2

theorem Op.Silent.keeps {α : Type} {V P : String → String → Prop} {m : Op α}
    (hm : Op.Silent m) (pre : DB → Prop) : Op.Keeps V P pre m pre := by
  intro w hw hpre
  obtain ⟨h1, h2⟩ := hm w
  refine ⟨Lawful_of_same h1 h2 hw, fun _ => ?_⟩
  rw [h1]; exact hpre

theorem Op.Keeps.bind {α β : Type} {V P : String → String → Prop} {pre mid post : DB → Prop}
    {m : Op α} {f : α → Op β}
    (hm : Op.Keeps V P pre m mid) (hf : ∀ a, Op.Keeps V P mid (f a) post) :
    Op.Keeps V P pre (m >>= f) post := by
  intro w hw hpre
  obtain ⟨h1, h2⟩ := hm w hw hpre
  show (Op.bind m f w).2.Lawful V P ∧
    ((∃ a, (Op.bind m f w).1 = Res.ok a) → post (Op.bind m f w).2.db)
  unfold Op.bind
  split
  · rename_i a w1 heq
    rw [heq] at h1 h2
    exact hf a w1 h1 (h2 ⟨a, rfl⟩)
  · rename_i e w1 heq
    rw [heq] at h1
    exact ⟨h1, fun ⟨a, ha⟩ => by simp at ha⟩
  · rename_i w1 heq
    rw [heq] at h1
    exact ⟨h1, fun ⟨a, ha⟩ => by simp at ha⟩

theorem Op.Keeps.weaken {α : Type} {V P : String → String → Prop} {pre pre1 post post1 : DB → Prop}
    {m : Op α} (hm : Op.Keeps V P pre m post)
    (h1 : ∀ db, pre1 db → pre db) (h2 : ∀ db, post db → post1 db) :
    Op.Keeps V P pre1 m post1 := by
  intro w hw hpre
  obtain ⟨h3, h4⟩ := hm w hw (h1 _ hpre)
  exact ⟨h3, fun h => h2 _ (h4 h)⟩

theorem Op.Keeps.when {V P : String → String → Prop} {pre post : DB → Prop}
    {m : Op Unit} (c : Bool) (hm : Op.Keeps V P pre m post) (h : c = false → ∀ db, pre db → post db) :
    Op.Keeps V P pre (Op.when c m) post := by
  cases c
  · intro w hw hpre
    simp only [Op.when, Op.pure, Bool.false_eq_true, ↓reduceIte]
    exact ⟨hw, fun _ => h rfl _ hpre⟩
  · simpa [Op.when] using hm

theorem Op.Silent.bind_silent {α β : Type} {m : Op α} {f : α → Op β}
    (hm : Op.Silent m) (hf : ∀ a, Op.Silent (f a)) : Op.Silent (m >>= f) := by
  intro w
  obtain ⟨h1, h2⟩ := hm w
  show (Op.bind m f w).2.db = _ ∧ (Op.bind m f w).2.hist = _
  unfold Op.bind
  split
  · rename_i a w1 heq
    rw [heq] at h1 h2
    obtain ⟨h3, h4⟩ := hf a w1
    exact ⟨h3.trans h1, h4.trans h2⟩
  · rename_i e w1 heq
    rw [heq] at h1 h2
    exact ⟨h1, h2⟩
  · rename_i w1 heq
    rw [heq] at h1 h2
    exact ⟨h1, h2⟩

theorem Op.Silent.pure_silent {α : Type} (a : α) : Op.Silent (Pure.pure a : Op α) := by
  intro w; exact ⟨rfl, rfl⟩

theorem Op.Silent.throw {α : Type} (e : Err) : Op.Silent (Op.throw e : Op α) := by
  intro w; exact ⟨rfl, rfl⟩

theorem Op.Silent.nilDeref {α : Type} : Op.Silent (Op.nilDeref : Op α) := by
  intro w; exact ⟨rfl, rfl⟩

theorem Op.Silent.when_silent {c : Bool} {m : Op Unit} (hm : Op.Silent m) : Op.Silent (Op.when c m) := by
  cases c
  · intro w; exact ⟨rfl, rfl⟩
  · simpa [Op.when] using hm

theorem Op.Silent.attempt {α : Type} {m : Op α} (hm : Op.Silent m) : Op.Silent (Op.attempt m) := by
  intro w
  obtain ⟨h1, h2⟩ := hm w
  unfold Op.attempt
  split <;> rename_i heq <;> rw [heq] at h1 h2 <;> exact ⟨h1, h2⟩

theorem logCall_silent (m : String) (args : List String) : Op.Silent (logCall m args) := by
  intro w; exact ⟨rfl, rfl⟩

theorem takeFault_db (w : World) : (takeFault w).2.db = w.db ∧ (takeFault w).2.hist = w.hist := by
  unfold takeFault
  split <;> exact ⟨rfl, rfl⟩

theorem queryStmt_silent {α : Type} (stmt : DB → Except Err α) : Op.Silent (queryStmt stmt) := by
  intro w
  have h := takeFault_db w
  unfold queryStmt
  split <;> rename_i heq <;> rw [heq] at h <;> try exact h
  split <;> exact h

theorem cmdRun_silent (e : String) (args : List String) : Op.Silent (cmdRun e args) := by
  intro w
  obtain ⟨db, hist, faults, cmds, s3, trace⟩ := w
  rcases cmds with _ | ⟨c, cs⟩ <;> simp [cmdRun, takeCmd]

theorem DownloadFile_silent (f : String) : Op.Silent (S3.DownloadFile f) := by
  unfold S3.DownloadFile
  refine Op.Silent.bind_silent (logCall_silent _ _) (fun _ => ?_)
  intro w
  obtain ⟨db, hist, faults, cmds, s3, trace⟩ := w
  rcases s3 with _ | ⟨b, bs⟩
  · simp [takeS3]
  · cases b <;> simp [takeS3]

theorem uploadData_silent (cfg : Config) (b : String) : Op.Silent (Processor.uploadData cfg b) := by
  unfold Processor.uploadData
  refine Op.Silent.bind_silent (logCall_silent _ _) (fun _ => ?_)
  intro w
  rw [uploadAll_snd]
  exact ⟨rfl, rfl⟩

theorem execStmt_keeps {V P : String → String → Prop} (pre post : DB → Prop)
    (stmt : DB → Except Err DB)
    (h : ∀ db db1, pre db → stmt db = Except.ok db1 → DB.Changes V P db db1 ∧ post db1) :
    Op.Keeps V P pre (execStmt stmt) post := by
  intro w hw hpre
  obtain ⟨h1, h2⟩ := takeFault_db w
  have hw1 : (takeFault w).2.Lawful V P := Lawful_of_same h1 h2 hw
  unfold execStmt
  split <;> rename_i heq <;> rw [heq] at h1 hw1 <;> simp only at h1 hw1
  · split
    · rename_i db1 hs
      rw [h1] at hs
      obtain ⟨h3, h4⟩ := h _ _ hpre hs
      exact ⟨Lawful_commit hw1 (h1 ▸ h3), fun _ => h4⟩
    · exact ⟨hw1, fun ⟨a, ha⟩ => by simp at ha⟩
  · exact ⟨hw1, fun ⟨a, ha⟩ => by simp at ha⟩
  · exact ⟨hw1, fun ⟨a, ha⟩ => by simp at ha⟩
  · split
    · rename_i db1 hs
      rw [h1] at hs
      obtain ⟨h3, h4⟩ := h _ _ hpre hs
      exact ⟨Lawful_commit hw1 (h1 ▸ h3), fun ⟨a, ha⟩ => by simp at ha⟩
    · exact ⟨hw1, fun ⟨a, ha⟩ => by simp at ha⟩

theorem Changes_of_tables_eq {V P : String → String → Prop} {d1 d2 : DB}
    (h1 : d2.validation = d1.validation) (h2 : d2.processing = d1.processing) :
    DB.Changes V P d1 d2 := by
  constructor
  · intro f s1 s2 e1 e2 hne
    simp only [DB.validationStatus, h1] at e1 e2
    rw [e1] at e2
    exact absurd (Option.some.inj e2) hne
  · intro f s1 s2 e1 e2 hne
    simp only [DB.processingStatus, h2] at e1 e2
    rw [e1] at e2
    exact absurd (Option.some.inj e2) hne

theorem Changes_add_validation {V P : String → String → Prop} (db : DB) (f s : String) :
    DB.Changes V P db { db with validation := db.validation ++ [⟨f, s⟩] } := by
  constructor
  · intro g s1 s2 e1 e2 hne
    simp only [DB.validationStatus, lookupValidation_append] at e1 e2
    rw [e1] at e2
    simp at e2
    exact absurd e2 hne
  · intro g s1 s2 e1 e2 hne
    simp only [DB.processingStatus] at e1 e2
    rw [e1] at e2
    exact absurd (Option.some.inj e2) hne

theorem Changes_add_processing {V P : String → String → Prop} (db : DB) (r : ProcessingRow) :
    DB.Changes V P db { db with processing := db.processing ++ [r] } := by
  constructor
  · intro g s1 s2 e1 e2 hne
    simp only [DB.validationStatus] at e1 e2
    rw [e1] at e2
    exact absurd (Option.some.inj e2) hne
  · intro g s1 s2 e1 e2 hne
    simp only [DB.processingStatus, lookupProcessing_append] at e1 e2
    cases h : lookupProcessing db.processing g with
    | none => simp [h] at e1
    | some x =>
      simp [h] at e1 e2
      rw [e1] at e2
      exact absurd e2 hne

theorem Changes_set_validation {V P : String → String → Prop} (db : DB) (f s : String)
    (h : ∀ s1, db.validationStatus f = some s1 → s1 ≠ s → V s1 s) :
    DB.Changes V P db { db with validation := setValidationStatus db.validation f s } := by
  constructor
  · intro g s1 s2 e1 e2 hne
    simp only [DB.validationStatus, lookupValidation_set] at e1 e2 h
    by_cases hg : g = f
    · subst hg
      simp [e1] at e2
      subst e2
      exact h s1 e1 hne
    · simp [hg, e1] at e2
      exact absurd e2 hne
  · intro g s1 s2 e1 e2 hne
    simp only [DB.processingStatus] at e1 e2
    rw [e1] at e2
    exact absurd (Option.some.inj e2) hne

theorem Changes_set_processing {V P : String → String → Prop} (db : DB) (f s : String)
    (h : ∀ s1, db.processingStatus f = some s1 → s1 ≠ s → P s1 s) :
    DB.Changes V P db { db with processing := setProcessingStatus db.processing f s } := by
  constructor
  · intro g s1 s2 e1 e2 hne
    simp only [DB.validationStatus] at e1 e2
    rw [e1] at e2
    exact absurd (Option.some.inj e2) hne
  · intro g s1 s2 e1 e2 hne
    simp only [DB.processingStatus, lookupProcessing_set] at e1 e2 h
    by_cases hg : g = f
    · subst hg
      cases hl : lookupProcessing db.processing g with
      | none => simp [hl] at e1
      | some x =>
        simp [hl] at e1 e2
        subst e2
        exact h s1 (by simp [hl, e1]) hne
    · simp [hg, e1] at e2
      exact absurd e2 hne

theorem AddNewUserID_keeps (u : String) :
    Op.Keeps validationStep processingStep (fun _ => True) (Storage.AddNewUserID u)
      (fun _ => True) := by
  unfold Storage.AddNewUserID
  refine Op.Keeps.bind ((logCall_silent _ _).keeps _) (fun _ => ?_)
  refine execStmt_keeps _ _ _ ?_
  intro db db1 _ hs
  split at hs
  · simp at hs
  · simp only [Except.ok.injEq] at hs
    subst hs
    exact ⟨Changes_of_tables_eq rfl rfl, trivial⟩

theorem AddNewUserFilePair_keeps (u f : String) :
    Op.Keeps validationStep processingStep (fun _ => True) (Storage.AddNewUserFilePair u f)
      (fun _ => True) := by
  unfold Storage.AddNewUserFilePair
  refine Op.Keeps.bind ((logCall_silent _ _).keeps _) (fun _ => ?_)
  refine execStmt_keeps _ _ _ ?_
  intro db db1 _ hs
  split at hs
  · simp at hs
  · simp only [Except.ok.injEq] at hs
    subst hs
    exact ⟨Changes_of_tables_eq rfl rfl, trivial⟩

theorem UpdateUserFilePair_keeps (u f : String) :
    Op.Keeps validationStep processingStep (fun _ => True) (Storage.UpdateUserFilePair u f)
      (fun _ => True) := by
  unfold Storage.UpdateUserFilePair
  refine Op.Keeps.bind ((logCall_silent _ _).keeps _) (fun _ => ?_)
  refine execStmt_keeps _ _ _ ?_
  intro db db1 _ hs
  split at hs
  · simp at hs
  · simp only [Except.ok.injEq] at hs
    subst hs
    exact ⟨Changes_of_tables_eq rfl rfl, trivial⟩

theorem AddNewProductCode_keeps (u c : String) :
    Op.Keeps validationStep processingStep (fun _ => True) (Storage.AddNewProductCode u c)
      (fun _ => True) := by
  unfold Storage.AddNewProductCode
  refine Op.Keeps.bind ((logCall_silent _ _).keeps _) (fun _ => ?_)
  refine execStmt_keeps _ _ _ ?_
  intro db db1 _ hs
  split at hs
  · simp at hs
  · simp only [Except.ok.injEq] at hs
    subst hs
    exact ⟨Changes_of_tables_eq rfl rfl, trivial⟩

theorem UpdateProductCode_keeps (u c : String) :
    Op.Keeps validationStep processingStep (fun _ => True) (Storage.UpdateProductCode u c)
      (fun _ => True) := by
  unfold Storage.UpdateProductCode
  refine Op.Keeps.bind ((logCall_silent _ _).keeps _) (fun _ => ?_)
  refine execStmt_keeps _ _ _ ?_
  intro db db1 _ hs
  simp only [Except.ok.injEq] at hs
  subst hs
  exact ⟨Changes_of_tables_eq rfl rfl, trivial⟩

theorem AddNewValidationEntry_keeps (f : String) :
    Op.Keeps validationStep processingStep (fun _ => True) (Storage.AddNewValidationEntry f)
      (fun _ => True) := by
  unfold Storage.AddNewValidationEntry
  refine Op.Keeps.bind ((logCall_silent _ _).keeps _) (fun _ => ?_)
  refine execStmt_keeps _ _ _ ?_
  intro db db1 _ hs
  split at hs
  · simp at hs
  · simp only [Except.ok.injEq] at hs
    subst hs
    exact ⟨Changes_add_validation _ _ _, trivial⟩

theorem AddNewProcessingEntry_keeps (f b : String) :
    Op.Keeps validationStep processingStep (fun _ => True) (Storage.AddNewProcessingEntry f b)
      (fun _ => True) := by
  unfold Storage.AddNewProcessingEntry
  refine Op.Keeps.bind ((logCall_silent _ _).keeps _) (fun _ => ?_)
  refine execStmt_keeps _ _ _ ?_
  intro db db1 _ hs
  split at hs
  · simp at hs
  · simp only [Except.ok.injEq] at hs
    subst hs
    exact ⟨Changes_add_processing _ _, trivial⟩

theorem UpdateValidationStatus_running_keeps (f : String) :
    Op.Keeps validationStep processingStep (fun _ => True)
      (Storage.UpdateValidationStatus f constants.ValidationStatusRunning)
      (validationRunning f) := by
  unfold Storage.UpdateValidationStatus
  refine Op.Keeps.bind ((logCall_silent _ _).keeps _) (fun _ => ?_)
  split
  · intro w hw _
    exact ⟨hw, fun ⟨a, ha⟩ => by simp [Op.throw] at ha⟩
  · refine execStmt_keeps _ _ _ ?_
    intro db db1 _ hs
    simp only [Except.ok.injEq] at hs
    subst hs
    refine ⟨Changes_set_validation _ _ _ (fun _ _ _ => Or.inl rfl), ?_⟩
    simp only [validationRunning, DB.validationStatus, lookupValidation_set]
    cases lookupValidation db.validation f <;> simp

theorem UpdateValidationStatus_final_keeps (f s : String)
    (hs : s = constants.ValidationStatusValid ∨ s = constants.ValidationStatusInvalid ∨
      s = constants.ValidationStatusError) :
    Op.Keeps validationStep processingStep (validationRunning f)
      (Storage.UpdateValidationStatus f s) (fun _ => True) := by
  unfold Storage.UpdateValidationStatus
  refine Op.Keeps.bind ((logCall_silent _ _).keeps _) (fun _ => ?_)
  split
  · intro w hw _
    exact ⟨hw, fun ⟨a, ha⟩ => by simp [Op.throw] at ha⟩
  · refine execStmt_keeps _ _ _ ?_
    intro db db1 hpre hst
    simp only [Except.ok.injEq] at hst
    subst hst
    refine ⟨Changes_set_validation _ _ _ ?_, trivial⟩
    intro s1 h1 _
    rcases hpre with h2 | h2
    · rw [h2] at h1; simp at h1
    · rw [h2] at h1
      simp only [Option.some.injEq] at h1
      exact Or.inr ⟨h1.symm, hs⟩

theorem UpdateProcessingStatus_running_keeps (f : String) :
    Op.Keeps validationStep processingStep (fun _ => True)
      (Storage.UpdateProcessingStatus f constants.ProcessingStatusRunning)
      (processingRunning f) := by
  unfold Storage.UpdateProcessingStatus
  refine Op.Keeps.bind ((logCall_silent _ _).keeps _) (fun _ => ?_)
  split
  · intro w hw _
    exact ⟨hw, fun ⟨a, ha⟩ => by simp [Op.throw] at ha⟩
  · refine execStmt_keeps _ _ _ ?_
    intro db db1 _ hs
    simp only [Except.ok.injEq] at hs
    subst hs
    refine ⟨Changes_set_processing _ _ _ (fun _ _ _ => Or.inl rfl), ?_⟩
    simp only [processingRunning, DB.processingStatus, lookupProcessing_set]
    cases lookupProcessing db.processing f <;> simp

theorem UpdateProcessingStatus_final_keeps (f s : String)
    (hs : s = constants.ProcessingStatusDone ∨ s = constants.ProcessingStatusError) :
    Op.Keeps validationStep processingStep (processingRunning f)
      (Storage.UpdateProcessingStatus f s) (fun _ => True) := by
  unfold Storage.UpdateProcessingStatus
  refine Op.Keeps.bind ((logCall_silent _ _).keeps _) (fun _ => ?_)
  split
  · intro w hw _
    exact ⟨hw, fun ⟨a, ha⟩ => by simp [Op.throw] at ha⟩
  · refine execStmt_keeps _ _ _ ?_
    intro db db1 hpre hst
    simp only [Except.ok.injEq] at hst
    subst hst
    refine ⟨Changes_set_processing _ _ _ ?_, trivial⟩
    intro s1 h1 _
    rcases hpre with h2 | h2
    · rw [h2] at h1; simp at h1
    · rw [h2] at h1
      simp only [Option.some.injEq] at h1
      exact Or.inr ⟨h1.symm, hs⟩

theorem Op.Silent.when_false (m : Op Unit) : Op.Silent (Op.when false m) := by
  intro w; exact ⟨rfl, rfl⟩

theorem RunValidation_keeps (cfg : Config) (unmarshal : Unmarshal) (f : String)
    (dryRun fromQueue : Bool) :
    Op.Keeps validationStep processingStep (fun _ => True)
      (Processor.RunValidation cfg unmarshal f dryRun fromQueue) (fun _ => True) := by
  unfold Processor.RunValidation
  refine Op.Keeps.bind ((logCall_silent _ _).keeps _) (fun _ => ?_)
  refine Op.Keeps.bind ((Op.Silent.when_silent (DownloadFile_silent _)).keeps _) (fun _ => ?_)
  cases dryRun
  · refine Op.Keeps.bind
      (Op.Keeps.when _ (UpdateValidationStatus_running_keeps f) (by simp)) (fun _ => ?_)
    refine Op.Keeps.bind ((cmdRun_silent _ _).keeps _) (fun r => ?_)
    cases r with
    | exitError =>
      refine Op.Keeps.bind
        (Op.Keeps.when _ (UpdateValidationStatus_final_keeps f _ (Or.inr (Or.inr rfl)))
          (by simp)) (fun _ => ?_)
      exact (Op.Silent.throw _).keeps _
    | finished out =>
      dsimp only
      split
      · exact ((Op.Silent.throw _).keeps _).weaken (fun _ _ => trivial) (fun _ _ => trivial)
      · rename_i cmdOutput _
        refine Op.Keeps.bind (Op.Keeps.when _ ?_ (by simp)) (fun _ => (Op.Silent.pure_silent _).keeps _)
        cases cmdOutput with
        | none =>
          exact (Op.Silent.nilDeref.keeps _).weaken (fun _ h => h) (fun _ _ => trivial)
        | some data =>
          dsimp only
          split
          · exact UpdateValidationStatus_final_keeps f _ (Or.inl rfl)
          · exact UpdateValidationStatus_final_keeps f _ (Or.inr (Or.inl rfl))
  · refine Op.Silent.keeps ?_ _
    refine Op.Silent.bind_silent (Op.Silent.when_false _) (fun _ => ?_)
    refine Op.Silent.bind_silent (cmdRun_silent _ _) (fun r => ?_)
    cases r with
    | exitError =>
      exact Op.Silent.bind_silent (Op.Silent.when_false _)
        (fun _ => Op.Silent.throw _)
    | finished out =>
      dsimp only
      split
      · exact Op.Silent.throw _
      · exact Op.Silent.bind_silent (Op.Silent.when_false _)
          (fun _ => Op.Silent.pure_silent _)

theorem RunProcessing_keeps (cfg : Config) (f b : String) (dryRun fromQueue : Bool) :
    Op.Keeps validationStep processingStep (fun _ => True)
      (Processor.RunProcessing cfg f b dryRun fromQueue) (fun _ => True) := by
  unfold Processor.RunProcessing
  refine Op.Keeps.bind ((logCall_silent _ _).keeps _) (fun _ => ?_)
  refine Op.Keeps.bind ((Op.Silent.when_silent (DownloadFile_silent _)).keeps _) (fun _ => ?_)
  refine Op.Keeps.bind (UpdateProcessingStatus_running_keeps f) (fun _ => ?_)
  refine Op.Keeps.bind ((cmdRun_silent _ _).keeps _) (fun r => ?_)
  cases r with
  | exitError =>
    exact Op.Keeps.bind (UpdateProcessingStatus_final_keeps f _ (Or.inr rfl))
      (fun _ => (Op.Silent.pure_silent _).keeps _)
  | finished out =>
    refine Op.Keeps.bind (UpdateProcessingStatus_final_keeps f _ (Or.inl rfl)) (fun _ => ?_)
    exact (Op.Silent.when_silent (uploadData_silent _ _)).keeps _

theorem Validate_keeps (cfg : Config) (unmarshal : Unmarshal) (u f h : String)
    (dryRun fromQueue : Bool) :
    Op.Keeps validationStep processingStep (fun _ => True)
      (Agent.Validate cfg unmarshal u f h dryRun fromQueue) (fun _ => True) := by
  unfold Agent.Validate
  refine Op.Keeps.bind ((logCall_silent _ _).keeps _) (fun _ => ?_)
  refine Op.Keeps.bind (Op.Silent.keeps ?_ _) (fun userIsNew => ?_)
  · refine Op.Silent.bind_silent (Op.Silent.attempt ?_) (fun r => ?_)
    · exact Op.Silent.bind_silent (logCall_silent _ _) (fun _ => queryStmt_silent _)
    · cases r <;> exact Op.Silent.pure_silent _
  refine Op.Keeps.bind (Op.Keeps.when _ ?_ (fun _ _ h => h)) (fun _ => ?_)
  · split
    · exact Op.Keeps.bind (AddNewUserID_keeps u) (fun _ =>
        Op.Keeps.bind (AddNewUserFilePair_keeps u f) (fun _ => AddNewValidationEntry_keeps f))
    · exact UpdateUserFilePair_keeps u f
  refine Op.Keeps.bind (RunValidation_keeps cfg unmarshal f dryRun fromQueue) (fun v => ?_)
  refine Op.Keeps.bind (Op.Keeps.when _ ?_ (fun _ _ h => h)) (fun _ => (Op.Silent.pure_silent _).keeps _)
  cases v with
  | none => exact Op.Silent.nilDeref.keeps _
  | some data =>
    dsimp only
    refine Op.Keeps.when _ ?_ (fun _ _ h => h)
    split
    · exact AddNewProductCode_keeps _ _
    · exact UpdateProductCode_keeps _ _

theorem Process_keeps (cfg : Config) (u b h : String) (dryRun fromQueue : Bool) :
    Op.Keeps validationStep processingStep (fun _ => True)
      (Agent.Process cfg u b h dryRun fromQueue) (fun _ => True) := by
  unfold Agent.Process
  refine Op.Keeps.bind ((logCall_silent _ _).keeps _) (fun _ => ?_)
  refine Op.Keeps.bind (Op.Silent.keeps ?_ _) (fun _ => ?_)
  · exact Op.Silent.bind_silent (logCall_silent _ _) (fun _ => queryStmt_silent _)
  refine Op.Keeps.bind (Op.Silent.keeps ?_ _) (fun fileName => ?_)
  · exact Op.Silent.bind_silent (logCall_silent _ _) (fun _ => queryStmt_silent _)
  refine Op.Keeps.bind (Op.Silent.keeps ?_ _) (fun _ => ?_)
  · exact Op.Silent.bind_silent (logCall_silent _ _) (fun _ => queryStmt_silent _)
  refine Op.Keeps.bind (Op.Silent.keeps ?_ _) (fun status => ?_)
  · exact Op.Silent.bind_silent (logCall_silent _ _) (fun _ => queryStmt_silent _)
  split
  · exact (Op.Silent.throw _).keeps _
  · exact Op.Keeps.bind (Op.Keeps.when _ (AddNewProcessingEntry_keeps _ _) (fun _ _ h => h))
      (fun _ => RunProcessing_keeps cfg _ b dryRun fromQueue)

theorem Call_run_lawful (cfg : Config) (unmarshal : Unmarshal) (c : Call) (w : World)
    (hw : w.Lawful validationStep processingStep) :
    (c.run cfg unmarshal w).Lawful validationStep processingStep := by
  cases c with
  | validate u f h d q => exact (Validate_keeps cfg unmarshal u f h d q w hw trivial).1
  | process u b h d q => exact (Process_keeps cfg u b h d q w hw trivial).1

theorem runCalls_lawful (cfg : Config) (unmarshal : Unmarshal) (calls : List Call) :
    ∀ w : World, w.Lawful validationStep processingStep →
      (runCalls cfg unmarshal calls w).Lawful validationStep processingStep := by
  induction calls with
  | nil => intro w hw; exact hw
  | cons c cs ih =>
    intro w hw
    exact ih _ (Call_run_lawful cfg unmarshal c w hw)

/-- C8 as amended: after every sequence of `Validate` and `Process` calls,
from any database and under any schedule of storage faults, subprocess
results and S3 outcomes, every change of a stored validation status was into
`running` or from `running` into `valid`, `invalid` or `error`, and every
change of a stored processing status was into `running` or from `running` into
`done` or `error`. -/
theorem status_changes_pass_through_running (cfg : Config) (unmarshal : Unmarshal)
    (calls : List Call) (db : DB) (faults : List Fault) (cmds : List CmdResult)
    (s3 : List Bool) :
    (runCalls cfg unmarshal calls (World.init db faults cmds s3)).Lawful
      validationStep processingStep := by
  apply runCalls_lawful
  simp [World.Lawful, World.timeline, World.init]

/-- C8 as stated fails: validating a file a second time takes its stored
validation status from `valid` to `running`, and processing a file a second
time takes its stored processing status from `done` to `running`. -/
theorem spec_status_steps_violated :
    ¬ worldValidatedTwice.Lawful specValidationStep specProcessingStep ∧
    ¬ worldProcessedTwice.Lawful specValidationStep specProcessingStep := by
  constructor
  · intro h
    have hin : List.take 7 worldValidatedTwice.timeline ++
        [dbValid, { dbValid with validation := [⟨"f1", "running"⟩] }] ++
        List.drop 9 worldValidatedTwice.timeline = worldValidatedTwice.timeline := by decide
    have hc := (Lawful_pair h hin).1 "f1" "valid" "running"
      (by decide) (by decide) (by decide)
    simp [specValidationStep, constants.ValidationStatusNew, constants.ValidationStatusRunning,
      constants.ValidationStatusValid, constants.ValidationStatusInvalid,
      constants.ValidationStatusError] at hc
  · intro h
    have hin : List.take 3 worldProcessedTwice.timeline ++
        [{ dbValid with processing := [⟨"f1", "B1", "done"⟩] },
         { dbValid with processing := [⟨"f1", "B1", "running"⟩] }] ++
        List.drop 5 worldProcessedTwice.timeline = worldProcessedTwice.timeline := by decide
    have hc := (Lawful_pair h hin).2 "f1" "done" "running"
      (by decide) (by decide) (by decide)
    simp [specProcessingStep, constants.ProcessingStatusNew, constants.ProcessingStatusRunning,
      constants.ProcessingStatusDone, constants.ProcessingStatusError] at hc

/-! ## C12 -/

/-- C12: `ProductManager.GetProductCode` answers `upload_genotek_b2c_array_vcf`
exactly for the mode `vcf` and `upload_23andme_v5_b2c_array_txt` for every
other string, among them `tsv`, `csv`, the empty string and `VCF`; it has no
third value. -/
theorem ProductManager.GetProductCode_values (mode : String) :
    (ProductManager.GetProductCode mode = "upload_genotek_b2c_array_vcf" ↔ mode = "vcf") ∧
    (ProductManager.GetProductCode mode = "upload_23andme_v5_b2c_array_txt" ↔ mode ≠ "vcf") ∧
    (ProductManager.GetProductCode mode = "upload_genotek_b2c_array_vcf" ∨
      ProductManager.GetProductCode mode = "upload_23andme_v5_b2c_array_txt") ∧
    ProductManager.GetProductCode "tsv" = "upload_23andme_v5_b2c_array_txt" ∧
    ProductManager.GetProductCode "csv" = "upload_23andme_v5_b2c_array_txt" ∧
    ProductManager.GetProductCode "" = "upload_23andme_v5_b2c_array_txt" ∧
    ProductManager.GetProductCode "VCF" = "upload_23andme_v5_b2c_array_txt" := by
  refine ⟨?_, ?_, ?_, by decide, by decide, by decide, by decide⟩
  · by_cases h : mode = "vcf"
    · simp [ProductManager.GetProductCode, h]
    · simp [ProductManager.GetProductCode, h]
  · by_cases h : mode = "vcf"
    · simp [ProductManager.GetProductCode, h]
    · simp [ProductManager.GetProductCode, h]
  · by_cases h : mode = "vcf"
    · simp [ProductManager.GetProductCode, h]
    · simp [ProductManager.GetProductCode, h]

/-! ## C16 -/

theorem RunValidation_dry_silent (cfg : Config) (unmarshal : Unmarshal) (f : String)
    (fromQueue : Bool) :
    Op.Silent (Processor.RunValidation cfg unmarshal f true fromQueue) := by
  unfold Processor.RunValidation
  refine Op.Silent.bind_silent (logCall_silent _ _) (fun _ => ?_)
  refine Op.Silent.bind_silent (Op.Silent.when_silent (DownloadFile_silent _)) (fun _ => ?_)
  refine Op.Silent.bind_silent (Op.Silent.when_false _) (fun _ => ?_)
  refine Op.Silent.bind_silent (cmdRun_silent _ _) (fun r => ?_)
  cases r with
  | exitError =>
    exact Op.Silent.bind_silent (Op.Silent.when_false _) (fun _ => Op.Silent.throw _)
  | finished out =>
    dsimp only
    split
    · exact Op.Silent.throw _
    · exact Op.Silent.bind_silent (Op.Silent.when_false _) (fun _ => Op.Silent.pure_silent _)

theorem CheckUserID_silent (u : String) : Op.Silent (Storage.CheckUserID u) :=
  Op.Silent.bind_silent (logCall_silent _ _) (fun _ => queryStmt_silent _)

/-- C16: `Agent.Validate` with `dryRun = true` leaves the database as it was,
and adds no state to its history (no statement that writes was executed),
for every user, file name, world and `json.Unmarshal`: whatever the subprocess
does, whatever its output parses to and whatever faults the storage has. -/
theorem Agent.Validate_dry_run_changes_nothing (cfg : Config) (unmarshal : Unmarshal)
    (userID fileName handler : String) (fromQueue : Bool) (w : World) :
    (Agent.Validate cfg unmarshal userID fileName handler true fromQueue w).2.db = w.db ∧
    (Agent.Validate cfg unmarshal userID fileName handler true fromQueue w).2.hist = w.hist := by
  have h : Op.Silent (Agent.Validate cfg unmarshal userID fileName handler true fromQueue) := by
    unfold Agent.Validate
    refine Op.Silent.bind_silent (logCall_silent _ _) (fun _ => ?_)
    refine Op.Silent.bind_silent ?_ (fun userIsNew => ?_)
    · refine Op.Silent.bind_silent (Op.Silent.attempt (CheckUserID_silent _)) (fun r => ?_)
      cases r <;> exact Op.Silent.pure_silent _
    refine Op.Silent.bind_silent (Op.Silent.when_false _) (fun _ => ?_)
    refine Op.Silent.bind_silent (RunValidation_dry_silent _ _ _ _) (fun v => ?_)
    exact Op.Silent.bind_silent (Op.Silent.when_false _) (fun _ => Op.Silent.pure_silent _)
  exact h w

/-! ## C20 -/

/-- C20 as stated fails: the user `u2` has no row in the files table, and
`GetFileNameForUser` returns the execution error that wraps `sql.ErrNoRows`,
which is not the not-found error. -/
theorem GetFileNameForUser_absent_is_execution_error :
    (Storage.GetFileNameForUser "u2" (World.init dbValid [] [] [])).1 =
      Res.fail (Err.ExecutionPSQL ErrNoRows) ∧
    ∀ msg, (Storage.GetFileNameForUser "u2" (World.init dbValid [] [] [])).1 ≠
      Res.fail (Err.NotFound msg) := by
  constructor
  · decide
  · intro msg h
    have h1 : (Storage.GetFileNameForUser "u2" (World.init dbValid [] [] [])).1 =
        Res.fail (Err.ExecutionPSQL ErrNoRows) := by decide
    rw [h1] at h
    simp at h

/-- C20 as amended: when the storage call has no fault and the queried row is
absent, `GetFileNameForUser` returns the execution error that wraps
`sql.ErrNoRows`, `GetProcessingStatus` and `GetProductCode` return the
sentinel `NA` with a nil error, and the not-found error is returned by the
two existence checks only: `CheckUserID` for an absent user and
`CheckIsValid` for a file without a valid validation row. -/
theorem Storage.absent_row_results (userID fileName : String) (w : World)
    (hN : (takeFault w).1 = Fault.none) :
    (w.db.activeFile userID = none →
      (Storage.GetFileNameForUser userID w).1 = Res.fail (Err.ExecutionPSQL ErrNoRows)) ∧
    (w.db.processingStatus fileName = none →
      (Storage.GetProcessingStatus fileName w).1 = Res.ok constants.NA) ∧
    (w.db.productCode userID = none →
      (Storage.GetProductCode userID w).1 = Res.ok constants.NA) ∧
    (userID ∉ w.db.users →
      (Storage.CheckUserID userID w).1 = Res.fail (Err.NotFound "user was not found")) ∧
    (w.db.fileIsValid fileName = false →
      (Storage.CheckIsValid fileName w).1 = Res.fail (Err.NotFound "file is not valid")) := by
  obtain ⟨db, hist, faults, cmds, s3, trace⟩ := w
  rcases faults with _ | ⟨f1, fs⟩
  · refine ⟨?_, ?_, ?_, ?_, ?_⟩ <;> intro h <;> simp only at h <;>
      simp [Storage.GetFileNameForUser, Storage.GetProcessingStatus, Storage.GetProductCode,
        Storage.CheckUserID, Storage.CheckIsValid, bind, Op.bind, logCall, queryStmt,
        takeFault, h]
  · simp only [takeFault] at hN
    subst hN
    refine ⟨?_, ?_, ?_, ?_, ?_⟩ <;> intro h <;> simp only at h <;>
      simp [Storage.GetFileNameForUser, Storage.GetProcessingStatus, Storage.GetProductCode,
        Storage.CheckUserID, Storage.CheckIsValid, bind, Op.bind, logCall, queryStmt,
        takeFault, h]

/-- The theorem of C20 at the user `u2` and the file `f2`, which the sample
database does not know. -/
theorem Storage.absent_row_results_witness :
    (takeFault (World.init dbValid [] [] [])).1 = Fault.none ∧
    (Storage.GetFileNameForUser "u2" (World.init dbValid [] [] [])).1 =
      Res.fail (Err.ExecutionPSQL ErrNoRows) ∧
    (Storage.GetProcessingStatus "f2" (World.init dbValid [] [] [])).1 = Res.ok constants.NA :=
  have h := Storage.absent_row_results "u2" "f2" (World.init dbValid [] [] []) (by decide)
  ⟨by decide, h.1 (by decide), h.2.1 (by decide)⟩

/-! ## C13 -/

/-- C13: when the validation subprocess fails (and the download, if the call
comes from the queue, succeeds), `RunValidation` with `dryRun = true` returns
the subprocess error with no result, touching neither the database nor its
history; with `dryRun = false` and the two status writes free of faults it
returns the subprocess error with no result after the status of the file has
been set to `running` and then to `error`. -/
theorem Processor.RunValidation_subprocess_failure (cfg : Config) (unmarshal : Unmarshal)
    (fileName : String) (fromQueue : Bool) (w : World)
    (hS : fromQueue = true → (takeS3 w).1 = true)
    (hC : (takeCmd w).1 = CmdResult.exitError) :
    ((Processor.RunValidation cfg unmarshal fileName true fromQueue w).1 =
        Res.fail Err.Subprocess ∧
      (Processor.RunValidation cfg unmarshal fileName true fromQueue w).2.db = w.db ∧
      (Processor.RunValidation cfg unmarshal fileName true fromQueue w).2.hist = w.hist) ∧
    ((∀ f ∈ w.faults.take 2, f = Fault.none) →
      (Processor.RunValidation cfg unmarshal fileName false fromQueue w).1 =
        Res.fail Err.Subprocess ∧
      ((Processor.RunValidation cfg unmarshal fileName false fromQueue w).2.timeline.drop
          w.hist.length).map (fun db => db.validationStatus fileName) =
        [w.db.validationStatus fileName,
         (w.db.validationStatus fileName).map (fun _ => constants.ValidationStatusRunning),
         (w.db.validationStatus fileName).map (fun _ => constants.ValidationStatusError)]) := by
  obtain ⟨db, hist, faults, cmds, s3, trace⟩ := w
  have hc : cmds = [] ∨ ∃ cs, cmds = CmdResult.exitError :: cs := by
    rcases cmds with _ | ⟨c, cs⟩
    · exact Or.inl rfl
    · simp only [takeCmd] at hC
      exact Or.inr ⟨cs, by rw [hC]⟩
  have hs : fromQueue = false ∨ (fromQueue = true ∧ (s3 = [] ∨ ∃ bs, s3 = true :: bs)) := by
    cases fromQueue
    · exact Or.inl rfl
    · refine Or.inr ⟨rfl, ?_⟩
      rcases s3 with _ | ⟨b, bs⟩
      · exact Or.inl rfl
      · have hb : b = true := by simpa [takeS3] using hS
        exact Or.inr ⟨bs, by rw [hb]⟩
  clear hS hC
  constructor
  · rcases hc with rfl | ⟨cs, rfl⟩ <;>
      rcases hs with rfl | ⟨rfl, rfl | ⟨bs, rfl⟩⟩ <;>
      simp [Processor.RunValidation, bind, Op.bind, Op.when, Op.throw, Op.pure, logCall,
      S3.DownloadFile, takeS3, Storage.UpdateValidationStatus, execStmt, takeFault, commit,
      cmdRun, takeCmd, Storage.checkInSlice, constants.ValidValidationStatuses,
      constants.ValidationStatusNew, constants.ValidationStatusRunning,
      constants.ValidationStatusValid, constants.ValidationStatusInvalid,
      constants.ValidationStatusError, World.timeline, DB.validationStatus,
      lookupValidation_set]
  · intro hN
    simp only at hN
    rcases hc with rfl | ⟨cs, rfl⟩ <;>
      rcases hs with rfl | ⟨rfl, rfl | ⟨bs, rfl⟩⟩ <;>
      rcases faults with _ | ⟨f1, _ | ⟨f2, rest⟩⟩ <;>
      simp_all [Processor.RunValidation, bind, Op.bind, Op.when, Op.throw, Op.pure, logCall,
      S3.DownloadFile, takeS3, Storage.UpdateValidationStatus, execStmt, takeFault, commit,
      cmdRun, takeCmd, Storage.checkInSlice, constants.ValidValidationStatuses,
      constants.ValidationStatusNew, constants.ValidationStatusRunning,
      constants.ValidationStatusValid, constants.ValidationStatusInvalid,
      constants.ValidationStatusError, World.timeline, DB.validationStatus,
      lookupValidation_set] <;>
      (cases lookupValidation db.validation fileName <;> rfl)

/-- The theorem of C13 at the file `f1` of the sample database. -/
theorem Processor.RunValidation_subprocess_failure_witness :
    (takeCmd (World.init dbValid [] [CmdResult.exitError] [])).1 = CmdResult.exitError ∧
    (Processor.RunValidation Config.default sampleUnmarshal "f1" false false
      (World.init dbValid [] [CmdResult.exitError] [])).1 = Res.fail Err.Subprocess :=
  ⟨by decide,
    ((Processor.RunValidation_subprocess_failure Config.default sampleUnmarshal "f1" false
      (World.init dbValid [] [CmdResult.exitError] []) (by decide) (by decide)).2
      (by decide)).1⟩

/-! ## C14 -/

/-- C14: when the subprocess exits successfully and `json.Unmarshal` rejects
its output, `RunValidation` returns an error and no result whatever the
storage faults and the download do, and its log lines are a prefix of: the
call of `RunValidation`, the download (from the queue), the write of the
status `running` (unless `dryRun`) and the subprocess; so neither `valid` nor
`invalid` is written. With `dryRun = false`, a successful download and a
status write without fault, the error is the unmarshal error and the stored
status of the file, if it has one, is left at `running`. -/
theorem Processor.RunValidation_unparsable_output (cfg : Config) (unmarshal : Unmarshal)
    (fileName out : String) (dryRun fromQueue : Bool) (w : World)
    (hC : (takeCmd w).1 = CmdResult.finished out)
    (hJ : unmarshal out = Except.error ()) :
    (∃ e, (Processor.RunValidation cfg unmarshal fileName dryRun fromQueue w).1 = Res.fail e) ∧
    w.trace <+: (Processor.RunValidation cfg unmarshal fileName dryRun fromQueue w).2.trace ∧
    (Processor.RunValidation cfg unmarshal fileName dryRun fromQueue w).2.trace <+:
      w.trace ++
        ([Event.call "RunValidation" [fileName, toString dryRun, toString fromQueue]] ++
         (if fromQueue then [Event.call "DownloadFile" [fileName]] else []) ++
         (if dryRun then []
          else [Event.call "UpdateValidationStatus"
            [fileName, constants.ValidationStatusRunning]]) ++
         [Event.run cfg.DockerExecutable
           [cfg.DockerExecutable, "run", "--rm", "-v", cfg.MountDir ++ ":/mnt",
            cfg.DockerImageName, "main.py", "validate", "--input", fileName]]) ∧
    (dryRun = false → (fromQueue = true → (takeS3 w).1 = true) →
      (takeFault w).1 = Fault.none →
      (Processor.RunValidation cfg unmarshal fileName dryRun fromQueue w).1 =
        Res.fail Err.JSONUnmarshal ∧
      ((Processor.RunValidation cfg unmarshal fileName dryRun fromQueue w).2.timeline.drop
          w.hist.length).map (fun db => db.validationStatus fileName) =
        [w.db.validationStatus fileName,
         (w.db.validationStatus fileName).map (fun _ => constants.ValidationStatusRunning)]) := by
  obtain ⟨db, hist, faults, cmds, s3, trace⟩ := w
  have hc : ∃ cs, cmds = CmdResult.finished out :: cs := by
    rcases cmds with _ | ⟨c, cs⟩
    · simp [takeCmd] at hC
    · simp only [takeCmd] at hC
      exact ⟨cs, by rw [hC]⟩
  obtain ⟨cs, rfl⟩ := hc
  clear hC
  cases dryRun <;> cases fromQueue <;>
    rcases s3 with _ | ⟨_ | _, bs⟩ <;>
    rcases faults with _ | ⟨_ | _ | _ | ⟨_ | _⟩, fs⟩ <;>
    simp [Processor.RunValidation, bind, Op.bind, Op.when, Op.throw, Op.pure, logCall,
      S3.DownloadFile, takeS3, Storage.UpdateValidationStatus, execStmt, takeFault, commit,
      cmdRun, takeCmd, Storage.checkInSlice, constants.ValidValidationStatuses,
      constants.ValidationStatusNew, constants.ValidationStatusRunning,
      constants.ValidationStatusValid, constants.ValidationStatusInvalid,
      constants.ValidationStatusError, World.timeline, DB.validationStatus,
      lookupValidation_set, hJ]

/-- The theorem of C14 at the file `f1` and an output the sample decoder
rejects. -/
theorem Processor.RunValidation_unparsable_output_witness :
    (takeCmd (World.init dbValid [] [CmdResult.finished "garbage"] [])).1 =
      CmdResult.finished "garbage" ∧
    sampleUnmarshal "garbage" = Except.error () ∧
    (Processor.RunValidation Config.default sampleUnmarshal "f1" false false
      (World.init dbValid [] [CmdResult.finished "garbage"] [])).1 =
        Res.fail Err.JSONUnmarshal :=
  ⟨by decide, rfl,
    ((Processor.RunValidation_unparsable_output Config.default sampleUnmarshal "f1" "garbage"
      false false (World.init dbValid [] [CmdResult.finished "garbage"] []) (by decide)
      rfl).2.2.2 rfl (by decide) (by decide)).1⟩

/-! ## C17 -/

theorem UploadFile_fst (p t n : String) (w : World) :
    (S3.UploadFile p t n w).1 =
      if (takeS3 w).1 = true then Res.ok () else Res.fail Err.S3Transfer := by
  obtain ⟨db, hist, faults, cmds, s3, trace⟩ := w
  rcases s3 with _ | ⟨_ | _, bs⟩ <;> simp [S3.UploadFile, bind, Op.bind, logCall, takeS3]

theorem takeS3_fst (w : World) : (takeS3 w).1 = w.s3.headD true := by
  obtain ⟨db, hist, faults, cmds, s3, trace⟩ := w
  rcases s3 with _ | ⟨b, bs⟩ <;> simp [takeS3]

theorem uploadAll_fst (files : List (String × String × String)) :
    ∀ (first : Option Err) (w : World), (Processor.uploadAll files first w).1 =
      match first with
      | some e => Res.fail e
      | none =>
        if ∀ b ∈ w.s3.take files.length, b = true then Res.ok () else Res.fail Err.S3Transfer := by
  induction files with
  | nil =>
    intro first w
    cases first <;> simp [Processor.uploadAll, pure, Op.pure, Op.throw]
  | cons x rest ih =>
    intro first w
    obtain ⟨p, t, n⟩ := x
    have h1 := UploadFile_fst p t n w
    have h2 := UploadFile_snd p t n w
    rw [takeS3_fst] at h1
    simp only [Processor.uploadAll]
    obtain ⟨db, hist, faults, cmds, s3, trace⟩ := w
    rcases s3 with _ | ⟨_ | _, bs⟩ <;> simp at h1 h2 <;>
      split <;> rename_i heq <;> rw [heq] at h1 h2 <;> simp at h1 h2 <;>
      subst h2 <;> rw [ih] <;> cases first <;> simp_all [Option.orElse]

/-- C17 as stated fails: after a successful run with `dryRun = false`,
`RunProcessing` starts five uploads, not four; and when the first four
succeed and the fifth fails it returns an error. -/
theorem RunProcessing_starts_five_uploads :
    ((Processor.RunProcessing Config.default "f1" "B1" false false
      (World.init dbQueued [] [CmdResult.finished ""] [])).2.trace.filter
        Event.isUpload).length = 5 ∧
    ((Processor.RunProcessing Config.default "f1" "B1" false false
      (World.init dbQueued [] [CmdResult.finished ""] [])).2.trace.filter
        Event.isUpload).length ≠ 4 ∧
    (Processor.RunProcessing Config.default "f1" "B1" false false
      (World.init dbQueued [] [CmdResult.finished ""] [true, true, true, true, false])).1 =
        Res.fail Err.S3Transfer := by
  simp [Processor.RunProcessing, Processor.uploadData, bind, Op.bind, Op.when, Op.pure,
    logCall, S3.DownloadFile, takeS3, Storage.UpdateProcessingStatus, execStmt, takeFault,
    commit, cmdRun, takeCmd, Storage.checkInSlice, constants.ValidProcessingStatuses,
    constants.ProcessingStatusNew, constants.ProcessingStatusRunning,
    constants.ProcessingStatusDone, constants.ProcessingStatusError, World.init,
    uploadAll_fst, uploadAll_snd, Processor.uploadFiles, Event.isUpload]

/-- C17 as amended: after a successful run with `dryRun = false` (the
download, if any, the two status writes and the subprocess succeed),
`RunProcessing` starts exactly the five uploads of `uploadData`, returns nil
if and only if all five succeed, and returns the upload error otherwise. -/
theorem Processor.RunProcessing_uploads (cfg : Config) (fileName barcode out : String)
    (fromQueue : Bool) (w : World)
    (hN : ∀ f ∈ w.faults.take 2, f = Fault.none)
    (hS : fromQueue = true → (takeS3 w).1 = true)
    (hC : (takeCmd w).1 = CmdResult.finished out) :
    ((Processor.RunProcessing cfg fileName barcode false fromQueue w).2.traceSince
        w.trace.length).filter Event.isUpload =
      (Processor.uploadFiles cfg barcode).map
        (fun x => Event.call "UploadFile" [x.1, x.2.1, x.2.2]) ∧
    (Processor.uploadFiles cfg barcode).length = 5 ∧
    ((Processor.RunProcessing cfg fileName barcode false fromQueue w).1 = Res.ok () ↔
      ∀ b ∈ (if fromQueue then w.s3.tail else w.s3).take 5, b = true) ∧
    ((Processor.RunProcessing cfg fileName barcode false fromQueue w).1 = Res.ok () ∨
      (Processor.RunProcessing cfg fileName barcode false fromQueue w).1 =
        Res.fail Err.S3Transfer) := by
  obtain ⟨db, hist, faults, cmds, s3, trace⟩ := w
  have hc : ∃ cs, cmds = CmdResult.finished out :: cs := by
    rcases cmds with _ | ⟨c, cs⟩
    · simp [takeCmd] at hC
    · simp only [takeCmd] at hC
      exact ⟨cs, by rw [hC]⟩
  obtain ⟨cs, rfl⟩ := hc
  have hs : fromQueue = false ∨ (fromQueue = true ∧ (s3 = [] ∨ ∃ bs, s3 = true :: bs)) := by
    cases fromQueue
    · exact Or.inl rfl
    · refine Or.inr ⟨rfl, ?_⟩
      rcases s3 with _ | ⟨b, bs⟩
      · exact Or.inl rfl
      · have hb : b = true := by simpa [takeS3] using hS
        exact Or.inr ⟨bs, by rw [hb]⟩
  clear hS hC
  simp only at hN
  rcases hs with rfl | ⟨rfl, rfl | ⟨bs, rfl⟩⟩ <;>
    rcases faults with _ | ⟨f1, _ | ⟨f2, rest⟩⟩ <;>
    simp_all [Processor.RunProcessing, Processor.uploadData, bind, Op.bind, Op.when, Op.pure,
      logCall, S3.DownloadFile, takeS3, Storage.UpdateProcessingStatus, execStmt, takeFault,
      commit, cmdRun, takeCmd, Storage.checkInSlice, constants.ValidProcessingStatuses,
      constants.ProcessingStatusNew, constants.ProcessingStatusRunning,
      constants.ProcessingStatusDone, constants.ProcessingStatusError, World.traceSince,
      uploadAll_fst, uploadAll_snd, Processor.uploadFiles, Event.isUpload]
  all_goals exact (Classical.em _).symm

/-- The theorem of C17 at the file `f1` with every upload succeeding. -/
theorem Processor.RunProcessing_uploads_witness :
    (takeCmd (World.init dbQueued [] [CmdResult.finished ""] [])).1 = CmdResult.finished "" ∧
    (Processor.RunProcessing Config.default "f1" "B1" false false
      (World.init dbQueued [] [CmdResult.finished ""] [])).1 = Res.ok () :=
  ⟨by decide,
    (Processor.RunProcessing_uploads Config.default "f1" "B1" "" false
      (World.init dbQueued [] [CmdResult.finished ""] []) (by decide) (by decide)
      (by decide)).2.2.1.2 (by decide)⟩

/-! ## Frames of the database -/

theorem Op.bind_of_ok {α β : Type} {m : Op α} {f : α → Op β} {w w1 : World} {a : α}
    (h : m w = (Res.ok a, w1)) : (m >>= f) w = f a w1 := by
  show Op.bind m f w = f a w1
  unfold Op.bind
  rw [h]

theorem Op.ensures_bind {α β : Type} {pre mid post exit : DB → Prop}
    {m : Op α} {f : α → Op β}
    (hm : Op.Ensures pre m mid exit) (hf : ∀ a, Op.Ensures mid (f a) post exit) :
    Op.Ensures pre (m >>= f) post exit := by
  intro w hpre
  obtain ⟨h1, h2⟩ := hm w hpre
  show ((∃ a, (Op.bind m f w).1 = Res.ok a) → post (Op.bind m f w).2.db) ∧
    ((∀ a, (Op.bind m f w).1 ≠ Res.ok a) → exit (Op.bind m f w).2.db)
  unfold Op.bind
  split
  · rename_i a w1 heq
    rw [heq] at h1
    exact hf a w1 (h1 ⟨a, rfl⟩)
  · rename_i e w1 heq
    rw [heq] at h2
    exact ⟨fun ⟨a, ha⟩ => by simp at ha, fun _ => h2 (by simp)⟩
  · rename_i w1 heq
    rw [heq] at h2
    exact ⟨fun ⟨a, ha⟩ => by simp at ha, fun _ => h2 (by simp)⟩

theorem Op.ensures_of_silent {α : Type} {m : Op α} (hm : Op.Silent m) (pre : DB → Prop) :
    Op.Ensures pre m pre pre := by
  intro w hpre
  rw [(hm w).1]
  exact ⟨fun _ => hpre, fun _ => hpre⟩

theorem Op.ensures_weaken {α : Type} {pre pre1 post post1 exit exit1 : DB → Prop} {m : Op α}
    (hm : Op.Ensures pre m post exit) (h1 : ∀ db, pre1 db → pre db)
    (h2 : ∀ db, post db → post1 db) (h3 : ∀ db, exit db → exit1 db) :
    Op.Ensures pre1 m post1 exit1 := by
  intro w hpre
  obtain ⟨h4, h5⟩ := hm w (h1 _ hpre)
  exact ⟨fun h => h2 _ (h4 h), fun h => h3 _ (h5 h)⟩

theorem Op.ensures_false {α : Type} (m : Op α) (post exit : DB → Prop) :
    Op.Ensures (fun _ => False) m post exit := by
  intro w hpre
  exact hpre.elim

theorem Op.ensures_when {pre post exit : DB → Prop} {m : Op Unit} (c : Bool)
    (hm : Op.Ensures pre m post exit) (h : c = false → ∀ db, pre db → post db) :
    Op.Ensures pre (Op.when c m) post exit := by
  cases c
  · intro w hpre
    simp only [Op.when, Op.pure, Bool.false_eq_true, ↓reduceIte]
    exact ⟨fun _ => h rfl _ hpre, fun hc => absurd rfl (hc ())⟩
  · simpa [Op.when] using hm

theorem Op.ensures_result {α : Type} {pre post exit : DB → Prop} {m : Op α} {w : World}
    (P : DB → Prop) (hm : Op.Ensures pre m post exit) (hpre : pre w.db)
    (h1 : ∀ db, post db → P db) (h2 : ∀ db, exit db → P db) : P (m w).2.db := by
  obtain ⟨h3, h4⟩ := hm w hpre
  by_cases h : ∃ a, (m w).1 = Res.ok a
  · exact h1 _ (h3 h)
  · exact h2 _ (h4 (fun a ha => h ⟨a, ha⟩))

theorem execStmt_ensures (pre post exit : DB → Prop) (stmt : DB → Except Err DB)
    (h0 : ∀ db, pre db → exit db)
    (h : ∀ db db1, pre db → stmt db = Except.ok db1 → post db1 ∧ exit db1) :
    Op.Ensures pre (execStmt stmt) post exit := by
  intro w hpre
  obtain ⟨h1, _⟩ := takeFault_db w
  unfold execStmt
  split <;> rename_i heq <;> rw [heq] at h1 <;> simp only at h1
  · split
    · rename_i db1 hs
      rw [h1] at hs
      exact ⟨fun _ => (h _ _ hpre hs).1, fun hc => absurd rfl (hc ())⟩
    · exact ⟨fun ⟨a, ha⟩ => by simp at ha, fun _ => h1 ▸ h0 _ hpre⟩
  · exact ⟨fun ⟨a, ha⟩ => by simp at ha, fun _ => h1 ▸ h0 _ hpre⟩
  · exact ⟨fun ⟨a, ha⟩ => by simp at ha, fun _ => h1 ▸ h0 _ hpre⟩
  · split
    · rename_i db1 hs
      rw [h1] at hs
      exact ⟨fun ⟨a, ha⟩ => by simp at ha, fun _ => (h _ _ hpre hs).2⟩
    · exact ⟨fun ⟨a, ha⟩ => by simp at ha, fun _ => h1 ▸ h0 _ hpre⟩

theorem UpdateValidationStatus_ensures (R : DB → Prop) (f s : String)
    (h : ∀ db, R db → R { db with validation := setValidationStatus db.validation f s }) :
    Op.Ensures R (Storage.UpdateValidationStatus f s) R R := by
  unfold Storage.UpdateValidationStatus
  refine Op.ensures_bind (Op.ensures_of_silent (logCall_silent _ _) _) (fun _ => ?_)
  split
  · exact Op.ensures_of_silent (Op.Silent.throw _) _
  · refine execStmt_ensures _ _ _ _ (fun _ hd => hd) ?_
    intro db db1 hd hs
    simp only [Except.ok.injEq] at hs
    subst hs
    exact ⟨h _ hd, h _ hd⟩

theorem UpdateProcessingStatus_ensures (R : DB → Prop) (f s : String)
    (h : ∀ db, R db → R { db with processing := setProcessingStatus db.processing f s }) :
    Op.Ensures R (Storage.UpdateProcessingStatus f s) R R := by
  unfold Storage.UpdateProcessingStatus
  refine Op.ensures_bind (Op.ensures_of_silent (logCall_silent _ _) _) (fun _ => ?_)
  split
  · exact Op.ensures_of_silent (Op.Silent.throw _) _
  · refine execStmt_ensures _ _ _ _ (fun _ hd => hd) ?_
    intro db db1 hd hs
    simp only [Except.ok.injEq] at hs
    subst hs
    exact ⟨h _ hd, h _ hd⟩

theorem AddNewProductCode_ensures (R : DB → Prop) (u c : String)
    (h : ∀ db rows, R db → R { db with products := rows }) :
    Op.Ensures R (Storage.AddNewProductCode u c) R R := by
  unfold Storage.AddNewProductCode
  refine Op.ensures_bind (Op.ensures_of_silent (logCall_silent _ _) _) (fun _ => ?_)
  refine execStmt_ensures _ _ _ _ (fun _ hd => hd) ?_
  intro db db1 hd hs
  split at hs
  · simp at hs
  · simp only [Except.ok.injEq] at hs
    subst hs
    exact ⟨h _ _ hd, h _ _ hd⟩

theorem UpdateProductCode_ensures (R : DB → Prop) (u c : String)
    (h : ∀ db rows, R db → R { db with products := rows }) :
    Op.Ensures R (Storage.UpdateProductCode u c) R R := by
  unfold Storage.UpdateProductCode
  refine Op.ensures_bind (Op.ensures_of_silent (logCall_silent _ _) _) (fun _ => ?_)
  refine execStmt_ensures _ _ _ _ (fun _ hd => hd) ?_
  intro db db1 hd hs
  simp only [Except.ok.injEq] at hs
  subst hs
  exact ⟨h _ _ hd, h _ _ hd⟩

theorem UpdateUserFilePair_ensures (R : DB → Prop) (u f : String)
    (h : ∀ db rows, R db → R { db with files := rows }) :
    Op.Ensures R (Storage.UpdateUserFilePair u f) R R := by
  unfold Storage.UpdateUserFilePair
  refine Op.ensures_bind (Op.ensures_of_silent (logCall_silent _ _) _) (fun _ => ?_)
  refine execStmt_ensures _ _ _ _ (fun _ hd => hd) ?_
  intro db db1 hd hs
  split at hs
  · simp at hs
  · simp only [Except.ok.injEq] at hs
    subst hs
    exact ⟨h _ _ hd, h _ _ hd⟩

theorem AddNewUserID_ensures_known (R : DB → Prop) (u : String)
    (h : ∀ db, R db → u ∈ db.users) :
    Op.Ensures R (Storage.AddNewUserID u) (fun _ => False) R := by
  unfold Storage.AddNewUserID
  refine Op.ensures_bind (Op.ensures_of_silent (logCall_silent _ _) _) (fun _ => ?_)
  refine execStmt_ensures _ _ _ _ (fun _ hd => hd) ?_
  intro db db1 hd hs
  have hu := h db hd
  simp [hu] at hs

theorem RunValidation_ensures (R : DB → Prop) (cfg : Config) (unmarshal : Unmarshal)
    (f : String) (dryRun fromQueue : Bool)
    (h : ∀ db s, R db → R { db with validation := setValidationStatus db.validation f s }) :
    Op.Ensures R (Processor.RunValidation cfg unmarshal f dryRun fromQueue) R R := by
  unfold Processor.RunValidation
  refine Op.ensures_bind (Op.ensures_of_silent (logCall_silent _ _) _) (fun _ => ?_)
  refine Op.ensures_bind
    (Op.ensures_of_silent (Op.Silent.when_silent (DownloadFile_silent _)) _) (fun _ => ?_)
  refine Op.ensures_bind
    (Op.ensures_when _ (UpdateValidationStatus_ensures R f _ (fun db => h db _))
      (fun _ _ hd => hd)) (fun _ => ?_)
  refine Op.ensures_bind (Op.ensures_of_silent (cmdRun_silent _ _) _) (fun r => ?_)
  cases r with
  | exitError =>
    refine Op.ensures_bind
      (Op.ensures_when _ (UpdateValidationStatus_ensures R f _ (fun db => h db _))
        (fun _ _ hd => hd)) (fun _ => ?_)
    exact Op.ensures_of_silent (Op.Silent.throw _) _
  | finished out =>
    dsimp only
    split
    · exact Op.ensures_of_silent (Op.Silent.throw _) _
    · rename_i cmdOutput _
      refine Op.ensures_bind (Op.ensures_when _ ?_ (fun _ _ hd => hd))
        (fun _ => Op.ensures_of_silent (Op.Silent.pure_silent _) _)
      cases cmdOutput with
      | none => exact Op.ensures_of_silent Op.Silent.nilDeref _
      | some data =>
        dsimp only
        split
        · exact UpdateValidationStatus_ensures R f _ (fun db => h db _)
        · exact UpdateValidationStatus_ensures R f _ (fun db => h db _)

theorem RunProcessing_ensures (R : DB → Prop) (cfg : Config) (f b : String)
    (dryRun fromQueue : Bool)
    (h : ∀ db s, R db → R { db with processing := setProcessingStatus db.processing f s }) :
    Op.Ensures R (Processor.RunProcessing cfg f b dryRun fromQueue) R R := by
  unfold Processor.RunProcessing
  refine Op.ensures_bind (Op.ensures_of_silent (logCall_silent _ _) _) (fun _ => ?_)
  refine Op.ensures_bind
    (Op.ensures_of_silent (Op.Silent.when_silent (DownloadFile_silent _)) _) (fun _ => ?_)
  refine Op.ensures_bind (UpdateProcessingStatus_ensures R f _ (fun db => h db _))
    (fun _ => ?_)
  refine Op.ensures_bind (Op.ensures_of_silent (cmdRun_silent _ _) _) (fun r => ?_)
  cases r with
  | exitError =>
    exact Op.ensures_bind (UpdateProcessingStatus_ensures R f _ (fun db => h db _))
      (fun _ => Op.ensures_of_silent (Op.Silent.pure_silent _) _)
  | finished out =>
    refine Op.ensures_bind (UpdateProcessingStatus_ensures R f _ (fun db => h db _))
      (fun _ => ?_)
    exact Op.ensures_of_silent (Op.Silent.when_silent (uploadData_silent _ _)) _

theorem setValidationStatus_names (rows : List ValidationRow) (f s : String) :
    (setValidationStatus rows f s).map (fun r => r.file_name) =
      rows.map (fun r => r.file_name) := by
  induction rows with
  | nil => rfl
  | cons r rs ih =>
    simp only [setValidationStatus, List.map_cons, List.cons.injEq] at ih ⊢
    exact ⟨by split <;> rfl, ih⟩

theorem setProcessingStatus_names (rows : List ProcessingRow) (f s : String) :
    (setProcessingStatus rows f s).map (fun r => r.file_name) =
      rows.map (fun r => r.file_name) := by
  induction rows with
  | nil => rfl
  | cons r rs ih =>
    simp only [setProcessingStatus, List.map_cons, List.cons.injEq] at ih ⊢
    exact ⟨by split <;> rfl, ih⟩

theorem lookupFile_setFileName (files : List FileRow) (u f : String) :
    lookupFile (setFileName files u f) u = (lookupFile files u).map (fun _ => f) := by
  induction files with
  | nil => rfl
  | cons r rs ih =>
    simp only [lookupFile, setFileName, List.map_cons, List.find?_cons] at ih ⊢
    by_cases h : r.user_id = u <;> simp_all

/-! ## C11 -/

theorem resubmitFrame_mono {u f1 : String} {L : List String} {s : Option String}
    {fs gs : List String} (h : ∀ f ∈ fs, f ∈ gs) (d : DB)
    (hd : resubmitFrame u f1 L s fs d) : resubmitFrame u f1 L s gs d := by
  obtain ⟨h1, h2, h3, f, hf, h4⟩ := hd
  exact ⟨h1, h2, h3, f, h f hf, h4⟩

theorem resubmitFrame_validation {u f1 f2 : String} {L : List String} {s : Option String}
    {fs : List String} (hne : f2 ≠ f1) (d : DB) (st : String)
    (hd : resubmitFrame u f1 L s fs d) :
    resubmitFrame u f1 L s fs
      { d with validation := setValidationStatus d.validation f2 st } := by
  obtain ⟨h1, h2, h3, h4⟩ := hd
  refine ⟨h1, ?_, ?_, h4⟩
  · simp only [setValidationStatus_names]
    exact h2
  · simp only [DB.validationStatus, lookupValidation_set] at h3 ⊢
    rw [if_neg (Ne.symm hne)]
    exact h3

theorem Validate_rest_ensures (cfg : Config) (unmarshal : Unmarshal) (u f1 f2 : String)
    (fromQueue userIsNew : Bool) (L : List String) (s : Option String) (fs : List String)
    (hne : f2 ≠ f1) :
    Op.Ensures (resubmitFrame u f1 L s fs)
      (Processor.RunValidation cfg unmarshal f2 false fromQueue >>= fun validationData =>
        Op.when (!false)
          (match validationData with
           | none => Op.nilDeref
           | some data =>
             Op.when data.Passed
               (if userIsNew then
                 Storage.AddNewProductCode u (ProductManager.GetProductCode data.Mode)
               else
                 Storage.UpdateProductCode u (ProductManager.GetProductCode data.Mode)))
          >>= fun _ => Pure.pure validationData)
      (resubmitFrame u f1 L s fs) (resubmitFrame u f1 L s fs) := by
  refine Op.ensures_bind
    (RunValidation_ensures _ cfg unmarshal f2 false fromQueue
      (fun d st hd => resubmitFrame_validation hne d st hd)) (fun v => ?_)
  refine Op.ensures_bind (Op.ensures_when _ ?_ (fun _ _ hd => hd))
    (fun _ => Op.ensures_of_silent (Op.Silent.pure_silent _) _)
  cases v with
  | none => exact Op.ensures_of_silent Op.Silent.nilDeref _
  | some data =>
    dsimp only
    refine Op.ensures_when _ ?_ (fun _ _ hd => hd)
    split
    · exact AddNewProductCode_ensures _ _ _ (fun _ _ hd => hd)
    · exact UpdateProductCode_ensures _ _ _ (fun _ _ hd => hd)

theorem Validate_resubmit_ensures (cfg : Config) (unmarshal : Unmarshal)
    (u f1 f2 handler : String) (fromQueue : Bool) (L : List String) (s : Option String)
    (hne : f2 ≠ f1) :
    Op.Ensures (resubmitFrame u f1 L s [f1])
      (Agent.Validate cfg unmarshal u f2 handler false fromQueue)
      (resubmitFrame u f1 L s [f2]) (resubmitFrame u f1 L s [f1, f2]) := by
  have hw : Op.Ensures (resubmitFrame u f1 L s [f1, f2])
      (Agent.Validate cfg unmarshal u f2 handler false fromQueue)
      (resubmitFrame u f1 L s [f2]) (resubmitFrame u f1 L s [f1, f2]) := by
    unfold Agent.Validate
    refine Op.ensures_bind (Op.ensures_of_silent (logCall_silent _ _) _) (fun _ => ?_)
    refine Op.ensures_bind (Op.ensures_of_silent ?_ _) (fun userIsNew => ?_)
    · refine Op.Silent.bind_silent (Op.Silent.attempt (CheckUserID_silent _)) (fun r => ?_)
      cases r <;> exact Op.Silent.pure_silent _
    refine @Op.ensures_bind _ _ _ (resubmitFrame u f1 L s [f2]) _ _ _ _ ?_ (fun _ => ?_)
    · refine Op.ensures_when _ ?_ (fun hc => by simp at hc)
      cases userIsNew with
      | true =>
        refine Op.ensures_bind (AddNewUserID_ensures_known _ u (fun d hd => hd.1))
          (fun _ => Op.ensures_false _ _ _)
      | false =>
        unfold Storage.UpdateUserFilePair
        refine Op.ensures_bind (Op.ensures_of_silent (logCall_silent _ _) _) (fun _ => ?_)
        refine execStmt_ensures _ _ _ _ (fun _ hd => hd) ?_
        intro db db1 hd hs
        split at hs
        · simp at hs
        · simp only [Except.ok.injEq] at hs
          subst hs
          obtain ⟨h1, h2, h3, f, _, h4⟩ := hd
          have h5 : resubmitFrame u f1 L s [f2]
              { db with files := setFileName db.files u f2 } := by
            refine ⟨h1, h2, h3, f2, by simp, ?_⟩
            simp only [DB.activeFile, lookupFile_setFileName] at h4 ⊢
            rw [h4]
            rfl
          exact ⟨h5, resubmitFrame_mono (by simp) _ h5⟩
    · exact Op.ensures_weaken
        (Validate_rest_ensures cfg unmarshal u f1 f2 fromQueue userIsNew L s [f2] hne)
        (fun _ hd => hd) (fun _ hd => hd) (fun d hd => resubmitFrame_mono (by simp) d hd)
  exact Op.ensures_weaken hw (fun d hd => resubmitFrame_mono (by simp) d hd)
    (fun _ hd => hd) (fun _ hd => hd)

theorem Op.bind_of_fst {α β : Type} {m : Op α} {f : α → Op β} {w : World} {a : α}
    (h : (m w).1 = Res.ok a) : (m >>= f) w = f a (m w).2 :=
  Op.bind_of_ok (Prod.ext h rfl)

theorem CheckUserID_known (u : String) (w : World) (hU : u ∈ w.db.users)
    (hN : FaultFree (w.faults.take 1)) :
    ((Op.attempt (Storage.CheckUserID u) >>= fun r =>
        match r with
        | Except.error _ => (Pure.pure true : Op Bool)
        | Except.ok _ => Pure.pure false) w).1 = Res.ok false ∧
    ((Op.attempt (Storage.CheckUserID u) >>= fun r =>
        match r with
        | Except.error _ => (Pure.pure true : Op Bool)
        | Except.ok _ => Pure.pure false) w).2.db = w.db ∧
    ((Op.attempt (Storage.CheckUserID u) >>= fun r =>
        match r with
        | Except.error _ => (Pure.pure true : Op Bool)
        | Except.ok _ => Pure.pure false) w).2.faults = w.faults.drop 1 := by
  obtain ⟨db, hist, faults, cmds, s3, trace⟩ := w
  simp only at hU
  rcases faults with _ | ⟨f, fs⟩
  · simp [bind, Op.bind, Op.attempt, Storage.CheckUserID, logCall, queryStmt, takeFault, hU,
      Pure.pure, Op.pure]
  · have hf : f = Fault.none := hN f (by simp)
    subst hf
    simp [bind, Op.bind, Op.attempt, Storage.CheckUserID, logCall, queryStmt, takeFault, hU,
      Pure.pure, Op.pure]

theorem UpdateUserFilePair_ok (u f : String) (w : World)
    (hC : filesUpdateConflict w.db.files u f = false) (hN : FaultFree (w.faults.take 1)) :
    (Storage.UpdateUserFilePair u f w).1 = Res.ok () ∧
      (Storage.UpdateUserFilePair u f w).2.db =
        { w.db with files := setFileName w.db.files u f } := by
  obtain ⟨db, hist, faults, cmds, s3, trace⟩ := w
  simp only at hC
  rcases faults with _ | ⟨f, fs⟩
  · simp [bind, Op.bind, Storage.UpdateUserFilePair, logCall, execStmt, takeFault, hC, commit]
  · have hf : f = Fault.none := hN f (by simp)
    subst hf
    simp [bind, Op.bind, Storage.UpdateUserFilePair, logCall, execStmt, takeFault, hC, commit]

/-- C11: let the user `u` exist and be associated with the file `f1`, and let
`f2` differ from `f1`. Whatever the storage faults, the subprocess and its
output are, `Agent.Validate` for `u` and `f2` with `dryRun = false` leaves the
list of file names of the validation table as it was (no validation record is
created or deleted) and leaves the validation status of `f1` as it was
(present with the same status, or absent as before). Whenever the call returns
without an error, `u` is associated with `f2` afterwards; and `u` is
associated with `f2` afterwards, whatever the call returns, as soon as the
first two storage calls meet no fault and no other user holds `f2`. -/
theorem Agent.Validate_resubmission (cfg : Config) (unmarshal : Unmarshal)
    (u f1 f2 handler : String) (fromQueue : Bool) (w : World)
    (hU : u ∈ w.db.users) (hF : w.db.activeFile u = some f1) (hne : f2 ≠ f1) :
    (Agent.Validate cfg unmarshal u f2 handler false fromQueue w).2.db.validation.map
        (fun r => r.file_name) = w.db.validation.map (fun r => r.file_name) ∧
    (Agent.Validate cfg unmarshal u f2 handler false fromQueue w).2.db.validationStatus f1
      = w.db.validationStatus f1 ∧
    ((∃ a, (Agent.Validate cfg unmarshal u f2 handler false fromQueue w).1 = Res.ok a) →
      (Agent.Validate cfg unmarshal u f2 handler false fromQueue w).2.db.activeFile u
        = some f2) ∧
    (FaultFree (w.faults.take 2) → filesUpdateConflict w.db.files u f2 = false →
      (Agent.Validate cfg unmarshal u f2 handler false fromQueue w).2.db.activeFile u
        = some f2) := by
  have hpre : resubmitFrame u f1 (w.db.validation.map (fun r => r.file_name))
      (w.db.validationStatus f1) [f1] w.db := ⟨hU, rfl, rfl, f1, by simp, hF⟩
  obtain ⟨h1, h2⟩ := Validate_resubmit_ensures cfg unmarshal u f1 f2 handler fromQueue
    (w.db.validation.map (fun r => r.file_name)) (w.db.validationStatus f1) hne w hpre
  have h3 : resubmitFrame u f1 (w.db.validation.map (fun r => r.file_name))
      (w.db.validationStatus f1) [f1, f2]
      (Agent.Validate cfg unmarshal u f2 handler false fromQueue w).2.db := by
    by_cases h : ∃ a, (Agent.Validate cfg unmarshal u f2 handler false fromQueue w).1 = Res.ok a
    · exact resubmitFrame_mono (by simp) _ (h1 h)
    · exact h2 (fun a ha => h ⟨a, ha⟩)
  refine ⟨h3.2.1, h3.2.2.1, ?_, ?_⟩
  · intro h
    obtain ⟨_, _, _, f, hf, h4⟩ := h1 h
    simp only [List.mem_singleton] at hf
    rw [h4, hf]
  · intro hN hC
    have hN1 : FaultFree (w.faults.take 1) := by
      intro f hf
      apply hN f
      rw [show 2 = 1 + 1 from rfl, List.take_add]
      exact List.mem_append_left _ hf
    have hN2 : FaultFree ((w.faults.drop 1).take 1) := by
      intro f hf
      apply hN f
      rw [show 2 = 1 + 1 from rfl, List.take_add]
      exact List.mem_append_right _ hf
    unfold Agent.Validate
    rw [Op.bind_of_fst (a := ()) rfl]
    obtain ⟨e1, d1, fl1⟩ := CheckUserID_known u
      (logCall "Validate" [u, f2, handler, toString false, toString fromQueue] w).2 hU hN1
    rw [Op.bind_of_fst e1]
    generalize ((Op.attempt (Storage.CheckUserID u) >>= fun r =>
        match r with
        | Except.error _ => (Pure.pure true : Op Bool)
        | Except.ok _ => Pure.pure false)
      (logCall "Validate" [u, f2, handler, toString false, toString fromQueue] w).2).2 = w1
      at d1 fl1 ⊢
    have d1 : w1.db = w.db := d1
    have fl1 : w1.faults = w.faults.drop 1 := fl1
    obtain ⟨e2, d2⟩ := UpdateUserFilePair_ok u f2 w1 (by rw [d1]; exact hC)
      (by rw [fl1]; exact hN2)
    have e2w : (Op.when (!false)
        (if false = true then do
          Storage.AddNewUserID u
          Storage.AddNewUserFilePair u f2
          Storage.AddNewValidationEntry f2
        else Storage.UpdateUserFilePair u f2) w1).1 = Res.ok () := e2
    rw [Op.bind_of_fst e2w]
    have hmid : resubmitFrame u f1 (w.db.validation.map (fun r => r.file_name))
        (w.db.validationStatus f1) [f2] (Storage.UpdateUserFilePair u f2 w1).2.db := by
      rw [d2, d1]
      refine ⟨hU, rfl, rfl, f2, by simp, ?_⟩
      simp only [DB.activeFile, lookupFile_setFileName] at hF ⊢
      rw [hF]
      rfl
    have hres : ∀ d, resubmitFrame u f1 (w.db.validation.map (fun r => r.file_name))
        (w.db.validationStatus f1) [f2] d → d.activeFile u = some f2 := by
      rintro d ⟨_, _, _, f, hf, h4⟩
      simp only [List.mem_singleton] at hf
      rw [h4, hf]
    exact Op.ensures_result (fun d => d.activeFile u = some f2)
      (Validate_rest_ensures cfg unmarshal u f1 f2 fromQueue false _ _ [f2] hne) hmid hres hres

/-- The theorem of C11 at the user `u1` of `dbValid`, who resubmits with the
file `f2` while the subprocess reports a passing file. -/
theorem Agent.Validate_resubmission_witness :
    "u1" ∈ dbValid.users ∧ dbValid.activeFile "u1" = some "f1" ∧ "f2" ≠ "f1" ∧
    FaultFree ((World.init dbValid [] [CmdResult.finished "vcf passed"] []).faults.take 2) ∧
    filesUpdateConflict dbValid.files "u1" "f2" = false ∧
    (Agent.Validate Config.default sampleUnmarshal "u1" "f2" "cli" false false
      (World.init dbValid [] [CmdResult.finished "vcf passed"] [])).2.db.activeFile "u1"
        = some "f2" ∧
    (Agent.Validate Config.default sampleUnmarshal "u1" "f2" "cli" false false
      (World.init dbValid [] [CmdResult.finished "vcf passed"] [])).2.db.validationStatus "f1"
        = some "valid" :=
  ⟨by decide, by decide, by decide, by decide, by decide,
    (Agent.Validate_resubmission Config.default sampleUnmarshal "u1" "f1" "f2" "cli" false
      (World.init dbValid [] [CmdResult.finished "vcf passed"] [])
      (by decide) (by decide) (by decide)).2.2.2 (by decide) (by decide),
    (Agent.Validate_resubmission Config.default sampleUnmarshal "u1" "f1" "f2" "cli" false
      (World.init dbValid [] [CmdResult.finished "vcf passed"] [])
      (by decide) (by decide) (by decide)).2.1⟩

/-! ## C19 -/

theorem Op.Grows.of_silent {α : Type} {m : Op α} (hm : Op.Silent m) : Op.Grows m := by
  intro w
  unfold World.timeline
  rw [(hm w).1, (hm w).2]

theorem Op.Grows.bind_grows {α β : Type} {m : Op α} {f : α → Op β}
    (hm : Op.Grows m) (hf : ∀ a, Op.Grows (f a)) : Op.Grows (m >>= f) := by
  intro w
  have h1 := hm w
  show w.timeline <+: (Op.bind m f w).2.timeline
  unfold Op.bind
  split
  · rename_i a w1 heq
    rw [heq] at h1
    exact h1.trans (hf a w1)
  · rename_i e w1 heq
    rw [heq] at h1
    exact h1
  · rename_i w1 heq
    rw [heq] at h1
    exact h1

theorem Op.Grows.when_grows {c : Bool} {m : Op Unit} (hm : Op.Grows m) :
    Op.Grows (Op.when c m) := by
  cases c
  · intro w
    exact List.prefix_refl _
  · simpa [Op.when] using hm

theorem commit_timeline (db : DB) (w : World) :
    (commit db w).timeline = w.timeline ++ [db] := rfl

theorem execStmt_grows (stmt : DB → Except Err DB) : Op.Grows (execStmt stmt) := by
  intro w
  have h : w.timeline = (takeFault w).2.timeline := by
    unfold World.timeline
    rw [(takeFault_db w).1, (takeFault_db w).2]
  rw [h]
  unfold execStmt
  split <;> rename_i heq <;> rw [heq] <;> (try dsimp only) <;> (try split) <;>
    first
    | exact List.prefix_refl _
    | (rw [commit_timeline]; exact List.prefix_append _ _)

theorem UpdateProcessingStatus_grows (f s : String) :
    Op.Grows (Storage.UpdateProcessingStatus f s) := by
  unfold Storage.UpdateProcessingStatus
  refine Op.Grows.bind_grows (Op.Grows.of_silent (logCall_silent _ _)) (fun _ => ?_)
  split
  · exact Op.Grows.of_silent (Op.Silent.throw _)
  · exact execStmt_grows _

theorem RunProcessing_grows (cfg : Config) (f b : String) (dryRun fromQueue : Bool) :
    Op.Grows (Processor.RunProcessing cfg f b dryRun fromQueue) := by
  unfold Processor.RunProcessing
  refine Op.Grows.bind_grows (Op.Grows.of_silent (logCall_silent _ _)) (fun _ => ?_)
  refine Op.Grows.bind_grows
    (Op.Grows.of_silent (Op.Silent.when_silent (DownloadFile_silent _))) (fun _ => ?_)
  refine Op.Grows.bind_grows (UpdateProcessingStatus_grows _ _) (fun _ => ?_)
  refine Op.Grows.bind_grows (Op.Grows.of_silent (cmdRun_silent _ _)) (fun r => ?_)
  cases r with
  | exitError =>
    exact Op.Grows.bind_grows (UpdateProcessingStatus_grows _ _)
      (fun _ => Op.Grows.of_silent (Op.Silent.pure_silent _))
  | finished out =>
    refine Op.Grows.bind_grows (UpdateProcessingStatus_grows _ _) (fun _ => ?_)
    exact Op.Grows.of_silent (Op.Silent.when_silent (uploadData_silent _ _))

theorem RunProcessing_names (cfg : Config) (f b : String) (dryRun fromQueue : Bool)
    (w : World) :
    (Processor.RunProcessing cfg f b dryRun fromQueue w).2.db.processing.map
        (fun r => r.file_name) = w.db.processing.map (fun r => r.file_name) := by
  refine Op.ensures_result
    (fun d => d.processing.map (fun r => r.file_name) = w.db.processing.map (fun r => r.file_name))
    (RunProcessing_ensures
      (fun d => d.processing.map (fun r => r.file_name) = w.db.processing.map (fun r => r.file_name))
      cfg f b dryRun fromQueue ?_) rfl (fun _ h => h) (fun _ h => h)
  intro d s hd
  simp only [setProcessingStatus_names]
  exact hd

theorem Process_absent (cfg : Config) (userID barcode handler fileName : String)
    (dryRun fromQueue : Bool) (w : World)
    (hU : userID ∈ w.db.users) (hF : w.db.activeFile userID = some fileName)
    (hV : w.db.fileIsValid fileName = true) (hN : FaultFree (w.faults.take 5))
    (hS : w.db.processingStatus fileName = none) :
    Agent.Process cfg userID barcode handler dryRun fromQueue w =
      Processor.RunProcessing cfg fileName barcode dryRun fromQueue
        { w with
          db := { w.db with processing :=
            w.db.processing ++ [⟨fileName, barcode, constants.ProcessingStatusNew⟩] }
          hist := w.hist ++ [w.db]
          faults := w.faults.drop 5
          trace := w.trace ++
            [Event.call "Process" [userID, barcode, handler, toString dryRun, toString fromQueue],
             Event.call "CheckUserID" [userID],
             Event.call "GetFileNameForUser" [userID],
             Event.call "CheckIsValid" [fileName],
             Event.call "GetProcessingStatus" [fileName],
             Event.call "AddNewProcessingEntry" [fileName, barcode]] } := by
  obtain ⟨db, hist, faults, cmds, s3, trace⟩ := w
  simp only at hU hF hV hN hS
  have hP : hasProcessing db.processing fileName = false := by
    rw [hasProcessing_eq]
    simp only [DB.processingStatus, Option.map_eq_none'] at hS
    rw [hS]
    rfl
  rcases faults with _ | ⟨f1, _ | ⟨f2, _ | ⟨f3, _ | ⟨f4, _ | ⟨f5, rest⟩⟩⟩⟩⟩ <;>
    simp_all [FaultFree, Agent.Process, bind, Op.bind, logCall, Storage.CheckUserID,
      Storage.GetFileNameForUser, Storage.CheckIsValid, Storage.GetProcessingStatus,
      Storage.AddNewProcessingEntry, queryStmt, execStmt, commit, takeFault, Op.when,
      constants.NA, constants.ProcessingStatusRunning]

theorem Process_present (cfg : Config) (userID barcode handler fileName s : String)
    (dryRun fromQueue : Bool) (w : World)
    (hU : userID ∈ w.db.users) (hF : w.db.activeFile userID = some fileName)
    (hV : w.db.fileIsValid fileName = true) (hN : FaultFree (w.faults.take 5))
    (hS : w.db.processingStatus fileName = some s) (hNA : s ≠ constants.NA) :
    Agent.Process cfg userID barcode handler dryRun fromQueue w =
      if s = constants.ProcessingStatusRunning then
        (Res.fail Err.ProcessingBlocked,
          { w with
            faults := w.faults.drop 4
            trace := w.trace ++
              [Event.call "Process"
                [userID, barcode, handler, toString dryRun, toString fromQueue],
               Event.call "CheckUserID" [userID],
               Event.call "GetFileNameForUser" [userID],
               Event.call "CheckIsValid" [fileName],
               Event.call "GetProcessingStatus" [fileName]] })
      else
        Processor.RunProcessing cfg fileName barcode dryRun fromQueue
          { w with
            faults := w.faults.drop 4
            trace := w.trace ++
              [Event.call "Process"
                [userID, barcode, handler, toString dryRun, toString fromQueue],
               Event.call "CheckUserID" [userID],
               Event.call "GetFileNameForUser" [userID],
               Event.call "CheckIsValid" [fileName],
               Event.call "GetProcessingStatus" [fileName]] } := by
  obtain ⟨db, hist, faults, cmds, s3, trace⟩ := w
  simp only at hU hF hV hN hS
  by_cases hs : s = constants.ProcessingStatusRunning
  · rw [if_pos hs]
    subst hs
    rcases faults with _ | ⟨f1, _ | ⟨f2, _ | ⟨f3, _ | ⟨f4, rest⟩⟩⟩⟩ <;>
      simp_all [FaultFree, Agent.Process, bind, Op.bind, logCall, Storage.CheckUserID,
        Storage.GetFileNameForUser, Storage.CheckIsValid, Storage.GetProcessingStatus,
        queryStmt, takeFault, Op.throw]
  · rw [if_neg hs]
    rcases faults with _ | ⟨f1, _ | ⟨f2, _ | ⟨f3, _ | ⟨f4, rest⟩⟩⟩⟩ <;>
      simp_all [FaultFree, Agent.Process, bind, Op.bind, logCall, Storage.CheckUserID,
        Storage.GetFileNameForUser, Storage.CheckIsValid, Storage.GetProcessingStatus,
        queryStmt, takeFault, Op.when, Op.pure]

/-- C19: when the storage answers (no fault on the call),
`Storage.GetProcessingStatus` returns `NA` with a nil error for a file name
without a processing record, and the stored status for a file name with one.
For `Agent.Process` on an existing user whose file `fileName` is valid, with
no fault in the four reads and in the insert, and no stored status that is
itself the string `NA`: if the status read is `NA`, the record
(fileName, barcode, `new`) is appended to the processing table (the database
with this record follows the initial one in the timeline) and the processing
table ends with one record more, the one of `fileName`; if the status read is
not `NA`, the processing table ends with the records, by file name, it had. -/
theorem Agent.Process_creates_record_iff_NA (cfg : Config)
    (userID barcode handler fileName : String) (dryRun fromQueue : Bool) (w : World)
    (hU : userID ∈ w.db.users) (hF : w.db.activeFile userID = some fileName)
    (hV : w.db.fileIsValid fileName = true) (hN : FaultFree (w.faults.take 5))
    (hS : w.db.processingStatus fileName ≠ some constants.NA) :
    (∀ v : World, FaultFree (v.faults.take 1) →
      (v.db.processingStatus fileName = none →
        (Storage.GetProcessingStatus fileName v).1 = Res.ok constants.NA) ∧
      (∀ s, v.db.processingStatus fileName = some s →
        (Storage.GetProcessingStatus fileName v).1 = Res.ok s)) ∧
    ((w.db.processingStatus fileName).getD constants.NA = constants.NA →
      (Agent.Process cfg userID barcode handler dryRun fromQueue w).2.db.processing.map
          (fun r => r.file_name) = w.db.processing.map (fun r => r.file_name) ++ [fileName] ∧
      w.hist ++ [w.db, { w.db with processing :=
          w.db.processing ++ [⟨fileName, barcode, constants.ProcessingStatusNew⟩] }] <+:
        (Agent.Process cfg userID barcode handler dryRun fromQueue w).2.timeline) ∧
    ((w.db.processingStatus fileName).getD constants.NA ≠ constants.NA →
      (Agent.Process cfg userID barcode handler dryRun fromQueue w).2.db.processing.map
          (fun r => r.file_name) = w.db.processing.map (fun r => r.file_name)) := by
  refine ⟨?_, ?_, ?_⟩
  · intro v hv
    obtain ⟨db, hist, faults, cmds, s3, trace⟩ := v
    rcases faults with _ | ⟨f, fs⟩
    · constructor
      · intro h
        simp only at h
        simp [Storage.GetProcessingStatus, bind, Op.bind, logCall, queryStmt, takeFault, h]
      · intro s h
        simp only at h
        simp [Storage.GetProcessingStatus, bind, Op.bind, logCall, queryStmt, takeFault, h]
    · have hf : f = Fault.none := hv f (by simp)
      subst hf
      constructor
      · intro h
        simp only at h
        simp [Storage.GetProcessingStatus, bind, Op.bind, logCall, queryStmt, takeFault, h]
      · intro s h
        simp only at h
        simp [Storage.GetProcessingStatus, bind, Op.bind, logCall, queryStmt, takeFault, h]
  · intro hread
    have hnone : w.db.processingStatus fileName = none := by
      cases h : w.db.processingStatus fileName with
      | none => rfl
      | some s =>
        rw [h] at hread hS
        simp only [Option.getD_some] at hread
        rw [hread] at hS
        exact absurd rfl hS
    rw [Process_absent cfg userID barcode handler fileName dryRun fromQueue w hU hF hV hN hnone]
    constructor
    · rw [RunProcessing_names]
      simp
    · have hg := RunProcessing_grows cfg fileName barcode dryRun fromQueue
        { w with
          db := { w.db with processing :=
            w.db.processing ++ [⟨fileName, barcode, constants.ProcessingStatusNew⟩] }
          hist := w.hist ++ [w.db]
          faults := w.faults.drop 5
          trace := w.trace ++
            [Event.call "Process" [userID, barcode, handler, toString dryRun, toString fromQueue],
             Event.call "CheckUserID" [userID],
             Event.call "GetFileNameForUser" [userID],
             Event.call "CheckIsValid" [fileName],
             Event.call "GetProcessingStatus" [fileName],
             Event.call "AddNewProcessingEntry" [fileName, barcode]] }
      simpa [World.timeline] using hg
  · intro hread
    cases h : w.db.processingStatus fileName with
    | none =>
      rw [h] at hread
      exact absurd rfl hread
    | some s =>
      rw [h] at hread
      simp only [Option.getD_some] at hread
      rw [Process_present cfg userID barcode handler fileName s dryRun fromQueue w hU hF hV hN
        h hread]
      split
      · rfl
      · rw [RunProcessing_names]

/-- The theorem of C19 at the user `u1` of `dbValid`, whose valid file `f1`
has no processing record. -/
theorem Agent.Process_creates_record_iff_NA_witness :
    "u1" ∈ dbValid.users ∧ dbValid.activeFile "u1" = some "f1" ∧
    dbValid.fileIsValid "f1" = true ∧
    FaultFree ((World.init dbValid [] [CmdResult.finished ""] []).faults.take 5) ∧
    dbValid.processingStatus "f1" ≠ some constants.NA ∧
    (Agent.Process Config.default "u1" "B1" "cli" true false
      (World.init dbValid [] [CmdResult.finished ""] [])).2.db.processing.map
        (fun r => r.file_name) = ["f1"] :=
  ⟨by decide, by decide, by decide, by decide, by decide,
    ((Agent.Process_creates_record_iff_NA Config.default "u1" "B1" "cli" "f1" true false
      (World.init dbValid [] [CmdResult.finished ""] [])
      (by decide) (by decide) (by decide) (by decide) (by decide)).2.1 (by decide)).1⟩

/-! ## C15 -/

theorem World.sameInputs_refl (w : World) : World.sameInputs w w :=
  ⟨⟨rfl, rfl, rfl, rfl⟩, rfl⟩

theorem Op.Alike.bind_alike {α β : Type} {m1 m2 : Op α} {f g : α → Op β}
    (hm : Op.Alike m1 m2) (hf : ∀ a, Op.Alike (f a) (g a)) :
    Op.Alike (m1 >>= f) (m2 >>= g) := by
  intro w1 w2 h
  obtain ⟨h1, h2⟩ := hm w1 w2 h
  show (Op.bind m1 f w1).1 = (Op.bind m2 g w2).1 ∧
    World.sameInputs (Op.bind m1 f w1).2 (Op.bind m2 g w2).2
  unfold Op.bind
  rcases e1 : m1 w1 with ⟨r1, v1⟩
  rcases e2 : m2 w2 with ⟨r2, v2⟩
  rw [e1, e2] at h1 h2
  simp only at h1 h2
  subst h1
  cases r1 with
  | ok a => exact hf a v1 v2 h2
  | fail e => exact ⟨rfl, h2⟩
  | panic => exact ⟨rfl, h2⟩

theorem Op.SameWrites.bind_same {α β : Type} {m1 m2 : Op α} {f g : α → Op β}
    (hm : Op.Alike m1 m2) (hf : ∀ a, Op.SameWrites (f a) (g a)) :
    Op.SameWrites (m1 >>= f) (m2 >>= g) := by
  intro w1 w2 h
  obtain ⟨h1, h2⟩ := hm w1 w2 h
  show World.sameStore (Op.bind m1 f w1).2 (Op.bind m2 g w2).2
  unfold Op.bind
  rcases e1 : m1 w1 with ⟨r1, v1⟩
  rcases e2 : m2 w2 with ⟨r2, v2⟩
  rw [e1, e2] at h1 h2
  simp only at h1 h2
  subst h1
  cases r1 with
  | ok a => exact hf a v1 v2 h2
  | fail e => exact h2.1
  | panic => exact h2.1

theorem Op.Alike.same_writes {α : Type} {m1 m2 : Op α} (hm : Op.Alike m1 m2) :
    Op.SameWrites m1 m2 := fun w1 w2 h => (hm w1 w2 h).2.1

theorem logCall_alike (m1 m2 : String) (a1 a2 : List String) :
    Op.Alike (logCall m1 a1) (logCall m2 a2) := by
  intro w1 w2 h
  exact ⟨rfl, h⟩

theorem Op.Alike.pure_alike {α : Type} (a : α) : Op.Alike (Pure.pure a : Op α) (Pure.pure a) := by
  intro w1 w2 h
  exact ⟨rfl, h⟩

theorem Op.Alike.throw_alike {α : Type} (e : Err) : Op.Alike (Op.throw e : Op α) (Op.throw e) := by
  intro w1 w2 h
  exact ⟨rfl, h⟩

theorem Op.Alike.when_alike {c : Bool} {m1 m2 : Op Unit} (hm : Op.Alike m1 m2) :
    Op.Alike (Op.when c m1) (Op.when c m2) := by
  cases c
  · intro w1 w2 h
    exact ⟨rfl, h⟩
  · simpa [Op.when] using hm

theorem execStmt_alike (stmt : DB → Except Err DB) : Op.Alike (execStmt stmt) (execStmt stmt) := by
  intro w1 w2 h
  obtain ⟨db1, hist1, faults1, cmds1, s1, trace1⟩ := w1
  obtain ⟨db2, hist2, faults2, cmds2, s2, trace2⟩ := w2
  obtain ⟨⟨h1, h2, h3, h4⟩, h5⟩ := h
  simp only at h1 h2 h3 h4 h5
  subst h1 h2 h3 h4 h5
  rcases faults1 with _ | ⟨_ | _ | _ | ⟨_ | _⟩, fs⟩ <;> cases hs : stmt db1 <;>
    simp [execStmt, takeFault, commit, hs, World.sameInputs, World.sameStore]

theorem DownloadFile_alike (f : String) : Op.Alike (S3.DownloadFile f) (S3.DownloadFile f) := by
  intro w1 w2 h
  obtain ⟨db1, hist1, faults1, cmds1, s1, trace1⟩ := w1
  obtain ⟨db2, hist2, faults2, cmds2, s2, trace2⟩ := w2
  obtain ⟨⟨h1, h2, h3, h4⟩, h5⟩ := h
  simp only at h1 h2 h3 h4 h5
  subst h1 h2 h3 h4 h5
  rcases s1 with _ | ⟨_ | _, bs⟩ <;>
    simp [S3.DownloadFile, bind, Op.bind, logCall, takeS3, World.sameInputs, World.sameStore]

theorem cmdRun_alike (e : String) (args : List String) :
    Op.Alike (cmdRun e args) (cmdRun e args) := by
  intro w1 w2 h
  obtain ⟨db1, hist1, faults1, cmds1, s1, trace1⟩ := w1
  obtain ⟨db2, hist2, faults2, cmds2, s2, trace2⟩ := w2
  obtain ⟨⟨h1, h2, h3, h4⟩, h5⟩ := h
  simp only at h1 h2 h3 h4 h5
  subst h1 h2 h3 h4 h5
  rcases cmds1 with _ | ⟨c, cs⟩ <;>
    simp [cmdRun, takeCmd, World.sameInputs, World.sameStore]

theorem UpdateProcessingStatus_alike (f s : String) :
    Op.Alike (Storage.UpdateProcessingStatus f s) (Storage.UpdateProcessingStatus f s) := by
  unfold Storage.UpdateProcessingStatus
  refine Op.Alike.bind_alike (logCall_alike _ _ _ _) (fun _ => ?_)
  split
  · exact Op.Alike.throw_alike _
  · exact execStmt_alike _

theorem uploadData_same_writes (cfg : Config) (b : String) :
    Op.SameWrites (Op.when (!true) (Processor.uploadData cfg b))
      (Op.when (!false) (Processor.uploadData cfg b)) := by
  intro w1 w2 h
  have h1 : (Op.when (!true) (Processor.uploadData cfg b) w1).2 = w1 := rfl
  have h2 : (Op.when (!false) (Processor.uploadData cfg b) w2).2 =
      (Processor.uploadAll (Processor.uploadFiles cfg b) none
        (logCall "uploadData" [b] w2).2).2 := rfl
  rw [h1, h2, uploadAll_snd]
  exact h.1

theorem RunProcessing_same_writes (cfg : Config) (f b : String) (fromQueue : Bool) :
    Op.SameWrites (Processor.RunProcessing cfg f b true fromQueue)
      (Processor.RunProcessing cfg f b false fromQueue) := by
  unfold Processor.RunProcessing
  refine Op.SameWrites.bind_same (logCall_alike _ _ _ _) (fun _ => ?_)
  refine Op.SameWrites.bind_same (Op.Alike.when_alike (DownloadFile_alike _)) (fun _ => ?_)
  refine Op.SameWrites.bind_same (UpdateProcessingStatus_alike _ _) (fun _ => ?_)
  refine Op.SameWrites.bind_same (cmdRun_alike _ _) (fun r => ?_)
  cases r with
  | exitError =>
    exact Op.Alike.same_writes (Op.Alike.bind_alike (UpdateProcessingStatus_alike _ _)
      (fun _ => Op.Alike.pure_alike _))
  | finished out =>
    exact Op.SameWrites.bind_same (UpdateProcessingStatus_alike _ _)
      (fun _ => uploadData_same_writes cfg b)

theorem RunProcessing_statuses (cfg : Config) (f b s0 : String) (dryRun fromQueue : Bool)
    (w : World) (hP : w.db.processingStatus f = some s0) (hN : FaultFree (w.faults.take 2))
    (hS : fromQueue = true → (takeS3 w).1 = true) :
    ((Processor.RunProcessing cfg f b dryRun fromQueue w).2.timeline.drop w.hist.length).map
        (fun db => db.processingStatus f) =
      [some s0, some constants.ProcessingStatusRunning,
        some (match (takeCmd w).1 with
          | CmdResult.finished _ => constants.ProcessingStatusDone
          | CmdResult.exitError => constants.ProcessingStatusError)] := by
  obtain ⟨db, hist, faults, cmds, s3, trace⟩ := w
  simp only at hP hN hS
  obtain ⟨r, hr, hs⟩ : ∃ r, lookupProcessing db.processing f = some r ∧ r.status = s0 := by
    simpa [DB.processingStatus] using hP
  have hs3 : fromQueue = true → s3 = [] ∨ ∃ bs, s3 = true :: bs := by
    intro hq
    have := hS hq
    rcases s3 with _ | ⟨_ | _, bs⟩ <;> simp_all [takeS3]
  have hf : faults = [] ∨ faults = [Fault.none] ∨ ∃ fs, faults = Fault.none :: Fault.none :: fs := by
    rcases faults with _ | ⟨f1, _ | ⟨f2, fs⟩⟩
    · exact Or.inl rfl
    · have := hN f1 (by simp)
      subst this
      exact Or.inr (Or.inl rfl)
    · have h1 := hN f1 (by simp)
      have h2 := hN f2 (by simp)
      subst h1 h2
      exact Or.inr (Or.inr ⟨fs, rfl⟩)
  clear hN hS hP
  cases fromQueue
  · rcases hf with hf | hf | ⟨fs, hf⟩ <;> subst hf <;>
      rcases cmds with _ | ⟨_ | out, cs⟩ <;> cases dryRun <;>
      simp [Processor.RunProcessing, Processor.uploadData, bind, Op.bind, Op.when,
        pure, Op.pure, logCall, Storage.UpdateProcessingStatus, execStmt, takeFault, commit,
        cmdRun, takeCmd, Storage.checkInSlice, constants.ValidProcessingStatuses,
        constants.ProcessingStatusRunning, constants.ProcessingStatusNew,
        constants.ProcessingStatusDone, constants.ProcessingStatusError,
        World.timeline, DB.processingStatus, lookupProcessing_set, uploadAll_snd, hr, hs]
  · rcases hs3 rfl with h3 | ⟨bs, h3⟩ <;> subst h3 <;>
      rcases hf with hf | hf | ⟨fs, hf⟩ <;> subst hf <;>
      rcases cmds with _ | ⟨_ | out, cs⟩ <;> cases dryRun <;>
      simp [Processor.RunProcessing, Processor.uploadData, bind, Op.bind, Op.when,
        pure, Op.pure, logCall, Storage.UpdateProcessingStatus, execStmt, takeFault, commit,
        cmdRun, takeCmd, Storage.checkInSlice, constants.ValidProcessingStatuses,
        constants.ProcessingStatusRunning, constants.ProcessingStatusNew,
        constants.ProcessingStatusDone, constants.ProcessingStatusError,
        World.timeline, DB.processingStatus, lookupProcessing_set, uploadAll_snd, hr, hs,
        S3.DownloadFile, takeS3]

theorem RunProcessing_trace_success (cfg : Config) (f b out : String) (dryRun fromQueue : Bool)
    (w : World) (hN : FaultFree (w.faults.take 2))
    (hS : fromQueue = true → (takeS3 w).1 = true)
    (hC : (takeCmd w).1 = CmdResult.finished out) :
    (Processor.RunProcessing cfg f b dryRun fromQueue w).2.trace =
      w.trace ++
        [Event.call "RunProcessing" [f, b, toString dryRun, toString fromQueue]] ++
        (if fromQueue then [Event.call "DownloadFile" [f]] else []) ++
        [Event.call "UpdateProcessingStatus" [f, constants.ProcessingStatusRunning],
         Event.run cfg.DockerExecutable
           [cfg.DockerExecutable, "run", "--rm", "-v", cfg.MountDir ++ ":/mnt",
            cfg.DockerImageName, "main.py", "process", "--input", f, "--barcode", b],
         Event.call "UpdateProcessingStatus" [f, constants.ProcessingStatusDone]] ++
        (if dryRun then []
         else Event.call "uploadData" [b] ::
           (Processor.uploadFiles cfg b).map
             (fun x => Event.call "UploadFile" [x.1, x.2.1, x.2.2])) := by
  obtain ⟨db, hist, faults, cmds, s3, trace⟩ := w
  simp only at hN hS hC
  have hs3 : fromQueue = true → s3 = [] ∨ ∃ bs, s3 = true :: bs := by
    intro hq
    have := hS hq
    rcases s3 with _ | ⟨_ | _, bs⟩ <;> simp_all [takeS3]
  have hf : faults = [] ∨ faults = [Fault.none] ∨ ∃ fs, faults = Fault.none :: Fault.none :: fs := by
    rcases faults with _ | ⟨f1, _ | ⟨f2, fs⟩⟩
    · exact Or.inl rfl
    · have := hN f1 (by simp)
      subst this
      exact Or.inr (Or.inl rfl)
    · have h1 := hN f1 (by simp)
      have h2 := hN f2 (by simp)
      subst h1 h2
      exact Or.inr (Or.inr ⟨fs, rfl⟩)
  clear hN hS
  rcases cmds with _ | ⟨c, cs⟩
  · simp [takeCmd] at hC
  simp only [takeCmd] at hC
  subst hC
  cases fromQueue
  · rcases hf with hf | hf | ⟨fs, hf⟩ <;> subst hf <;> cases dryRun <;>
      simp [Processor.RunProcessing, Processor.uploadData, bind, Op.bind, Op.when,
        pure, Op.pure, logCall, Storage.UpdateProcessingStatus, execStmt, takeFault, commit,
        cmdRun, takeCmd, Storage.checkInSlice, constants.ValidProcessingStatuses,
        constants.ProcessingStatusRunning, constants.ProcessingStatusNew,
        constants.ProcessingStatusDone, constants.ProcessingStatusError, uploadAll_snd]
  · rcases hs3 rfl with h3 | ⟨bs, h3⟩ <;> subst h3 <;>
      rcases hf with hf | hf | ⟨fs, hf⟩ <;> subst hf <;> cases dryRun <;>
      simp [Processor.RunProcessing, Processor.uploadData, bind, Op.bind, Op.when,
        pure, Op.pure, logCall, Storage.UpdateProcessingStatus, execStmt, takeFault, commit,
        cmdRun, takeCmd, Storage.checkInSlice, constants.ValidProcessingStatuses,
        constants.ProcessingStatusRunning, constants.ProcessingStatusNew,
        constants.ProcessingStatusDone, constants.ProcessingStatusError, uploadAll_snd,
        S3.DownloadFile, takeS3]

/-- C15: for every world the runs of `Processor.RunProcessing` with
`dryRun = true` and with `dryRun = false` end with the same store: the same
database, the same earlier states of it (the same writes in the same order),
the same storage faults and subprocess results left. For a file with a
processing record, no fault in the two status writes and a successful
download when the call comes from the queue, both runs take the status from
the stored one to `running` and then to `done` when the subprocess succeeded
(to `error` when it failed); and after a successful subprocess the log of the
run ends with the write of `done` when `dryRun` is true, and continues with
the call of `uploadData` and its uploads when `dryRun` is false. -/
theorem Processor.RunProcessing_dry_run (cfg : Config) (fileName barcode : String)
    (fromQueue : Bool) (w : World) :
    World.sameStore (Processor.RunProcessing cfg fileName barcode true fromQueue w).2
      (Processor.RunProcessing cfg fileName barcode false fromQueue w).2 ∧
    (FaultFree (w.faults.take 2) → (fromQueue = true → (takeS3 w).1 = true) →
      (∀ s0, w.db.processingStatus fileName = some s0 → ∀ dryRun,
        ((Processor.RunProcessing cfg fileName barcode dryRun fromQueue w).2.timeline.drop
            w.hist.length).map (fun db => db.processingStatus fileName) =
          [some s0, some constants.ProcessingStatusRunning,
            some (match (takeCmd w).1 with
              | CmdResult.finished _ => constants.ProcessingStatusDone
              | CmdResult.exitError => constants.ProcessingStatusError)]) ∧
      (∀ out, (takeCmd w).1 = CmdResult.finished out → ∀ dryRun,
        (Processor.RunProcessing cfg fileName barcode dryRun fromQueue w).2.trace =
          w.trace ++
            [Event.call "RunProcessing"
              [fileName, barcode, toString dryRun, toString fromQueue]] ++
            (if fromQueue then [Event.call "DownloadFile" [fileName]] else []) ++
            [Event.call "UpdateProcessingStatus" [fileName, constants.ProcessingStatusRunning],
             Event.run cfg.DockerExecutable
               [cfg.DockerExecutable, "run", "--rm", "-v", cfg.MountDir ++ ":/mnt",
                cfg.DockerImageName, "main.py", "process", "--input", fileName,
                "--barcode", barcode],
             Event.call "UpdateProcessingStatus" [fileName, constants.ProcessingStatusDone]] ++
            (if dryRun then []
             else Event.call "uploadData" [barcode] ::
               (Processor.uploadFiles cfg barcode).map
                 (fun x => Event.call "UploadFile" [x.1, x.2.1, x.2.2])))) := by
  refine ⟨RunProcessing_same_writes cfg fileName barcode fromQueue w w
    (World.sameInputs_refl w), ?_⟩
  intro hN hS
  exact ⟨fun s0 hP dryRun =>
      RunProcessing_statuses cfg fileName barcode s0 dryRun fromQueue w hP hN hS,
    fun out hC dryRun =>
      RunProcessing_trace_success cfg fileName barcode out dryRun fromQueue w hN hS hC⟩

/-- The theorem of C15 at the queued file `f1` of `dbQueued`, with a
subprocess that succeeds. -/
theorem Processor.RunProcessing_dry_run_witness :
    FaultFree ((World.init dbQueued [] [CmdResult.finished ""] []).faults.take 2) ∧
    dbQueued.processingStatus "f1" = some "new" ∧
    ((Processor.RunProcessing Config.default "f1" "B1" true false
        (World.init dbQueued [] [CmdResult.finished ""] [])).2.timeline.drop 0).map
      (fun db => db.processingStatus "f1") = [some "new", some "running", some "done"] :=
  ⟨by decide, by decide,
    ((Processor.RunProcessing_dry_run Config.default "f1" "B1" false
      (World.init dbQueued [] [CmdResult.finished ""] [])).2 (by decide)
      (by intro h; exact absurd h (by decide))).1 "new" (by decide) true⟩

/-! ## C26 -/

/-- C26: the code at the failing input. The validation executable exits with
success and prints `null`, which `json.Unmarshal` accepts and which leaves
the pointer `cmdOutput` nil. With `dryRun = false` the method
`RunValidation` panics on `cmdOutput.Passed`, after the status `running` was
stored; with `dryRun = true` it returns the nil pointer together with a nil
error, and so does `Agent.Validate`. -/
theorem Processor.RunValidation_null_output :
    sampleUnmarshal "null" = Except.ok none ∧
    (Processor.RunValidation Config.default sampleUnmarshal "f1" false false
      (World.init dbValid [] [CmdResult.finished "null"] [])).1 = Res.panic ∧
    (Processor.RunValidation Config.default sampleUnmarshal "f1" false false
      (World.init dbValid [] [CmdResult.finished "null"] [])).2.db.validationStatus "f1" =
        some constants.ValidationStatusRunning ∧
    (Processor.RunValidation Config.default sampleUnmarshal "f1" true false
      (World.init dbValid [] [CmdResult.finished "null"] [])).1 = Res.ok none ∧
    (Agent.Validate Config.default sampleUnmarshal "u1" "f1" "cli" true false
      (World.init dbValid [] [CmdResult.finished "null"] [])).1 = Res.ok none := by
  refine ⟨rfl, ?_, ?_, ?_, ?_⟩ <;> decide

/-! ## C28 -/

/-- C28: the code at the default configuration. The default of the output
exchange of processing is the name of the input exchange of processing, so
the four default names are not pairwise distinct, and a message published to
the output exchange of processing is delivered to the processing queue (and
to the queue `rrs`); the listener of the processing queue publishes its
notification, here for a message of the unknown user `u2`, to the exchange
its own queue is bound to. -/
theorem AMQP.default_processing_output_is_input :
    Config.AMQP.default.ProcessingExchangeOutputName =
      Config.AMQP.default.ProcessingExchangeInputName ∧
    ¬ (AMQP.exchanges Config.AMQP.default).Nodup ∧
    AMQP.queuesOf Config.AMQP.default Config.AMQP.default.ProcessingExchangeOutputName =
      [Config.AMQP.default.ProcessingQueueName, Config.AMQP.default.RRSQueueName] ∧
    AMQP.queuesOf Config.AMQP.default Config.AMQP.default.ValidationExchangeOutputName =
      [Config.AMQP.default.RRSQueueName] ∧
    (AMQPHandler.processingListener Config.default Config.AMQP.default
      (fun _ => some ⟨"u2", "f2", "B2"⟩) sampleMarshal (some [sampleDelivery])
      (World.init dbValid [] [] [], ⟨[], [], []⟩)).2.2.log =
      [BusEvent.ack sampleDelivery,
       BusEvent.publish Config.AMQP.default.ProcessingExchangeInputName
         ⟨"application/json", [], "not ready"⟩] := by
  refine ⟨?_, ?_, ?_, ?_, ?_⟩ <;> decide

/-! ## C30 -/

/-- C30: for a message body that deserializes to `msg`, the handler
`handleProcessingQueue` leaves the world that `Agent.Process` leaves for the
user and the barcode of the message: the file name of the message is not
passed on. When the handler returns, the user and the file name it returns
are those of the message, so another file name in the message changes the
file name returned and nothing else. A body that does not deserialize is
answered with empty user and file name, `false` and the error, and the world
is untouched. -/
theorem AMQPHandler.handleProcessingQueue_file_name (cfg : Config)
    (unmarshalMsg : String → Option MsgProcess) (body : String) (w : World)
    (msg : MsgProcess) (h : unmarshalMsg body = some msg) :
    (AMQPHandler.handleProcessingQueue cfg unmarshalMsg body w).2 =
      (Agent.Process cfg msg.UserID msg.Barcode "process" false true w).2 ∧
    (∀ r, (AMQPHandler.handleProcessingQueue cfg unmarshalMsg body w).1 = some r →
      r.userID = msg.UserID ∧ r.fileName = msg.FileName) ∧
    (∀ g : String,
      (AMQPHandler.handleProcessingQueue cfg
          (fun _ => some { msg with FileName := g }) body w).2 =
        (AMQPHandler.handleProcessingQueue cfg unmarshalMsg body w).2 ∧
      (AMQPHandler.handleProcessingQueue cfg
          (fun _ => some { msg with FileName := g }) body w).1 =
        (AMQPHandler.handleProcessingQueue cfg unmarshalMsg body w).1.map
          (fun r => { r with fileName := g })) ∧
    AMQPHandler.handleProcessingQueue cfg (fun _ => none) body w =
      (some ⟨"", "", false, some Err.JSONUnmarshal⟩, w) := by
  refine ⟨?_, ?_, ?_, rfl⟩
  · simp only [AMQPHandler.handleProcessingQueue, h, AMQPHandler.dryRun,
      AMQPHandler.fromQueue]
    split <;> rename_i heq <;> rw [heq]
  · intro r
    simp only [AMQPHandler.handleProcessingQueue, h]
    split <;> intro hr <;> simp at hr <;> subst hr <;> exact ⟨rfl, rfl⟩
  · intro g
    simp only [AMQPHandler.handleProcessingQueue, h]
    split <;> simp

/-- The theorem of C30 at a message of the user `u1` that names the file
`other`, while the file of `u1` is `f1`: the handler returns `other`, and the
processing record written is the one of `f1`. -/
theorem AMQPHandler.handleProcessingQueue_file_name_witness :
    (AMQPHandler.handleProcessingQueue Config.default (fun _ => some ⟨"u1", "other", "B1"⟩)
      "msg" (World.init dbValid [] [] [])).1 = some ⟨"u1", "other", true, none⟩ ∧
    (AMQPHandler.handleProcessingQueue Config.default (fun _ => some ⟨"u1", "other", "B1"⟩)
      "msg" (World.init dbValid [] [] [])).2.db.processingBarcode "f1" = some "B1" ∧
    (AMQPHandler.handleProcessingQueue Config.default (fun _ => some ⟨"u1", "other", "B1"⟩)
      "msg" (World.init dbValid [] [] [])).2.db.processingBarcode "other" = none ∧
    (AMQPHandler.handleProcessingQueue Config.default (fun _ => some ⟨"u1", "other", "B1"⟩)
      "msg" (World.init dbValid [] [] [])).2 =
      (Agent.Process Config.default "u1" "B1" "process" false true
        (World.init dbValid [] [] [])).2 :=
  ⟨by decide, by decide, by decide,
    (AMQPHandler.handleProcessingQueue_file_name Config.default
      (fun _ => some ⟨"u1", "other", "B1"⟩) "msg" (World.init dbValid [] [] [])
      ⟨"u1", "other", "B1"⟩ rfl).1⟩

/-! ## C24 -/

/-- C24: the code at the failing input. With the default configuration the
listener of the processing queue, whose `republish` is false, handles a job
message for the unknown user `u2` and then the status notification that this
turn published, which the broker hands to the processing queue. Both
handlings fail and both deliveries are acknowledged. After the second the
message published to the input exchange of processing has the content type,
the headers and the body of the delivery just consumed: the failed message is
on the processing queue again. -/
theorem AMQPHandler.processingListener_default_redelivers :
    AMQPHandler.republishProcessing = false ∧
    Config.AMQP.default.ProcessingQueueName ∈
      AMQP.queuesOf Config.AMQP.default Config.AMQP.default.ProcessingExchangeOutputName ∧
    (AMQPHandler.handleProcessingQueue Config.default sampleUnmarshalMsg
      sampleNotification.Body (World.init dbValid [] [] [])).1 =
        some ⟨"u2", "f2", false, some (Err.NotFound "user was not found")⟩ ∧
    (AMQPHandler.processingListener Config.default Config.AMQP.default sampleUnmarshalMsg
      sampleMarshal (some [sampleDelivery, sampleNotification])
      (World.init dbValid [] [] [], ⟨[], [], []⟩)).1 = Res.ok () ∧
    (AMQPHandler.processingListener Config.default Config.AMQP.default sampleUnmarshalMsg
      sampleMarshal (some [sampleDelivery, sampleNotification])
      (World.init dbValid [] [] [], ⟨[], [], []⟩)).2.2.log =
      [BusEvent.ack sampleDelivery,
       BusEvent.publish Config.AMQP.default.ProcessingExchangeInputName
         ⟨sampleNotification.ContentType, sampleNotification.Headers,
           sampleNotification.Body⟩,
       BusEvent.ack sampleNotification,
       BusEvent.publish Config.AMQP.default.ProcessingExchangeInputName
         ⟨sampleNotification.ContentType, sampleNotification.Headers,
           sampleNotification.Body⟩] := by
  refine ⟨rfl, ?_, ?_, ?_, ?_⟩ <;> decide

/-! ## C29 -/

/-- C29 as stated fails: the user `u1` exists and `CheckUserID` ends by the
deadline of the context. `AddNewUserID` is called with the same context,
whose deadline has passed, and `Agent.Validate` returns the statement error,
not the already-exists error. -/
theorem Validate_timed_out_check_is_statement_error :
    "u1" ∈ dbValid.users ∧
    (Storage.CheckUserID "u1"
      (World.init dbValid [Fault.timeout false, Fault.deadlinePassed] [] [])).1 =
        Res.fail Err.ContextTimeoutExceeded ∧
    (Agent.Validate Config.default sampleUnmarshal "u1" "f2" "cli" false false
      (World.init dbValid [Fault.timeout false, Fault.deadlinePassed]
        [CmdResult.finished "vcf passed"] [])).1 = Res.fail Err.StatementPSQL ∧
    (Agent.Validate Config.default sampleUnmarshal "u1" "f2" "cli" false false
      (World.init dbValid [Fault.timeout false, Fault.deadlinePassed]
        [CmdResult.finished "vcf passed"] [])).1 ≠ Res.fail (Err.AlreadyExists "u1") := by
  decide

/-- C29, amended: let the user exist and let `CheckUserID` fail for another
reason than absence. `Agent.Validate` with `dryRun = false` then calls
`AddNewUserID` and returns an error, whatever happens to that call; the
database and its history are left as they were, so the file association is
unchanged, and the log ends with the call of `AddNewUserID`: `RunValidation`
is not called. The error is the already-exists error of the user when the
check failed at the preparation of its statement or in the driver and the
insert reaches the database. It is the statement error when the check ended
by the deadline of the context: the insert is then called when the deadline
has passed. -/
theorem Agent.Validate_failed_check_of_existing_user (cfg : Config) (unmarshal : Unmarshal)
    (userID fileName handler : String) (fromQueue : Bool) (w : World)
    (c : Fault) (fs : List Fault)
    (hU : userID ∈ w.db.users) (hw : w.faults = c :: fs) (hc : c ≠ Fault.none) :
    (∃ e, (Agent.Validate cfg unmarshal userID fileName handler false fromQueue w).1
      = Res.fail e) ∧
    (c = Fault.prepare ∨ c = Fault.exec → FaultFree (fs.take 1) →
      (Agent.Validate cfg unmarshal userID fileName handler false fromQueue w).1
        = Res.fail (Err.AlreadyExists userID)) ∧
    ((∃ landed, c = Fault.timeout landed) → fs.head? = some Fault.deadlinePassed →
      (Agent.Validate cfg unmarshal userID fileName handler false fromQueue w).1
        = Res.fail Err.StatementPSQL) ∧
    (Agent.Validate cfg unmarshal userID fileName handler false fromQueue w).2.db = w.db ∧
    (Agent.Validate cfg unmarshal userID fileName handler false fromQueue w).2.hist = w.hist ∧
    (Agent.Validate cfg unmarshal userID fileName handler false fromQueue w).2.trace =
      w.trace ++
        [Event.call "Validate" [userID, fileName, handler, toString false, toString fromQueue],
         Event.call "CheckUserID" [userID],
         Event.call "AddNewUserID" [userID]] := by
  obtain ⟨db, hist, faults, cmds, s3, trace⟩ := w
  simp only at hU hw
  subst hw
  rcases c with _ | _ | _ | ⟨_ | _⟩
  · exact absurd rfl hc
  all_goals
    rcases fs with _ | ⟨_ | _ | _ | ⟨_ | _⟩, rest⟩ <;>
      simp [FaultFree, Fault.deadlinePassed, Agent.Validate, bind, Op.bind, Op.attempt,
        Op.when, pure, Op.pure, Storage.CheckUserID, Storage.AddNewUserID, logCall, queryStmt,
        execStmt, takeFault, hU]

/-- The theorem of C29 at the user `u1` of `dbValid`: with a check failed by
the driver the error is the already-exists error, with a check ended by the
deadline it is the statement error; the database is as it was. -/
theorem Agent.Validate_failed_check_of_existing_user_witness :
    "u1" ∈ dbValid.users ∧ Fault.exec ≠ Fault.none ∧
    (Agent.Validate Config.default sampleUnmarshal "u1" "f2" "cli" false false
      (World.init dbValid [Fault.exec] [CmdResult.finished "vcf passed"] [])).1
        = Res.fail (Err.AlreadyExists "u1") ∧
    (Agent.Validate Config.default sampleUnmarshal "u1" "f2" "cli" false false
      (World.init dbValid [Fault.timeout true, Fault.deadlinePassed]
        [CmdResult.finished "vcf passed"] [])).1 = Res.fail Err.StatementPSQL ∧
    (Agent.Validate Config.default sampleUnmarshal "u1" "f2" "cli" false false
      (World.init dbValid [Fault.exec] [CmdResult.finished "vcf passed"] [])).2.db
        = dbValid :=
  ⟨by decide, by decide,
    (Agent.Validate_failed_check_of_existing_user Config.default sampleUnmarshal "u1" "f2"
      "cli" false (World.init dbValid [Fault.exec] [CmdResult.finished "vcf passed"] [])
      Fault.exec [] (by decide) rfl (by decide)).2.1 (Or.inr rfl) (by decide),
    (Agent.Validate_failed_check_of_existing_user Config.default sampleUnmarshal "u1" "f2"
      "cli" false
      (World.init dbValid [Fault.timeout true, Fault.deadlinePassed]
        [CmdResult.finished "vcf passed"] [])
      (Fault.timeout true) [Fault.deadlinePassed] (by decide) rfl (by decide)).2.2.1
      ⟨true, rfl⟩ rfl,
    (Agent.Validate_failed_check_of_existing_user Config.default sampleUnmarshal "u1" "f2"
      "cli" false (World.init dbValid [Fault.exec] [CmdResult.finished "vcf passed"] [])
      Fault.exec [] (by decide) rfl (by decide)).2.2.2.1⟩

/-! ## C27 -/

theorem setProcessingStatus_barcodes (rows : List ProcessingRow) (f s : String) :
    (setProcessingStatus rows f s).map (fun r => (r.file_name, r.barcode)) =
      rows.map (fun r => (r.file_name, r.barcode)) := by
  induction rows with
  | nil => rfl
  | cons r rs ih =>
    simp only [setProcessingStatus, List.map_cons, List.cons.injEq] at ih ⊢
    exact ⟨by split <;> rfl, ih⟩

theorem RunProcessing_barcodes (cfg : Config) (f b : String) (dryRun fromQueue : Bool)
    (w : World) :
    (Processor.RunProcessing cfg f b dryRun fromQueue w).2.db.processing.map
        (fun r => (r.file_name, r.barcode)) =
      w.db.processing.map (fun r => (r.file_name, r.barcode)) := by
  refine Op.ensures_result
    (fun d => d.processing.map (fun r => (r.file_name, r.barcode)) =
      w.db.processing.map (fun r => (r.file_name, r.barcode)))
    (RunProcessing_ensures
      (fun d => d.processing.map (fun r => (r.file_name, r.barcode)) =
        w.db.processing.map (fun r => (r.file_name, r.barcode)))
      cfg f b dryRun fromQueue ?_) rfl (fun _ h => h) (fun _ h => h)
  intro d s hd
  simp only [setProcessingStatus_barcodes]
  exact hd

theorem processingBarcode_of_barcodes (d1 d2 : DB) (f : String)
    (h : d1.processing.map (fun r => (r.file_name, r.barcode)) =
      d2.processing.map (fun r => (r.file_name, r.barcode))) :
    d1.processingBarcode f = d2.processingBarcode f := by
  have key : ∀ rows : List ProcessingRow,
      (lookupProcessing rows f).map (fun r => r.barcode) =
        ((rows.map (fun r => (r.file_name, r.barcode))).find? (fun p => p.1 = f)).map
          (fun p => p.2) := by
    intro rows
    induction rows with
    | nil => rfl
    | cons r rs ih =>
      simp only [lookupProcessing, List.map_cons, List.find?_cons] at ih ⊢
      by_cases hr : r.file_name = f <;> simp [hr, ih]
  simp only [DB.processingBarcode, key, h]

theorem takeCmd_fst (w : World) : (takeCmd w).1 = w.cmds.headD CmdResult.exitError := by
  obtain ⟨db, hist, faults, cmds, s3, trace⟩ := w
  rcases cmds with _ | ⟨c, cs⟩ <;> simp [takeCmd]

theorem FaultFree_take_drop {l : List Fault} (a b : Nat) (h : FaultFree (l.take (a + b))) :
    FaultFree ((l.drop a).take b) := by
  intro f hf
  apply h f
  rw [List.take_add]
  exact List.mem_append_right _ hf

theorem FaultFree_take_le {l : List Fault} (a b : Nat) (h : FaultFree (l.take (a + b))) :
    FaultFree (l.take a) := by
  intro f hf
  apply h f
  rw [List.take_add]
  exact List.mem_append_left _ hf

/-- C27: for an existing user whose file `fileName` is valid, with no fault
in the four reads, and a stored processing status that is neither `running`
nor `NA` (so `new`, `done` or `error`), `Agent.Process` is the call of
`RunProcessing` for `fileName` and the barcode of the call, on the world
after the four reads: no `AddNewProcessingEntry` is called. At the end the
processing table holds the file names and barcodes it held, so no record was
created and the stored barcode of `fileName` is the old one. When also the
two status writes meet no fault and the download, if any, succeeds, the
status goes from the stored one to `running` and on to `done` or `error`: a
file whose processing was `done` is processed again. -/
theorem Agent.Process_reentry (cfg : Config)
    (userID barcode handler fileName s : String) (dryRun fromQueue : Bool) (w : World)
    (hU : userID ∈ w.db.users) (hF : w.db.activeFile userID = some fileName)
    (hV : w.db.fileIsValid fileName = true) (hN : FaultFree (w.faults.take 5))
    (hS : w.db.processingStatus fileName = some s)
    (hR : s ≠ constants.ProcessingStatusRunning) (hNA : s ≠ constants.NA) :
    Agent.Process cfg userID barcode handler dryRun fromQueue w =
      Processor.RunProcessing cfg fileName barcode dryRun fromQueue
        { w with
          faults := w.faults.drop 4
          trace := w.trace ++
            [Event.call "Process"
              [userID, barcode, handler, toString dryRun, toString fromQueue],
             Event.call "CheckUserID" [userID],
             Event.call "GetFileNameForUser" [userID],
             Event.call "CheckIsValid" [fileName],
             Event.call "GetProcessingStatus" [fileName]] } ∧
    (Agent.Process cfg userID barcode handler dryRun fromQueue w).2.db.processing.map
        (fun r => (r.file_name, r.barcode)) =
      w.db.processing.map (fun r => (r.file_name, r.barcode)) ∧
    (Agent.Process cfg userID barcode handler dryRun fromQueue w).2.db.processingBarcode
        fileName = w.db.processingBarcode fileName ∧
    (FaultFree (w.faults.take 6) → (fromQueue = true → (takeS3 w).1 = true) →
      ((Agent.Process cfg userID barcode handler dryRun fromQueue w).2.timeline.drop
          w.hist.length).map (fun db => db.processingStatus fileName) =
        [some s, some constants.ProcessingStatusRunning,
          some (match (takeCmd w).1 with
            | CmdResult.finished _ => constants.ProcessingStatusDone
            | CmdResult.exitError => constants.ProcessingStatusError)]) := by
  have key := Process_present cfg userID barcode handler fileName s dryRun fromQueue w
    hU hF hV hN hS hNA
  rw [if_neg hR] at key
  have hb := RunProcessing_barcodes cfg fileName barcode dryRun fromQueue
    { w with
      faults := w.faults.drop 4
      trace := w.trace ++
        [Event.call "Process"
          [userID, barcode, handler, toString dryRun, toString fromQueue],
         Event.call "CheckUserID" [userID],
         Event.call "GetFileNameForUser" [userID],
         Event.call "CheckIsValid" [fileName],
         Event.call "GetProcessingStatus" [fileName]] }
  refine ⟨key, ?_, ?_, ?_⟩
  · rw [key]
    exact hb
  · rw [key]
    exact processingBarcode_of_barcodes _ _ fileName hb
  · intro hN6 hS3
    rw [key, takeCmd_fst]
    rw [takeS3_fst] at hS3
    have hst := RunProcessing_statuses cfg fileName barcode s dryRun fromQueue
      { w with
        faults := w.faults.drop 4
        trace := w.trace ++
          [Event.call "Process"
            [userID, barcode, handler, toString dryRun, toString fromQueue],
           Event.call "CheckUserID" [userID],
           Event.call "GetFileNameForUser" [userID],
           Event.call "CheckIsValid" [fileName],
           Event.call "GetProcessingStatus" [fileName]] }
      hS (FaultFree_take_drop 4 2 hN6) (by rw [takeS3_fst]; exact hS3)
    rw [takeCmd_fst] at hst
    exact hst

/-- The theorem of C27 at the user `u1` whose valid file `f1` has a
processing record with the status `done` and the barcode `B0`: a call with
the barcode `B1` runs the processing again and leaves `B0` stored. -/
theorem Agent.Process_reentry_witness :
    "u1" ∈ dbDone.users ∧ dbDone.activeFile "u1" = some "f1" ∧
    dbDone.fileIsValid "f1" = true ∧ dbDone.processingStatus "f1" = some "done" ∧
    ((Agent.Process Config.default "u1" "B1" "cli" true false
        (World.init dbDone [] [CmdResult.finished ""] [])).2.timeline.drop 0).map
      (fun db => db.processingStatus "f1") = [some "done", some "running", some "done"] ∧
    (Agent.Process Config.default "u1" "B1" "cli" true false
      (World.init dbDone [] [CmdResult.finished ""] [])).2.db.processingBarcode "f1"
        = some "B0" :=
  ⟨by decide, by decide, by decide, by decide,
    (Agent.Process_reentry Config.default "u1" "B1" "cli" "f1" "done" true false
      (World.init dbDone [] [CmdResult.finished ""] [])
      (by decide) (by decide) (by decide) (by decide) (by decide) (by decide)
      (by decide)).2.2.2 (by decide) (by intro h; exact absurd h (by decide)),
    (Agent.Process_reentry Config.default "u1" "B1" "cli" "f1" "done" true false
      (World.init dbDone [] [CmdResult.finished ""] [])
      (by decide) (by decide) (by decide) (by decide) (by decide) (by decide)
      (by decide)).2.2.1⟩

/-! ## C25 -/

theorem Validate_existing_ensures (cfg : Config) (unmarshal : Unmarshal)
    (u g f2 handler : String) (fromQueue : Bool) (L : List String) (s : Option String)
    (fs : List String) (hne : f2 ≠ g) :
    Op.Ensures (resubmitFrame u g L s fs)
      (Agent.Validate cfg unmarshal u f2 handler false fromQueue)
      (resubmitFrame u g L s [f2]) (resubmitFrame u g L s (f2 :: fs)) := by
  have hw : Op.Ensures (resubmitFrame u g L s (f2 :: fs))
      (Agent.Validate cfg unmarshal u f2 handler false fromQueue)
      (resubmitFrame u g L s [f2]) (resubmitFrame u g L s (f2 :: fs)) := by
    unfold Agent.Validate
    refine Op.ensures_bind (Op.ensures_of_silent (logCall_silent _ _) _) (fun _ => ?_)
    refine Op.ensures_bind (Op.ensures_of_silent ?_ _) (fun userIsNew => ?_)
    · refine Op.Silent.bind_silent (Op.Silent.attempt (CheckUserID_silent _)) (fun r => ?_)
      cases r <;> exact Op.Silent.pure_silent _
    refine @Op.ensures_bind _ _ _ (resubmitFrame u g L s [f2]) _ _ _ _ ?_ (fun _ => ?_)
    · refine Op.ensures_when _ ?_ (fun hc => by simp at hc)
      cases userIsNew with
      | true =>
        refine Op.ensures_bind (AddNewUserID_ensures_known _ u (fun d hd => hd.1))
          (fun _ => Op.ensures_false _ _ _)
      | false =>
        unfold Storage.UpdateUserFilePair
        refine Op.ensures_bind (Op.ensures_of_silent (logCall_silent _ _) _) (fun _ => ?_)
        refine execStmt_ensures _ _ _ _ (fun _ hd => hd) ?_
        intro db db1 hd hs
        split at hs
        · simp at hs
        · simp only [Except.ok.injEq] at hs
          subst hs
          obtain ⟨h1, h2, h3, f, _, h4⟩ := hd
          have h5 : resubmitFrame u g L s [f2]
              { db with files := setFileName db.files u f2 } := by
            refine ⟨h1, h2, h3, f2, by simp, ?_⟩
            simp only [DB.activeFile, lookupFile_setFileName] at h4 ⊢
            rw [h4]
            rfl
          exact ⟨h5, resubmitFrame_mono (by simp) _ h5⟩
    · exact Op.ensures_weaken
        (Validate_rest_ensures cfg unmarshal u g f2 fromQueue userIsNew L s [f2] hne)
        (fun _ hd => hd) (fun _ hd => hd) (fun d hd => resubmitFrame_mono (by simp) d hd)
  exact Op.ensures_weaken hw
    (fun d hd => resubmitFrame_mono (fun f hf => List.mem_cons_of_mem _ hf) d hd)
    (fun _ hd => hd) (fun _ hd => hd)

theorem validationStatus_none_iff (db : DB) (f : String) :
    db.validationStatus f = none ↔ f ∉ db.validation.map (fun r => r.file_name) := by
  simp only [DB.validationStatus, lookupValidation, Option.map_eq_none', List.find?_eq_none,
    List.mem_map, not_exists, not_and, decide_eq_true_eq]

theorem fileIsValid_of_no_record (db : DB) (f : String) (h : db.validationStatus f = none) :
    db.fileIsValid f = false := by
  simp only [DB.validationStatus, lookupValidation, Option.map_eq_none', List.find?_eq_none,
    decide_eq_true_eq] at h
  simp only [DB.fileIsValid, List.any_eq_false, Bool.and_eq_true, decide_eq_true_eq, not_and]
  intro r hr he
  exact absurd he (h r hr)

theorem CheckIsValid_invalid (f : String) (v : World) (hV : v.db.fileIsValid f = false) :
    (∀ a, (Storage.CheckIsValid f v).1 ≠ Res.ok a) ∧
    (FaultFree (v.faults.take 1) →
      (Storage.CheckIsValid f v).1 = Res.fail (Err.NotFound "file is not valid")) := by
  obtain ⟨db, hist, faults, cmds, s3, trace⟩ := v
  simp only at hV
  rcases faults with _ | ⟨_ | _ | _ | ⟨_ | _⟩, rest⟩ <;>
    simp [FaultFree, Storage.CheckIsValid, bind, Op.bind, logCall, queryStmt, takeFault, hV]

theorem Process_invalid (cfg : Config)
    (userID barcode handler fileName : String) (dryRun fromQueue : Bool) (w : World)
    (hU : userID ∈ w.db.users)
    (hF : w.db.activeFile userID = some fileName)
    (hV : w.db.fileIsValid fileName = false) :
    (∃ e, (Agent.Process cfg userID barcode handler dryRun fromQueue w).1 = Res.fail e) ∧
    (FaultFree (w.faults.take 3) →
      (Agent.Process cfg userID barcode handler dryRun fromQueue w).1 =
        Res.fail (Err.NotFound "file is not valid")) ∧
    (Agent.Process cfg userID barcode handler dryRun fromQueue w).2.db = w.db ∧
    (Agent.Process cfg userID barcode handler dryRun fromQueue w).2.trace <+: w.trace ++
      [Event.call "Process" [userID, barcode, handler, toString dryRun, toString fromQueue],
       Event.call "CheckUserID" [userID],
       Event.call "GetFileNameForUser" [userID],
       Event.call "CheckIsValid" [fileName]] := by
  obtain ⟨db, hist, faults, cmds, s3, trace⟩ := w
  simp only at hU hF hV
  rcases faults with _ | ⟨f1, fs⟩
  · simp [FaultFree, Agent.Process, bind, Op.bind, logCall, Storage.CheckUserID,
      Storage.GetFileNameForUser, Storage.CheckIsValid, queryStmt, takeFault, hU, hF, hV]
  cases f1 <;> try (simp [FaultFree, Agent.Process, bind, Op.bind, logCall,
      Storage.CheckUserID, Storage.GetFileNameForUser, Storage.CheckIsValid, queryStmt,
      takeFault, hU, hF, hV]; done)
  rcases fs with _ | ⟨f2, fs⟩
  · simp [FaultFree, Agent.Process, bind, Op.bind, logCall, Storage.CheckUserID,
      Storage.GetFileNameForUser, Storage.CheckIsValid, queryStmt, takeFault, hU, hF, hV]
  cases f2 <;> try (simp [FaultFree, Agent.Process, bind, Op.bind, logCall,
      Storage.CheckUserID, Storage.GetFileNameForUser, Storage.CheckIsValid, queryStmt,
      takeFault, hU, hF, hV]; done)
  rcases fs with _ | ⟨f3, fs⟩
  · simp [FaultFree, Agent.Process, bind, Op.bind, logCall, Storage.CheckUserID,
      Storage.GetFileNameForUser, Storage.CheckIsValid, queryStmt, takeFault, hU, hF, hV]
  cases f3 <;> simp [FaultFree, Agent.Process, bind, Op.bind, logCall, Storage.CheckUserID,
      Storage.GetFileNameForUser, Storage.CheckIsValid, queryStmt, takeFault, hU, hF, hV]

/-- C25: let the user `u` exist with a file association, let `f2` have no
validation record, and let `Agent.Validate` for `u` and `f2` with
`dryRun = false` return a result with a nil error (a passed one or not).
Afterwards `f2` still has no validation record (the validation table holds
the file names it held), `u` is associated with `f2`, and `f2` is not valid.
So in every later world with this database `CheckIsValid` for `f2` returns an
error, and `Agent.Process` for `u` returns an error, leaves the database as it
is and logs nothing beyond the call of `CheckIsValid`: `RunProcessing` is not
called; without storage faults both errors are the not-found error of the
validity check. -/
theorem Agent.Validate_resubmission_gap (cfg : Config) (unmarshal : Unmarshal)
    (u f1 f2 handler : String) (fromQueue : Bool) (w : World) (data : ValidationData)
    (hU : u ∈ w.db.users) (hF : w.db.activeFile u = some f1)
    (hV : w.db.validationStatus f2 = none)
    (hR : (Agent.Validate cfg unmarshal u f2 handler false fromQueue w).1
      = Res.ok (some data)) :
    (Agent.Validate cfg unmarshal u f2 handler false fromQueue w).2.db.validation.map
        (fun r => r.file_name) = w.db.validation.map (fun r => r.file_name) ∧
    (Agent.Validate cfg unmarshal u f2 handler false fromQueue w).2.db.validationStatus f2
      = none ∧
    (Agent.Validate cfg unmarshal u f2 handler false fromQueue w).2.db.activeFile u
      = some f2 ∧
    (Agent.Validate cfg unmarshal u f2 handler false fromQueue w).2.db.fileIsValid f2
      = false ∧
    ∀ v : World,
      v.db = (Agent.Validate cfg unmarshal u f2 handler false fromQueue w).2.db →
      (∀ a, (Storage.CheckIsValid f2 v).1 ≠ Res.ok a) ∧
      (FaultFree (v.faults.take 1) →
        (Storage.CheckIsValid f2 v).1 = Res.fail (Err.NotFound "file is not valid")) ∧
      ∀ (cfg2 : Config) (barcode handler2 : String) (dryRun2 fromQueue2 : Bool),
        (∃ e, (Agent.Process cfg2 u barcode handler2 dryRun2 fromQueue2 v).1 = Res.fail e) ∧
        (FaultFree (v.faults.take 3) →
          (Agent.Process cfg2 u barcode handler2 dryRun2 fromQueue2 v).1 =
            Res.fail (Err.NotFound "file is not valid")) ∧
        (Agent.Process cfg2 u barcode handler2 dryRun2 fromQueue2 v).2.db = v.db ∧
        (Agent.Process cfg2 u barcode handler2 dryRun2 fromQueue2 v).2.trace <+: v.trace ++
          [Event.call "Process"
            [u, barcode, handler2, toString dryRun2, toString fromQueue2],
           Event.call "CheckUserID" [u],
           Event.call "GetFileNameForUser" [u],
           Event.call "CheckIsValid" [f2]] := by
  have hne : f2 ≠ f2 ++ "x" := by
    intro h
    have h2 := congrArg String.length h
    simp only [String.length_append, self_eq_add_right] at h2
    exact absurd h2 (by decide)
  have hpre : resubmitFrame u (f2 ++ "x") (w.db.validation.map (fun r => r.file_name))
      (w.db.validationStatus (f2 ++ "x")) [f1] w.db := ⟨hU, rfl, rfl, f1, by simp, hF⟩
  obtain ⟨h1, _⟩ := Validate_existing_ensures cfg unmarshal u (f2 ++ "x") f2 handler fromQueue
    (w.db.validation.map (fun r => r.file_name)) (w.db.validationStatus (f2 ++ "x")) [f1]
    hne w hpre
  obtain ⟨hU2, hL, _, f, hf, hA⟩ := h1 ⟨some data, hR⟩
  simp only [List.mem_singleton] at hf
  subst hf
  have hV2 : (Agent.Validate cfg unmarshal u f handler false fromQueue w).2.db.validationStatus
      f = none := by
    rw [validationStatus_none_iff, hL, ← validationStatus_none_iff]
    exact hV
  have hI := fileIsValid_of_no_record _ f hV2
  refine ⟨hL, hV2, hA, hI, ?_⟩
  intro v hv
  rw [← hv] at hU2 hA hI
  obtain ⟨c1, c2⟩ := CheckIsValid_invalid f v hI
  exact ⟨c1, c2, fun cfg2 barcode handler2 dryRun2 fromQueue2 =>
    Process_invalid cfg2 u barcode handler2 f dryRun2 fromQueue2 v hU2 hA hI⟩

/-- The theorem of C25 at the user `u1` of `dbValid`, who resubmits with the
file `f2` and gets a passed result. -/
theorem Agent.Validate_resubmission_gap_witness :
    "u1" ∈ dbValid.users ∧ dbValid.activeFile "u1" = some "f1" ∧
    dbValid.validationStatus "f2" = none ∧
    (Agent.Validate Config.default sampleUnmarshal "u1" "f2" "cli" false false
      (World.init dbValid [] [CmdResult.finished "vcf passed"] [])).1
        = Res.ok (some ⟨"vcf", "F", "", true⟩) ∧
    (Agent.Validate Config.default sampleUnmarshal "u1" "f2" "cli" false false
      (World.init dbValid [] [CmdResult.finished "vcf passed"] [])).2.db.fileIsValid "f2"
        = false ∧
    (Agent.Validate Config.default sampleUnmarshal "u1" "f2" "cli" false false
      (World.init dbValid [] [CmdResult.finished "vcf passed"] [])).2.db.activeFile "u1"
        = some "f2" :=
  ⟨by decide, by decide, by decide, by decide,
    (Agent.Validate_resubmission_gap Config.default sampleUnmarshal "u1" "f1" "f2" "cli" false
      (World.init dbValid [] [CmdResult.finished "vcf passed"] []) ⟨"vcf", "F", "", true⟩
      (by decide) (by decide) (by decide) (by decide)).2.2.2.1,
    (Agent.Validate_resubmission_gap Config.default sampleUnmarshal "u1" "f1" "f2" "cli" false
      (World.init dbValid [] [CmdResult.finished "vcf passed"] []) ⟨"vcf", "F", "", true⟩
      (by decide) (by decide) (by decide) (by decide)).2.2.1⟩

/-! ## C22 -/

theorem execDeletes_ok (stmts : List (DB → DB)) :
    ∀ (fs : List Fault) (w : World), FaultFree (fs.take stmts.length) →
      (Storage.execDeletes stmts fs w).1 = Res.ok () ∧
      (Storage.execDeletes stmts fs w).2.timeline =
        w.hist ++ List.scanl (fun d s => s d) w.db stmts ∧
      (Storage.execDeletes stmts fs w).2.db = stmts.foldl (fun d s => s d) w.db := by
  induction stmts with
  | nil =>
    intro fs w _
    simp [Storage.execDeletes, World.timeline]
  | cons s ss ih =>
    intro fs w h
    rcases fs with _ | ⟨f, fs⟩
    · obtain ⟨h1, h2, h3⟩ := ih [] (commit (s w.db) w) (by intro f hf; simp at hf)
      simp only [Storage.execDeletes]
      refine ⟨h1, ?_, ?_⟩
      · rw [h2]
        simp [commit]
      · rw [h3]
        simp [commit]
    · have hf : f = Fault.none := h f (by simp)
      subst hf
      obtain ⟨h1, h2, h3⟩ := ih fs (commit (s w.db) w)
        (by intro f hf; exact h f (by simp [hf]))
      simp only [Storage.execDeletes]
      refine ⟨h1, ?_, ?_⟩
      · rw [h2]
        simp [commit]
      · rw [h3]
        simp [commit]

theorem execDeletes_fail :
    ∀ (k : Nat) (stmts : List (DB → DB)) (fs : List Fault) (w : World),
      k < stmts.length → FaultFree (fs.take k) → fs.get? k = some Fault.exec →
      (Storage.execDeletes stmts fs w).1 = Res.fail (Err.Driver ErrDriver) ∧
      (Storage.execDeletes stmts fs w).2.timeline =
        w.hist ++ List.scanl (fun d s => s d) w.db (stmts.take k) ∧
      (Storage.execDeletes stmts fs w).2.db = (stmts.take k).foldl (fun d s => s d) w.db := by
  intro k
  induction k with
  | zero =>
    intro stmts fs w hk _ hx
    rcases stmts with _ | ⟨s, ss⟩
    · simp at hk
    rcases fs with _ | ⟨f, fs⟩
    · simp at hx
    simp only [List.get?_cons_zero, Option.some.injEq] at hx
    subst hx
    simp [Storage.execDeletes, World.timeline]
  | succ k ih =>
    intro stmts fs w hk hN hx
    rcases stmts with _ | ⟨s, ss⟩
    · simp at hk
    rcases fs with _ | ⟨f, fs⟩
    · simp at hx
    have hf : f = Fault.none := hN f (by simp)
    subst hf
    simp only [List.get?_cons_succ] at hx
    obtain ⟨h1, h2, h3⟩ := ih ss fs (commit (s w.db) w)
      (by simpa using hk) (by intro f hf; exact hN f (by simp [hf])) hx
    simp only [Storage.execDeletes]
    refine ⟨h1, ?_, ?_⟩
    · rw [h2]
      simp [commit]
    · rw [h3]
      simp [commit]

/-- C22: `Storage.RemoveUserData` executes the statements of `removeStmts`
(delete from `users`, `files`, `products` by user, from `validation`,
`processing` by file name) one after the other, each committed on its own.
When none of the five meets a fault the call returns nil, the database went
through the five deletions in this order, and at the end no user, file or
product row of the user and no validation or processing row of the file name
is left. When the statement at position `k` (counted from 0) is failed by the
driver, the statements before it having met no fault and all five having
been prepared, the call returns the error of the driver as it is, the
database went through the first `k` deletions, which stay, and no later
statement is executed. -/
theorem Storage.RemoveUserData_partial (userID fileName : String) (w : World) :
    (FaultFree (w.faults.take 5) →
      (Storage.RemoveUserData userID fileName w).1 = Res.ok () ∧
      (Storage.RemoveUserData userID fileName w).2.timeline =
        w.hist ++ List.scanl (fun d s => s d) w.db (Storage.removeStmts userID fileName) ∧
      userID ∉ (Storage.RemoveUserData userID fileName w).2.db.users ∧
      (∀ r ∈ (Storage.RemoveUserData userID fileName w).2.db.files, r.user_id ≠ userID) ∧
      (∀ r ∈ (Storage.RemoveUserData userID fileName w).2.db.products, r.user_id ≠ userID) ∧
      (∀ r ∈ (Storage.RemoveUserData userID fileName w).2.db.validation,
        r.file_name ≠ fileName) ∧
      (∀ r ∈ (Storage.RemoveUserData userID fileName w).2.db.processing,
        r.file_name ≠ fileName)) ∧
    (∀ k, k < 5 → FaultFree (w.faults.take k) → w.faults.get? k = some Fault.exec →
      Fault.prepare ∉ w.faults.take 5 →
      (Storage.RemoveUserData userID fileName w).1 = Res.fail (Err.Driver ErrDriver) ∧
      (Storage.RemoveUserData userID fileName w).2.timeline =
        w.hist ++ List.scanl (fun d s => s d) w.db
          ((Storage.removeStmts userID fileName).take k) ∧
      (Storage.RemoveUserData userID fileName w).2.db =
        ((Storage.removeStmts userID fileName).take k).foldl (fun d s => s d) w.db) := by
  have hrun : ∀ hp : Fault.prepare ∉ w.faults.take 5,
      Storage.RemoveUserData userID fileName w =
        Storage.execDeletes (Storage.removeStmts userID fileName) (w.faults.take 5)
          { w with
            faults := w.faults.drop 5
            trace := w.trace ++ [Event.call "RemoveUserData" [userID, fileName]] } := by
    intro hp
    simp only [Storage.RemoveUserData, bind, Op.bind, logCall]
    rw [if_neg hp]
  constructor
  · intro hN
    have hp : Fault.prepare ∉ w.faults.take 5 := by
      intro hc
      exact absurd (hN _ hc) (by decide)
    rw [hrun hp]
    obtain ⟨h1, h2, h3⟩ := execDeletes_ok (Storage.removeStmts userID fileName)
      (w.faults.take 5)
      { w with
        faults := w.faults.drop 5
        trace := w.trace ++ [Event.call "RemoveUserData" [userID, fileName]] }
      (by simpa [Storage.removeStmts, List.take_take] using hN)
    refine ⟨h1, h2, ?_⟩
    rw [h3]
    simp [Storage.removeStmts, List.mem_filter]
  · intro k hk hN hx hp
    rw [hrun hp]
    exact execDeletes_fail k (Storage.removeStmts userID fileName) (w.faults.take 5)
      { w with
        faults := w.faults.drop 5
        trace := w.trace ++ [Event.call "RemoveUserData" [userID, fileName]] }
      (by simpa [Storage.removeStmts] using hk)
      (by
        rw [List.take_take, Nat.min_eq_left (Nat.le_of_lt hk)]
        exact hN)
      (by
        rw [List.get?_eq_getElem?, List.getElem?_take_of_lt hk, ← List.get?_eq_getElem?]
        exact hx)

/-- The theorem of C22 at the user `u1` and the file `f1` of `dbDone`, with a
driver that fails the third statement: the rows of `users` and `files` are
gone, the rows of `products`, `validation` and `processing` are still there. -/
theorem Storage.RemoveUserData_partial_witness :
    FaultFree ((World.init dbDone [Fault.none, Fault.none, Fault.exec] [] []).faults.take 2) ∧
    (Storage.RemoveUserData "u1" "f1"
      (World.init dbDone [Fault.none, Fault.none, Fault.exec] [] [])).1
        = Res.fail (Err.Driver ErrDriver) ∧
    (Storage.RemoveUserData "u1" "f1"
      (World.init dbDone [Fault.none, Fault.none, Fault.exec] [] [])).2.db =
      ⟨[], [], [⟨"f1", "valid"⟩], [⟨"f1", "B0", "done"⟩],
        [⟨"u1", "upload_genotek_b2c_array_vcf"⟩]⟩ ∧
    (Storage.RemoveUserData "u1" "f1" (World.init dbDone [] [] [])).2.db = DB.empty :=
  ⟨by decide,
    ((Storage.RemoveUserData_partial "u1" "f1"
      (World.init dbDone [Fault.none, Fault.none, Fault.exec] [] [])).2 2 (by decide)
      (by decide) (by decide) (by decide)).1,
    ((Storage.RemoveUserData_partial "u1" "f1"
      (World.init dbDone [Fault.none, Fault.none, Fault.exec] [] [])).2 2 (by decide)
      (by decide) (by decide) (by decide)).2.2,
    by decide⟩

/-! ## C21 -/

theorem execDeletes_timeout (stmts : List (DB → DB)) :
    ∀ (fs : List Fault) (w : World),
      (Storage.execDeletes stmts fs w).1 = Res.fail Err.ContextTimeoutExceeded →
      ∃ b, Fault.timeout b ∈ fs := by
  induction stmts with
  | nil =>
    intro fs w h
    simp [Storage.execDeletes] at h
  | cons s ss ih =>
    intro fs w h
    rcases fs with _ | ⟨_ | _ | _ | ⟨_ | _⟩, fs⟩
    · simp only [Storage.execDeletes] at h
      obtain ⟨b, hb⟩ := ih _ _ h
      simp at hb
    · simp only [Storage.execDeletes] at h
      obtain ⟨b, hb⟩ := ih _ _ h
      exact ⟨b, List.mem_cons_of_mem _ hb⟩
    · simp only [Storage.execDeletes] at h
      obtain ⟨b, hb⟩ := ih _ _ h
      exact ⟨b, List.mem_cons_of_mem _ hb⟩
    · simp [Storage.execDeletes] at h
    · exact ⟨false, by simp⟩
    · exact ⟨true, by simp⟩

theorem execStmt_meets (stmt : DB → Except Err DB)
    (h : ∀ db, stmt db ≠ Except.error Err.ContextTimeoutExceeded) :
    Op.MeetsDeadline (execStmt stmt) := by
  intro w
  obtain ⟨db, hist, faults, cmds, s3, trace⟩ := w
  have hs := h db
  rcases faults with _ | ⟨_ | _ | _ | ⟨_ | _⟩, fs⟩ <;> cases hstmt : stmt db <;>
    simp_all [Fault.deadlinePassed, execStmt, takeFault, commit]

theorem queryStmt_meets {α : Type} (stmt : DB → Except Err α)
    (h : ∀ db, stmt db ≠ Except.error Err.ContextTimeoutExceeded) :
    Op.MeetsDeadline (queryStmt stmt) := by
  intro w
  obtain ⟨db, hist, faults, cmds, s3, trace⟩ := w
  have hs := h db
  rcases faults with _ | ⟨_ | _ | _ | ⟨_ | _⟩, fs⟩ <;> cases hstmt : stmt db <;>
    simp_all [Fault.deadlinePassed, queryStmt, takeFault]

theorem logged_meets {α : Type} (method : String) (args : List String) {body : Op α}
    (h : Op.MeetsDeadline body) : Op.MeetsDeadline (logCall method args >>= fun _ => body) := by
  intro w
  exact h { w with trace := w.trace ++ [Event.call method args] }

theorem dropped_meets {α : Type} {m : Op α} (h : Op.MeetsDeadline m) :
    Op.MeetsDeadline (m >>= fun _ => (Pure.pure () : Op Unit)) := by
  intro w
  obtain ⟨h1, h2⟩ := h w
  show (_ → ((Op.bind m _ w).1 = _ ∨ (Op.bind m _ w).1 = _) ∧ (Op.bind m _ w).2.db = _ ∧
    (Op.bind m _ w).2.hist = _) ∧ ((Op.bind m _ w).1 = _ → _)
  unfold Op.bind
  rcases hm : m w with ⟨r, w1⟩
  rw [hm] at h1 h2
  cases r <;> simp_all [Pure.pure, Op.pure]

theorem throw_meets {α : Type} : Op.MeetsDeadline (Op.throw Err.InvalidStatus : Op α) := by
  intro w
  simp [Op.throw]

theorem RemoveUserData_meets (userID fileName : String) :
    Op.MeetsDeadline (Storage.RemoveUserData userID fileName) := by
  intro w
  obtain ⟨db, hist, faults, cmds, s3, trace⟩ := w
  constructor
  · intro hd
    rcases faults with _ | ⟨f, fs⟩
    · simp at hd
    simp only [List.head?_cons, Option.some.injEq] at hd
    subst hd
    simp [Storage.RemoveUserData, bind, Op.bind, logCall, Fault.deadlinePassed]
  · intro hr
    simp only [Storage.RemoveUserData, bind, Op.bind, logCall] at hr
    split at hr
    · simp at hr
    · obtain ⟨b, hb⟩ := execDeletes_timeout _ _ _ hr
      exact ⟨b, List.mem_of_mem_take hb⟩

/-- Every method of the storage that takes a context answers a deadline that
has passed with the statement error (or the invalid-status error), leaving
the database as it was, and returns the context timeout error only from its
`select`. -/
theorem operations_meet (userID fileName status barcode productCode : String) :
    ∀ op ∈ Storage.operations userID fileName status barcode productCode,
      Op.MeetsDeadline op := by
  intro op hop
  simp only [Storage.operations, List.mem_cons, List.mem_singleton, List.not_mem_nil,
    or_false] at hop
  rcases hop with h | h | h | h | h | h | h | h | h | h | h | h | h | h | h | h <;> subst h
  · exact RemoveUserData_meets _ _
  · exact dropped_meets (logged_meets _ _ (queryStmt_meets _ (by intro db; simp)))
  · exact logged_meets _ _ (execStmt_meets _ (by intro db; split <;> simp))
  · exact logged_meets _ _ (queryStmt_meets _ (by intro db; dsimp only; split <;> simp))
  · exact logged_meets _ _ (execStmt_meets _ (by intro db; split <;> simp))
  · exact logged_meets _ _ (execStmt_meets _ (by intro db; split <;> simp))
  · exact dropped_meets (logged_meets _ _ (queryStmt_meets _ (by intro db; split <;> simp)))
  · exact logged_meets _ _ (execStmt_meets _ (by intro db; split <;> simp))
  · refine logged_meets _ _ ?_
    split
    · exact throw_meets
    · exact execStmt_meets _ (by intro db; simp)
  · exact logged_meets _ _ (queryStmt_meets _ (by intro db; dsimp only; split <;> simp))
  · exact logged_meets _ _ (execStmt_meets _ (by intro db; split <;> simp))
  · refine logged_meets _ _ ?_
    split
    · exact throw_meets
    · exact execStmt_meets _ (by intro db; simp)
  · exact dropped_meets (logged_meets _ _ (queryStmt_meets _ (by intro db; split <;> simp)))
  · exact logged_meets _ _ (execStmt_meets _ (by intro db; split <;> simp))
  · exact logged_meets _ _ (execStmt_meets _ (by intro db; simp))
  · exact dropped_meets (logged_meets _ _ (queryStmt_meets _ (by intro db; split <;> simp)))

/-- C21: the code at the failing input. `AddNewUserID`,
`UpdateProcessingStatus` and `GetProcessingStatus` are called when the
deadline of their context has passed: each returns the statement error, not
the context timeout error, and the database is as it was. The same calls
return the context timeout error when the context is done after the statement
was prepared, in the case `ctx.Done()` of their `select`. -/
theorem Storage.deadline_passed_returns_statement_error :
    (Storage.AddNewUserID "u2" (World.init dbValid [Fault.deadlinePassed] [] [])).1 =
      Res.fail Err.StatementPSQL ∧
    (Storage.AddNewUserID "u2" (World.init dbValid [Fault.deadlinePassed] [] [])).2.db =
      dbValid ∧
    (Storage.UpdateProcessingStatus "f1" constants.ProcessingStatusRunning
      (World.init dbQueued [Fault.deadlinePassed] [] [])).1 = Res.fail Err.StatementPSQL ∧
    (Storage.UpdateProcessingStatus "f1" constants.ProcessingStatusRunning
      (World.init dbQueued [Fault.deadlinePassed] [] [])).2.db = dbQueued ∧
    (Storage.GetProcessingStatus "f1"
      (World.init dbQueued [Fault.deadlinePassed] [] [])).1 = Res.fail Err.StatementPSQL ∧
    (Storage.AddNewUserID "u2" (World.init dbValid [Fault.timeout false] [] [])).1 =
      Res.fail Err.ContextTimeoutExceeded ∧
    (Storage.UpdateProcessingStatus "f1" constants.ProcessingStatusRunning
      (World.init dbQueued [Fault.timeout false] [] [])).1 =
      Res.fail Err.ContextTimeoutExceeded ∧
    (Storage.GetProcessingStatus "f1"
      (World.init dbQueued [Fault.timeout false] [] [])).1 =
      Res.fail Err.ContextTimeoutExceeded := by
  decide

/-! ## C23 -/

theorem advance_ok {α : Type} (c : ProcessCall) (r : Res α × World) (next : α → ProcessPc)
    (a : α) (h : r.1 = Res.ok a) : c.advance r next = ({ c with pc := next a }, r.2) := by
  obtain ⟨x, w1⟩ := r
  simp only at h
  subst h
  rfl

theorem advance_fail {α : Type} (c : ProcessCall) (r : Res α × World) (next : α → ProcessPc)
    (e : Err) (h : r.1 = Res.fail e) :
    c.advance r next = ({ c with pc := ProcessPc.returned (Res.fail e) }, r.2) := by
  obtain ⟨x, w1⟩ := r
  simp only at h
  subst h
  rfl

theorem advance_panic {α : Type} (c : ProcessCall) (r : Res α × World) (next : α → ProcessPc)
    (h : r.1 = Res.panic) :
    c.advance r next = ({ c with pc := ProcessPc.returned Res.panic }, r.2) := by
  obtain ⟨x, w1⟩ := r
  simp only at h
  subst h
  rfl

theorem runAlone_returned (cfg : Config) (n : Nat) (c : ProcessCall) (w : World) (r : Res Unit)
    (h : c.pc = ProcessPc.returned r) : ProcessCall.runAlone cfg n c w = (c, w) := by
  induction n with
  | zero => rfl
  | succ n ih =>
    have hs : c.step cfg w = (c, w) := by
      obtain ⟨u, b, hd, d, q, pc⟩ := c
      simp only at h
      subst h
      rfl
    simp only [ProcessCall.runAlone, hs]
    exact ih

theorem Op.bind_of_fail {α β : Type} {m : Op α} {f : α → Op β} {w : World} {e : Err}
    (h : (m w).1 = Res.fail e) : (m >>= f) w = (Res.fail e, (m w).2) := by
  show Op.bind m f w = _
  unfold Op.bind
  rcases hm : m w with ⟨r, w1⟩
  rw [hm] at h
  simp only at h
  subst h
  rfl

theorem Op.bind_of_panic {α β : Type} {m : Op α} {f : α → Op β} {w : World}
    (h : (m w).1 = Res.panic) : (m >>= f) w = (Res.panic, (m w).2) := by
  show Op.bind m f w = _
  unfold Op.bind
  rcases hm : m w with ⟨r, w1⟩
  rw [hm] at h
  simp only at h
  subst h
  rfl

theorem runAlone_stage {α : Type} (cfg : Config) (n : Nat) (c : ProcessCall) (w : World)
    (m : Op α) (next : α → ProcessPc) (k : α → Op Unit)
    (hstep : c.step cfg w = c.advance (m w) next)
    (hrest : ∀ a w1, ProcessCall.runAlone cfg n { c with pc := next a } w1 =
      ({ c with pc := ProcessPc.returned (k a w1).1 }, (k a w1).2)) :
    ProcessCall.runAlone cfg (n + 1) c w =
      ({ c with pc := ProcessPc.returned ((m >>= k) w).1 }, ((m >>= k) w).2) := by
  simp only [ProcessCall.runAlone, hstep]
  cases hr : (m w).1 with
  | ok a =>
    rw [advance_ok c (m w) next a hr, Op.bind_of_fst hr]
    exact hrest a _
  | fail e =>
    rw [advance_fail c (m w) next e hr, Op.bind_of_fail hr]
    exact runAlone_returned cfg n _ _ (Res.fail e) rfl
  | panic =>
    rw [advance_panic c (m w) next hr, Op.bind_of_panic hr]
    exact runAlone_returned cfg n _ _ Res.panic rfl

theorem runAlone_upload (cfg : Config) (u b h : String) (d q : Bool) (n : Nat) (w : World) :
    ProcessCall.runAlone cfg (n + 1) ⟨u, b, h, d, q, ProcessPc.upload⟩ w =
      (⟨u, b, h, d, q, ProcessPc.returned (Processor.uploadData cfg b w).1⟩,
        (Processor.uploadData cfg b w).2) := by
  have hs := runAlone_stage cfg n ⟨u, b, h, d, q, ProcessPc.upload⟩ w
    (Processor.uploadData cfg b) (fun _ => ProcessPc.returned (Res.ok ()))
    (fun _ => (Pure.pure () : Op Unit)) rfl
    (fun a w1 => runAlone_returned cfg n _ _ (Res.ok ()) rfl)
  rw [hs]
  have he : (Processor.uploadData cfg b >>= fun _ => (Pure.pure () : Op Unit)) w =
      Processor.uploadData cfg b w := by
    show Op.bind _ _ w = _
    unfold Op.bind
    rcases hm : Processor.uploadData cfg b w with ⟨r, w1⟩
    cases r <;> rfl
  rw [he]

theorem runAlone_runProcessing (cfg : Config) (u b h f : String) (d q : Bool) (n : Nat)
    (w : World) :
    ProcessCall.runAlone cfg (n + 5) ⟨u, b, h, d, q, ProcessPc.runProcessing f⟩ w =
      (⟨u, b, h, d, q, ProcessPc.returned (Processor.RunProcessing cfg f b d q w).1⟩,
        (Processor.RunProcessing cfg f b d q w).2) := by
  have hs := runAlone_stage cfg (n + 4) ⟨u, b, h, d, q, ProcessPc.runProcessing f⟩ w
    (logCall "RunProcessing" [f, b, toString d, toString q] >>= fun _ =>
      Op.when q (S3.DownloadFile f))
    (fun _ => ProcessPc.setRunning f)
    (fun _ => Storage.UpdateProcessingStatus f constants.ProcessingStatusRunning >>= fun _ =>
      cmdRun cfg.DockerExecutable
        [cfg.DockerExecutable, "run", "--rm", "-v", cfg.MountDir ++ ":/mnt",
          cfg.DockerImageName, "main.py", "process", "--input", f, "--barcode", b] >>= fun r =>
      match r with
      | CmdResult.exitError =>
        Storage.UpdateProcessingStatus f constants.ProcessingStatusError >>= fun _ =>
          (Pure.pure () : Op Unit)
      | CmdResult.finished _ =>
        Storage.UpdateProcessingStatus f constants.ProcessingStatusDone >>= fun _ =>
          Op.when (!d) (Processor.uploadData cfg b))
    rfl ?_
  · exact hs
  intro _ w1
  refine runAlone_stage cfg (n + 3) ⟨u, b, h, d, q, ProcessPc.setRunning f⟩ w1 _
    (fun _ => ProcessPc.external f) _ rfl ?_
  intro _ w2
  refine runAlone_stage cfg (n + 2) ⟨u, b, h, d, q, ProcessPc.external f⟩ w2 _
    (fun r => ProcessPc.setFinal f r) _ rfl ?_
  intro r w3
  cases r with
  | exitError =>
    exact runAlone_stage cfg (n + 1) ⟨u, b, h, d, q, ProcessPc.setFinal f CmdResult.exitError⟩
      w3 _ (fun _ => ProcessPc.returned (Res.ok ())) _ rfl
      (fun _ w4 => runAlone_returned cfg (n + 1) _ _ (Res.ok ()) rfl)
  | finished out =>
    refine runAlone_stage cfg (n + 1)
      ⟨u, b, h, d, q, ProcessPc.setFinal f (CmdResult.finished out)⟩
      w3 _ (fun _ => if d then ProcessPc.returned (Res.ok ()) else ProcessPc.upload) _ rfl ?_
    intro _ w4
    cases d with
    | true => exact runAlone_returned cfg (n + 1) _ _ (Res.ok ()) rfl
    | false => exact runAlone_upload cfg u b h false q n w4

/-- A call of `Agent.Process` that takes its steps one after the other, with
no other call in between, is the call of `Agent.Process`. -/
theorem runAlone_eq_Process (cfg : Config) (userID barcode handler : String)
    (dryRun fromQueue : Bool) (w : World) :
    ProcessCall.runAlone cfg 10
        ⟨userID, barcode, handler, dryRun, fromQueue, ProcessPc.checkUser⟩ w =
      (⟨userID, barcode, handler, dryRun, fromQueue,
          ProcessPc.returned (Agent.Process cfg userID barcode handler dryRun fromQueue w).1⟩,
        (Agent.Process cfg userID barcode handler dryRun fromQueue w).2) := by
  have hs := runAlone_stage cfg 9
    ⟨userID, barcode, handler, dryRun, fromQueue, ProcessPc.checkUser⟩ w
    (logCall "Process" [userID, barcode, handler, toString dryRun, toString fromQueue] >>=
      fun _ => Storage.CheckUserID userID)
    (fun _ => ProcessPc.getFile)
    (fun _ => Storage.GetFileNameForUser userID >>= fun fileName =>
      Storage.CheckIsValid fileName >>= fun _ =>
      Storage.GetProcessingStatus fileName >>= fun status =>
      if status = constants.ProcessingStatusRunning then Op.throw Err.ProcessingBlocked
      else
        Op.when (status = constants.NA) (Storage.AddNewProcessingEntry fileName barcode) >>=
          fun _ => Processor.RunProcessing cfg fileName barcode dryRun fromQueue)
    rfl ?_
  · exact hs
  intro _ w1
  refine runAlone_stage cfg 8
    ⟨userID, barcode, handler, dryRun, fromQueue, ProcessPc.getFile⟩ w1 _
    (fun fileName => ProcessPc.checkValid fileName) _ rfl ?_
  intro fileName w2
  refine runAlone_stage cfg 7
    ⟨userID, barcode, handler, dryRun, fromQueue, ProcessPc.checkValid fileName⟩ w2 _
    (fun _ => ProcessPc.getStatus fileName) _ rfl ?_
  intro _ w3
  refine runAlone_stage cfg 6
    ⟨userID, barcode, handler, dryRun, fromQueue, ProcessPc.getStatus fileName⟩ w3 _
    (fun status =>
      if status = constants.ProcessingStatusRunning then
        ProcessPc.returned (Res.fail Err.ProcessingBlocked)
      else if status = constants.NA then ProcessPc.addEntry fileName
      else ProcessPc.runProcessing fileName) _ rfl ?_
  intro status w4
  by_cases h1 : status = constants.ProcessingStatusRunning
  · simp only [h1, if_true]
    exact runAlone_returned cfg 6 _ _ (Res.fail Err.ProcessingBlocked) rfl
  simp only [if_neg h1]
  by_cases h2 : status = constants.NA
  · simp only [h2, if_true, decide_True, Op.when]
    refine runAlone_stage cfg 5
      ⟨userID, barcode, handler, dryRun, fromQueue, ProcessPc.addEntry fileName⟩ w4 _
      (fun _ => ProcessPc.runProcessing fileName) _ rfl ?_
    intro _ w5
    exact runAlone_runProcessing cfg userID barcode handler fileName dryRun fromQueue 0 w5
  · simp only [if_neg h2]
    have he : (Op.when (decide (status = constants.NA))
          (Storage.AddNewProcessingEntry fileName barcode) >>=
        fun _ => Processor.RunProcessing cfg fileName barcode dryRun fromQueue) w4 =
        Processor.RunProcessing cfg fileName barcode dryRun fromQueue w4 := by
      simp only [h2, decide_False]
      rfl
    rw [he]
    exact runAlone_runProcessing cfg userID barcode handler fileName dryRun fromQueue 1 w4

theorem step_returned (cfg : Config) (c : ProcessCall) (w : World) (r : Res Unit)
    (h : c.pc = ProcessPc.returned r) : c.step cfg w = (c, w) := by
  obtain ⟨u, b, hd, d, q, pc⟩ := c
  simp only at h
  subst h
  rfl

theorem System.step_keeps_returned (cfg : Config) (s : System) (i j : Nat) (c : ProcessCall)
    (r : Res Unit) (hc : s.calls.get? i = some c) (hr : c.pc = ProcessPc.returned r) :
    (s.step cfg j).calls.get? i = some c := by
  unfold System.step
  cases hj : s.calls.get? j with
  | none => exact hc
  | some cj =>
    simp only
    by_cases hij : j = i
    · subst hij
      rw [hc] at hj
      simp only [Option.some.injEq] at hj
      subst hj
      rw [step_returned cfg c s.world r hr]
      simp only [List.get?_eq_getElem?] at hc ⊢
      rw [List.getElem?_set_self']
      simp [hc]
    · simp only [List.get?_eq_getElem?] at hc ⊢
      rw [List.getElem?_set_ne hij]
      exact hc

theorem System.run_keeps_returned (cfg : Config) (schedule : List Nat) :
    ∀ (s : System) (i : Nat) (c : ProcessCall) (r : Res Unit),
      s.calls.get? i = some c → c.pc = ProcessPc.returned r →
      (s.run cfg schedule).calls.get? i = some c := by
  induction schedule with
  | nil =>
    intro s i c r hc _
    exact hc
  | cons j rest ih =>
    intro s i c r hc hr
    exact ih (s.step cfg j) i c r (System.step_keeps_returned cfg s i j c r hc hr) hr

/-- C23 as stated fails: two calls of `Agent.Process` for the user `u1`,
whose file `f1` was processed before. Both read the status `done` before
either writes. After the first has written `running` and is executing the
subprocess, the second writes `running` too and executes the subprocess at
the same time. -/
theorem two_calls_execute_at_once :
    (System.run Config.default
        ⟨World.init dbDone [] [] [],
          [⟨"u1", "B1", "cli", true, false, ProcessPc.checkUser⟩,
           ⟨"u1", "B2", "cli", true, false, ProcessPc.checkUser⟩]⟩
        [0, 0, 0, 0, 1, 1, 1, 1, 0, 0]).world.db.processingStatus "f1" = some "running" ∧
    ((System.run Config.default
        ⟨World.init dbDone [] [] [],
          [⟨"u1", "B1", "cli", true, false, ProcessPc.checkUser⟩,
           ⟨"u1", "B2", "cli", true, false, ProcessPc.checkUser⟩]⟩
        [0, 0, 0, 0, 1, 1, 1, 1, 0, 0]).executing "f1").length = 1 ∧
    ((System.run Config.default
        ⟨World.init dbDone [] [] [],
          [⟨"u1", "B1", "cli", true, false, ProcessPc.checkUser⟩,
           ⟨"u1", "B2", "cli", true, false, ProcessPc.checkUser⟩]⟩
        [0, 0, 0, 0, 1, 1, 1, 1, 0, 0, 1, 1]).executing "f1").length = 2 := by
  refine ⟨?_, ?_, ?_⟩ <;> decide

/-- C23, amended: a call of `Agent.Process` whose read of the processing
status returns `running` does not execute the subprocess, whatever the other
calls do and in whatever order the calls take their steps afterwards: the
read leaves the database as it is, the call returns the processing-blocked
error, and it stays returned. -/
theorem System.blocked_when_read_running (cfg : Config) (s : System) (i : Nat)
    (c : ProcessCall) (f : String) (schedule : List Nat)
    (hc : s.calls.get? i = some c) (hpc : c.pc = ProcessPc.getStatus f)
    (hst : s.world.db.processingStatus f = some constants.ProcessingStatusRunning)
    (hN : FaultFree (s.world.faults.take 1)) :
    (s.step cfg i).world.db = s.world.db ∧
    ((s.step cfg i).run cfg schedule).calls.get? i =
      some { c with pc := ProcessPc.returned (Res.fail Err.ProcessingBlocked) } ∧
    ∀ g, { c with pc := ProcessPc.returned (Res.fail Err.ProcessingBlocked) } ∉
      ((s.step cfg i).run cfg schedule).executing g := by
  obtain ⟨u, b, hd, d, q, pc⟩ := c
  simp only at hpc
  subst hpc
  obtain ⟨⟨db, hist, faults, cmds, s3, trace⟩, calls⟩ := s
  simp only at hc hst hN
  have hstep : (ProcessCall.step cfg ⟨u, b, hd, d, q, ProcessPc.getStatus f⟩
      ⟨db, hist, faults, cmds, s3, trace⟩).1 =
        ⟨u, b, hd, d, q, ProcessPc.returned (Res.fail Err.ProcessingBlocked)⟩ ∧
      (ProcessCall.step cfg ⟨u, b, hd, d, q, ProcessPc.getStatus f⟩
        ⟨db, hist, faults, cmds, s3, trace⟩).2.db = db := by
    rcases faults with _ | ⟨x, fs⟩
    · simp [ProcessCall.step, ProcessCall.advance, Storage.GetProcessingStatus, bind, Op.bind,
        logCall, queryStmt, takeFault, hst]
    · have hx : x = Fault.none := hN x (by simp)
      subst hx
      simp [ProcessCall.step, ProcessCall.advance, Storage.GetProcessingStatus, bind, Op.bind,
        logCall, queryStmt, takeFault, hst]
  have hget : (System.step cfg ⟨⟨db, hist, faults, cmds, s3, trace⟩, calls⟩ i).calls.get? i =
      some ⟨u, b, hd, d, q, ProcessPc.returned (Res.fail Err.ProcessingBlocked)⟩ := by
    simp only [System.step, hc, hstep.1]
    simp only [List.get?_eq_getElem?] at hc ⊢
    rw [List.getElem?_set_self']
    simp [hc]
  refine ⟨?_, ?_, ?_⟩
  · simp only [System.step, hc]
    exact hstep.2
  · exact System.run_keeps_returned cfg schedule _ i _ _ hget rfl
  · intro g hg
    simp [System.executing] at hg

/-- The theorem of C23 at two calls for the user `u1`: the first is executing
the subprocess for `f1` when the second reads the status. -/
theorem System.blocked_when_read_running_witness :
    ((System.run Config.default
        ⟨World.init dbDone [] [] [],
          [⟨"u1", "B1", "cli", true, false, ProcessPc.checkUser⟩,
           ⟨"u1", "B2", "cli", true, false, ProcessPc.checkUser⟩]⟩
        [0, 0, 0, 0, 0, 0, 1, 1, 1]).executing "f1").length = 1 ∧
    ((System.run Config.default
        ⟨World.init dbDone [] [] [],
          [⟨"u1", "B1", "cli", true, false, ProcessPc.checkUser⟩,
           ⟨"u1", "B2", "cli", true, false, ProcessPc.checkUser⟩]⟩
        [0, 0, 0, 0, 0, 0, 1, 1, 1]).step Config.default 1).calls.get? 1 =
      some ⟨"u1", "B2", "cli", true, false,
        ProcessPc.returned (Res.fail Err.ProcessingBlocked)⟩ :=
  ⟨by decide,
    (System.blocked_when_read_running Config.default
      (System.run Config.default
        ⟨World.init dbDone [] [] [],
          [⟨"u1", "B1", "cli", true, false, ProcessPc.checkUser⟩,
           ⟨"u1", "B2", "cli", true, false, ProcessPc.checkUser⟩]⟩
        [0, 0, 0, 0, 0, 0, 1, 1, 1])
      1 ⟨"u1", "B2", "cli", true, false, ProcessPc.getStatus "f1"⟩ "f1" []
      (by decide) rfl (by decide) (by decide)).2.1⟩

/-! ## The listener on a broker that accepts every call -/

theorem Ack_healthy (delivery : Delivery) (b : Bus) (h : b.healthy) :
    (AMQP.Ack delivery b).1 = true ∧
    (AMQP.Ack delivery b).2.log = b.log ++ [BusEvent.ack delivery] ∧
    (AMQP.Ack delivery b).2.healthy := by
  obtain ⟨acks, pubs, log⟩ := b
  obtain ⟨h1, h2⟩ := h
  rcases acks with _ | ⟨a, rest⟩
  · exact ⟨rfl, rfl, h1, h2⟩
  · have ha : a = true := h1 a (by simp)
    subst ha
    exact ⟨rfl, rfl, fun x hx => h1 x (List.mem_cons_of_mem _ hx), h2⟩

theorem PublishToExchange_healthy (exchange : String) (msg : Publishing) (b : Bus)
    (h : b.healthy) :
    (AMQP.PublishToExchange exchange msg b).1 = none ∧
    (AMQP.PublishToExchange exchange msg b).2.log = b.log ++ [BusEvent.publish exchange msg] ∧
    (AMQP.PublishToExchange exchange msg b).2.healthy := by
  obtain ⟨acks, pubs, log⟩ := b
  obtain ⟨h1, h2⟩ := h
  rcases pubs with _ | ⟨a, rest⟩
  · exact ⟨rfl, rfl, h1, h2⟩
  · have ha : a = true := h2 a (by simp)
    subst ha
    exact ⟨rfl, rfl, h1, fun x hx => h2 x (List.mem_cons_of_mem _ hx)⟩

theorem sendStatus_healthy (marshal : Rsp → Except Unit String)
    (exchangeNameOut runType userID fileName : String) (status : Bool) (b : Bus)
    (serialized : String)
    (hM : marshal ⟨userID, fileName, runType, status⟩ = Except.ok serialized)
    (h : b.healthy) :
    (AMQP.sendStatus marshal exchangeNameOut runType userID fileName status b).1 = AMQP.Turn.next ∧
    (AMQP.sendStatus marshal exchangeNameOut runType userID fileName status b).2.log =
      b.log ++ [BusEvent.publish exchangeNameOut ⟨"application/json", [], serialized⟩] ∧
    (AMQP.sendStatus marshal exchangeNameOut runType userID fileName status b).2.healthy := by
  obtain ⟨p1, p2, p3⟩ := PublishToExchange_healthy exchangeNameOut
    ⟨"application/json", [], serialized⟩ b h
  simp only [AMQP.sendStatus, hM]
  rcases hp : AMQP.PublishToExchange exchangeNameOut ⟨"application/json", [], serialized⟩ b
    with ⟨e, b1⟩
  rw [hp] at p1 p2 p3
  simp only at p1 p2 p3
  subst p1
  exact ⟨rfl, p2, p3⟩

theorem consumeDelivery_healthy (marshal : Rsp → Except Unit String)
    (republish : Bool) (exchangeName exchangeNameOut runType : String)
    (fn : Delivery → World → Option HandlerResult × World)
    (delivery : Delivery) (w w1 : World) (b : Bus) (r : HandlerResult)
    (hfn : fn delivery w = (some r, w1))
    (hM : ∀ msg, ∃ serialized, marshal msg = Except.ok serialized)
    (h : b.healthy) :
    (AMQP.consumeDelivery marshal republish exchangeName exchangeNameOut runType fn
      delivery (w, b)).1 = AMQP.Turn.next ∧
    (AMQP.consumeDelivery marshal republish exchangeName exchangeNameOut runType fn
      delivery (w, b)).2.1 = w1 ∧
    (AMQP.consumeDelivery marshal republish exchangeName exchangeNameOut runType fn
      delivery (w, b)).2.2.log =
      b.log ++ AMQP.claimedEvents marshal republish exchangeName exchangeNameOut runType
        (delivery, r) ∧
    (AMQP.consumeDelivery marshal republish exchangeName exchangeNameOut runType fn
      delivery (w, b)).2.2.healthy := by
  obtain ⟨serialized, hs⟩ := hM ⟨r.userID, r.fileName, runType, r.success⟩
  obtain ⟨a1, a2, a3⟩ := Ack_healthy delivery b h
  rcases ha : AMQP.Ack delivery b with ⟨ok, b1⟩
  rw [ha] at a1 a2 a3
  simp only at a1 a2 a3
  subst a1
  obtain ⟨r1, r2, r3⟩ := PublishToExchange_healthy exchangeName
    ⟨delivery.ContentType, delivery.Headers, delivery.Body⟩ b1 a3
  rcases hr : AMQP.PublishToExchange exchangeName
    ⟨delivery.ContentType, delivery.Headers, delivery.Body⟩ b1 with ⟨e, b2⟩
  rw [hr] at r1 r2 r3
  simp only at r1 r2 r3
  subst r1
  obtain ⟨s1, s2, s3⟩ := sendStatus_healthy marshal exchangeNameOut runType r.userID r.fileName
    r.success b1 serialized hs a3
  obtain ⟨t1, t2, t3⟩ := sendStatus_healthy marshal exchangeNameOut runType r.userID r.fileName
    r.success b2 serialized hs r3
  cases he : r.err <;> cases republish <;>
    simp [AMQP.consumeDelivery, AMQP.claimedEvents, hfn, he, ha, hr, hs, s1, s2, s3, t1, t2, t3,
      a2, r2]

theorem consumeAll_healthy (marshal : Rsp → Except Unit String)
    (republish : Bool) (exchangeName exchangeNameOut runType : String)
    (fn : Delivery → World → Option HandlerResult × World)
    (hM : ∀ msg, ∃ serialized, marshal msg = Except.ok serialized)
    (deliveries : List Delivery) :
    ∀ (w : World) (b : Bus), b.healthy →
      (AMQP.handlerResults fn deliveries w).length = deliveries.length →
      (AMQP.consumeAll marshal republish exchangeName exchangeNameOut runType fn
        deliveries (w, b)).1 = Res.ok () ∧
      (AMQP.consumeAll marshal republish exchangeName exchangeNameOut runType fn
        deliveries (w, b)).2.2.log =
        b.log ++ (AMQP.handlerResults fn deliveries w).flatMap
          (AMQP.claimedEvents marshal republish exchangeName exchangeNameOut runType) ∧
      (AMQP.handlerResults fn deliveries w).map (fun p => p.1) = deliveries := by
  induction deliveries with
  | nil =>
    intro w b _ _
    simp [AMQP.consumeAll, AMQP.handlerResults]
  | cons d rest ih =>
    intro w b hb hlen
    rcases hf : fn d w with ⟨_ | r, w1⟩
    · simp [AMQP.handlerResults, hf] at hlen
    · simp only [AMQP.handlerResults, hf, List.length_cons, Nat.add_right_cancel_iff] at hlen
      obtain ⟨c1, c2, c3, c4⟩ := consumeDelivery_healthy marshal republish exchangeName
        exchangeNameOut runType fn d w w1 b r hf hM hb
      rcases hc : AMQP.consumeDelivery marshal republish exchangeName exchangeNameOut runType
        fn d (w, b) with ⟨t, ⟨w2, b2⟩⟩
      rw [hc] at c1 c2 c3 c4
      simp only at c1 c2 c3 c4
      subst c1 c2
      obtain ⟨i1, i2, i3⟩ := ih w2 b2 c4 hlen
      simp only [AMQP.consumeAll, hc, AMQP.handlerResults, hf, List.flatMap_cons, List.map_cons]
      refine ⟨i1, ?_, ?_⟩
      · rw [i2, c3, List.append_assoc]
      · rw [i3]

/-! ## C18 -/

/-- C18: on a broker that accepts every acknowledgement and every
publishing, with a `json.Marshal` that accepts the status message and a
handler none of whose calls in the run panics,
`AddInterpretationQueueListener` handles every delivery of the channel and
its goroutine ends without an error; what it asks of the broker is, delivery
after delivery in the order of the channel, exactly this: one acknowledgement
of the delivery, the delivery again to the input exchange (only when the
handler returned an error and `republish` is set), and one publishing to the
output exchange of the serialized `Rsp` built from the user, the file name
and the status the handler returned and from `runType`; whether the handler
returned an error changes neither the acknowledgement nor the notification.
The two listeners that `Handle` registers do so with their handler, with the
exchanges of their domain, with `processing` and `validation` as the type of
the notification, and without republishing. -/
theorem AMQP.AddInterpretationQueueListener_acks_and_notifies
    (marshal : Rsp → Except Unit String) (deliveries : List Delivery) (s : World × Bus)
    (hM : ∀ msg, ∃ serialized, marshal msg = Except.ok serialized)
    (hB : s.2.healthy) :
    (∀ (republish : Bool) (exchangeName exchangeNameOut runType : String)
        (fn : Delivery → World → Option HandlerResult × World),
      (AMQP.handlerResults fn deliveries s.1).length = deliveries.length →
      (AMQP.AddInterpretationQueueListener marshal republish exchangeName exchangeNameOut
        runType fn (some deliveries) s).1 = Res.ok () ∧
      (AMQP.AddInterpretationQueueListener marshal republish exchangeName exchangeNameOut
        runType fn (some deliveries) s).2.2.log =
        s.2.log ++ (AMQP.handlerResults fn deliveries s.1).flatMap
          (AMQP.claimedEvents marshal republish exchangeName exchangeNameOut runType) ∧
      (AMQP.handlerResults fn deliveries s.1).map (fun p => p.1) = deliveries) ∧
    (∀ (cfg : Config) (amqpCfg : Config.AMQP) (unmarshalMsg : String → Option MsgProcess),
      (AMQP.handlerResults
        (fun d w => AMQPHandler.handleProcessingQueue cfg unmarshalMsg d.Body w)
        deliveries s.1).length = deliveries.length →
      (AMQPHandler.processingListener cfg amqpCfg unmarshalMsg marshal
        (some deliveries) s).1 = Res.ok () ∧
      (AMQPHandler.processingListener cfg amqpCfg unmarshalMsg marshal
        (some deliveries) s).2.2.log =
        s.2.log ++ (AMQP.handlerResults
          (fun d w => AMQPHandler.handleProcessingQueue cfg unmarshalMsg d.Body w)
          deliveries s.1).flatMap
          (AMQP.claimedEvents marshal false amqpCfg.ProcessingExchangeInputName
            amqpCfg.ProcessingExchangeOutputName "processing") ∧
      (AMQP.handlerResults
        (fun d w => AMQPHandler.handleProcessingQueue cfg unmarshalMsg d.Body w)
        deliveries s.1).map (fun p => p.1) = deliveries) ∧
    (∀ (cfg : Config) (amqpCfg : Config.AMQP) (unmarshal : Unmarshal)
        (unmarshalMsg : String → Option MsgValidate),
      (AMQP.handlerResults
        (fun d w => AMQPHandler.handleValidationQueue cfg unmarshal unmarshalMsg d.Body w)
        deliveries s.1).length = deliveries.length →
      (AMQPHandler.validationListener cfg amqpCfg unmarshal unmarshalMsg marshal
        (some deliveries) s).1 = Res.ok () ∧
      (AMQPHandler.validationListener cfg amqpCfg unmarshal unmarshalMsg marshal
        (some deliveries) s).2.2.log =
        s.2.log ++ (AMQP.handlerResults
          (fun d w => AMQPHandler.handleValidationQueue cfg unmarshal unmarshalMsg d.Body w)
          deliveries s.1).flatMap
          (AMQP.claimedEvents marshal false amqpCfg.ValidationExchangeInputName
            amqpCfg.ValidationExchangeOutputName "validation") ∧
      (AMQP.handlerResults
        (fun d w => AMQPHandler.handleValidationQueue cfg unmarshal unmarshalMsg d.Body w)
        deliveries s.1).map (fun p => p.1) = deliveries) := by
  obtain ⟨w, b⟩ := s
  refine ⟨?_, ?_, ?_⟩
  · intro republish exchangeName exchangeNameOut runType fn hlen
    exact consumeAll_healthy marshal republish exchangeName exchangeNameOut runType fn hM
      deliveries w b hB hlen
  · intro cfg amqpCfg unmarshalMsg hlen
    exact consumeAll_healthy marshal false amqpCfg.ProcessingExchangeInputName
      amqpCfg.ProcessingExchangeOutputName "processing"
      (fun d w => AMQPHandler.handleProcessingQueue cfg unmarshalMsg d.Body w) hM
      deliveries w b hB hlen
  · intro cfg amqpCfg unmarshal unmarshalMsg hlen
    exact consumeAll_healthy marshal false amqpCfg.ValidationExchangeInputName
      amqpCfg.ValidationExchangeOutputName "validation"
      (fun d w => AMQPHandler.handleValidationQueue cfg unmarshal unmarshalMsg d.Body w) hM
      deliveries w b hB hlen

/-- The theorem of C18 at the listener of the processing queue, on two
messages of the unknown user `u2` (the handler returns an error for both) and
a broker that accepts what it is asked: both deliveries are acknowledged once
and followed by one notification to the output exchange. -/
theorem AMQP.AddInterpretationQueueListener_acks_and_notifies_witness :
    (⟨[true, true], [true], []⟩ : Bus).healthy ∧
    (AMQP.handlerResults
      (fun d w => AMQPHandler.handleProcessingQueue Config.default sampleUnmarshalMsg d.Body w)
      [sampleDelivery, sampleDelivery] (World.init dbValid [] [] [])).length = 2 ∧
    (AMQPHandler.processingListener Config.default
      { Config.AMQP.default with ProcessingExchangeOutputName := "processing_exchange_output" }
      sampleUnmarshalMsg sampleMarshal (some [sampleDelivery, sampleDelivery])
      (World.init dbValid [] [] [], ⟨[true, true], [true], []⟩)).1 = Res.ok () ∧
    (AMQPHandler.processingListener Config.default
      { Config.AMQP.default with ProcessingExchangeOutputName := "processing_exchange_output" }
      sampleUnmarshalMsg sampleMarshal (some [sampleDelivery, sampleDelivery])
      (World.init dbValid [] [] [], ⟨[true, true], [true], []⟩)).2.2.log =
      [BusEvent.ack sampleDelivery,
       BusEvent.publish "processing_exchange_output" ⟨"application/json", [], "not ready"⟩,
       BusEvent.ack sampleDelivery,
       BusEvent.publish "processing_exchange_output" ⟨"application/json", [], "not ready"⟩] :=
  ⟨by decide, by decide,
    ((AMQP.AddInterpretationQueueListener_acks_and_notifies sampleMarshal
      [sampleDelivery, sampleDelivery]
      (World.init dbValid [] [] [], ⟨[true, true], [true], []⟩)
      (fun _ => ⟨_, rfl⟩) (by decide)).2.1 Config.default
      { Config.AMQP.default with ProcessingExchangeOutputName := "processing_exchange_output" }
      sampleUnmarshalMsg (by decide)).1,
    ((AMQP.AddInterpretationQueueListener_acks_and_notifies sampleMarshal
      [sampleDelivery, sampleDelivery]
      (World.init dbValid [] [] [], ⟨[true, true], [true], []⟩)
      (fun _ => ⟨_, rfl⟩) (by decide)).2.1 Config.default
      { Config.AMQP.default with ProcessingExchangeOutputName := "processing_exchange_output" }
      sampleUnmarshalMsg (by decide)).2.1.trans (by decide)⟩

end UploadAuto
